import Mathlib

/-!
# Rush-Hour move engine (hw5/part2): embedding of `MoveVehicle.h` and `GameBoard.h`

The C++ source computes on types: a board is `GameBoard<List<List<BoardCell<..>...>...>>`,
the template parameters of kind `int` are machine integers, and a failing
`static_assert` (or the use of a member that does not exist) rejects the program.
Here a board is a list of rows of cells, `int` parameters are `Int`, and a rejected
instantiation is an `Except.error` carrying the kind of the first check that fails
in instantiation order.
-/

namespace RushHour

/-! ## Data model -/

/-- Modelled from the spec: `CellType.h` is not among the sources. The spec gives a cell a
vehicle identity or `EMPTY`; the source only ever compares a `CellType` with `EMPTY` or with
another `CellType`. -/
inductive CellType where
  | EMPTY
  | vehicle (id : Nat)
  deriving DecidableEq

/-- Modelled from the spec: `Direction.h` is not among the sources; the four enumerators are
the ones `MoveVehicle.h` names. -/
inductive Direction where
  | UP
  | DOWN
  | LEFT
  | RIGHT
  deriving DecidableEq

/-- Modelled from the spec: `BoardCell.h` is not among the sources. `BoardCell<type, direction,
length>` as used by `MoveVehicle.h` (`my_cell::type`, `my_cell::direction`, `my_cell::length`,
`BoardCell<EMPTY, RIGHT, 1>`). -/
structure BoardCell where
  type : CellType
  direction : Direction
  length : Int
  deriving DecidableEq

/-- The main list of a `GameBoard`: a list of rows, each a list of cells. -/
abbrev Board := List (List BoardCell)

/-- The outcomes of a rejected instantiation. The first six are the error kinds of the
spec, attached to the `static_assert`s of the source as follows: "Error Row, Move" and
"Error column, Move" are `OutOfBounds`, "Error, empty cell MoveVehicle" is `EmptyCellMove`,
"Error, direction cell MoveVehicle" is `OrientationMismatch`, "Error, Collision cell
MoveVehicle" is `Collision`, "Type was not found!" is `VehicleNotFound`, and the assertion of
`Move` on its amount is `InvalidAmount`. `InstantiationDepth` is the outcome of a chain of
recursive instantiations that never meets a terminating specialization. -/
inductive MoveError where
  | OutOfBounds
  | VehicleNotFound
  | EmptyCellMove
  | OrientationMismatch
  | Collision
  | InvalidAmount
  | InstantiationDepth
  deriving DecidableEq

/-- Modelled from the spec: `Utilities.h` is not among the sources. `GetAtIndex<N, L>::value`
is the element of `L` at index `N`; the spec gives a read outside the container the failure
`OutOfBounds`. An index below zero is outside the container. -/
def GetAtIndex {α : Type} (N : Int) (L : List α) : Except MoveError α :=
  if N < 0 then .error .OutOfBounds
  else
    match L[N.toNat]? with
    | some v => .ok v
    | none => .error .OutOfBounds

/-- Modelled from the spec: `Utilities.h` is not among the sources. `SetAtIndex<N, U, L>::list`
is `L` with the element at index `N` replaced by `U`; an index outside the list has no
element to replace and is rejected. -/
def SetAtIndex {α : Type} (N : Int) (U : α) (L : List α) : Except MoveError (List α) :=
  if N < 0 then .error .OutOfBounds
  else if N.toNat < L.length then .ok (L.set N.toNat U)
  else .error .OutOfBounds

/-- Modelled from the spec: `Utilities.h` is not among the sources.
`ConditionalInteger<b, x, y>::value` is `x` when `b` holds and `y` otherwise. -/
def ConditionalInteger (b : Bool) (x y : Int) : Int :=
  if b then x else y

/-- Modelled from the spec: `TransposeList.h` is not among the sources. `Transpose<M>::matrix`
is the board in which what was column `c` is now row `c`: it has one row per column of the
first row of `M`, and row `c` lists the cells at index `c` of the rows of `M`, top to bottom. -/
def Transpose (M : Board) : Board :=
  match M with
  | [] => []
  | head :: _ => (List.range head.length).map (fun c => M.filterMap (fun row => row[c]?))

/-- `GameBoard<L>::width`, which is `L::head::size`. The empty list has no `head`; every use
below comes after a read of a cell of the board has succeeded. -/
def GameBoard.width (L : Board) : Int :=
  match L with
  | [] => 0
  | head :: _ => head.length

/-- `GameBoard<L>::length`, which is `L::size`. -/
def GameBoard.length (L : Board) : Int :=
  L.length

/-! ## Locator -/

/-- The primary template `Find_Car_Helper<type, type2, row, col, false, B>` together with
its specialization for `done = true`. `type2` is the type of the cell at `(row, col)`.
The first argument of kind `Nat` bounds the length of the chain of instantiations of the
primary template; `FindCar` passes the number of cells of the board.

The members are computed in the order of the source: the `static_assert`, then
`next_row`, `next_col`, then the read of `next_cell` (done whether or not the car was
found), then `next_helper`, which is the `done = true` specialization when `found`.

The value is the outcome at the first failing check. A failing `static_assert` rejects the
program with `VehicleNotFound`, and that is the value here; the compiler does not stop
instantiating there, and the instantiations it goes on to make are followed by
`Find_Car_Helper_chain`. -/
def Find_Car_Helper (type : CellType) (B : Board) :
    Nat → CellType → Int → Int → Except MoveError (Int × Int)
  | 0, _, _, _ => .error .InstantiationDepth
  | fuel + 1, type2, row, col =>
    let last_row : Bool := (GameBoard.length B == row + 1)
    let found : Bool := (type == type2)
    let last_cell_in_board : Bool := (last_row && (col + 1 == GameBoard.width B))
    if !found && last_cell_in_board then .error .VehicleNotFound
    else
      let next_row := ConditionalInteger (col + 1 == GameBoard.width B)
        (ConditionalInteger last_cell_in_board row (row + 1)) row
      let next_col := ConditionalInteger (col + 1 == GameBoard.width B) 0
        (ConditionalInteger last_cell_in_board col (col + 1))
      match GetAtIndex next_row B with
      | .error e => .error e
      | .ok next_row_list =>
        match GetAtIndex next_col next_row_list with
        | .error e => .error e
        | .ok next_cell =>
          if found then .ok (row, col)
          else Find_Car_Helper type B fuel next_cell.type next_row next_col

/-- `FindCar<type, Bo>`: `(X_row_idx, X_col_idx)`. `first_cell` is `mainList::head::head`,
which does not exist on a board without a first row or with an empty first row. -/
def FindCar (type : CellType) (Bo : Board) : Except MoveError (Int × Int) :=
  match Bo with
  | (first_cell :: _) :: _ =>
    Find_Car_Helper type Bo (Bo.length * (GameBoard.width Bo).toNat) first_cell.type 0 0
  | _ => .error .OutOfBounds

/-! ## Far end -/

/-- `Dir<c, Ro, Col, len>::row_i`. -/
def Dir.row_i (c : Direction) (Ro _Col len : Int) : Int :=
  match c with
  | .RIGHT => Ro
  | .LEFT => Ro
  | .UP => Ro + len - 1
  | .DOWN => Ro + len - 1

/-- `Dir<c, Ro, Col, len>::col_i`. -/
def Dir.col_i (c : Direction) (_Ro Col len : Int) : Int :=
  match c with
  | .RIGHT => Col + (len - 1)
  | .LEFT => Col + len - 1
  | .UP => Col
  | .DOWN => Col

/-! ## Mover -/

/-- `direct<RIGHT, counter, myL, my_cell, Co1, Ro1, Co2, Ro2>::moved` for `counter ≥ 0`,
by recursion on `counter`. -/
def direct_RIGHT (myL : Board) (my_cell : BoardCell) (Co1 Ro1 Co2 : Int) :
    Nat → Except MoveError Board
  | 0 => .ok myL
  | n + 1 =>
    let counter : Int := ((n + 1 : Nat) : Int)
    match direct_RIGHT myL my_cell Co1 Ro1 Co2 n with
    | .error e => .error e
    | .ok mainList =>
      match GetAtIndex Ro1 mainList with
      | .error e => .error e
      | .ok subList =>
        match GetAtIndex (Co2 + counter) subList with
        | .error e => .error e
        | .ok celli =>
          if celli.type ≠ CellType.EMPTY then .error .Collision
          else
            match SetAtIndex (Co2 + counter) my_cell subList with
            | .error e => .error e
            | .ok first =>
              match SetAtIndex (Co1 + counter - 1) (BoardCell.mk .EMPTY .RIGHT 1) first with
              | .error e => .error e
              | .ok second => SetAtIndex Ro1 second mainList

/-- `direct<LEFT, counter, myL, my_cell, Co1, Ro1, Co2, Ro2>::moved` for `counter ≥ 0`,
by recursion on `counter`. -/
def direct_LEFT (myL : Board) (my_cell : BoardCell) (Co1 Ro1 Co2 : Int) :
    Nat → Except MoveError Board
  | 0 => .ok myL
  | n + 1 =>
    let counter : Int := ((n + 1 : Nat) : Int)
    match direct_LEFT myL my_cell Co1 Ro1 Co2 n with
    | .error e => .error e
    | .ok mainList =>
      match GetAtIndex Ro1 mainList with
      | .error e => .error e
      | .ok subList =>
        match GetAtIndex (Co1 - counter) subList with
        | .error e => .error e
        | .ok celli =>
          if celli.type ≠ CellType.EMPTY then .error .Collision
          else
            match SetAtIndex (Co1 - counter) my_cell subList with
            | .error e => .error e
            | .ok first =>
              match SetAtIndex (Co2 - counter + 1) (BoardCell.mk .EMPTY .LEFT 1) first with
              | .error e => .error e
              | .ok second => SetAtIndex Ro1 second mainList

/-- `direct<d, counter, myL, my_cell, Co1, Ro1, Co2, Ro2>::moved`. For `counter < 0` the
chain `counter - 1, counter - 2, ...` never meets the specialization for `0`. `DOWN` and `UP`
with `counter = 0` are the specializations that return `myL`; otherwise they transpose, slide
`RIGHT` (`LEFT`) with rows and columns exchanged, and transpose back. -/
def direct (d : Direction) (counter : Int) (myL : Board) (my_cell : BoardCell)
    (Co1 Ro1 Co2 Ro2 : Int) : Except MoveError Board :=
  if counter < 0 then .error .InstantiationDepth
  else
    match d with
    | .RIGHT => direct_RIGHT myL my_cell Co1 Ro1 Co2 counter.toNat
    | .LEFT => direct_LEFT myL my_cell Co1 Ro1 Co2 counter.toNat
    | .DOWN =>
      if counter = 0 then .ok myL
      else
        match direct_RIGHT (Transpose myL) my_cell Ro1 Co1 Ro2 counter.toNat with
        | .error e => .error e
        | .ok trans_moved => .ok (Transpose trans_moved)
    | .UP =>
      if counter = 0 then .ok myL
      else
        match direct_LEFT (Transpose myL) my_cell Ro1 Co1 Ro2 counter.toNat with
        | .error e => .error e
        | .ok trans_moved => .ok (Transpose trans_moved)

/-! ## Move orchestrator -/

/-- The direction check of `MoveVehicle`: `Dl` and the cell's direction are both among
`UP`, `DOWN` or both among `LEFT`, `RIGHT`. -/
def directionOk (Dl cellDir : Direction) : Bool :=
  ((Dl == .UP || Dl == .DOWN) && (cellDir == .UP || cellDir == .DOWN)) ||
  ((Dl == .LEFT || Dl == .RIGHT) && (cellDir == .LEFT || cellDir == .RIGHT))

/-- `MoveVehicle<GameBoard<B>, R1, C1, Dl, A>::board`, as its main list. The reads of
`subList` and `my_cell` come first, then the four `static_assert`s, then `FindCar`, `Dir`
and `direct`. -/
def MoveVehicle (B : Board) (R1 C1 : Int) (Dl : Direction) (A : Int) :
    Except MoveError Board :=
  match GetAtIndex R1 B with
  | .error e => .error e
  | .ok subList =>
    match GetAtIndex C1 subList with
    | .error e => .error e
    | .ok my_cell =>
      if ¬ (R1 < GameBoard.length B) then .error .OutOfBounds
      else if ¬ (C1 < GameBoard.width B) then .error .OutOfBounds
      else if my_cell.type = CellType.EMPTY then .error .EmptyCellMove
      else if directionOk Dl my_cell.direction = false then .error .OrientationMismatch
      else
        match FindCar my_cell.type B with
        | .error e => .error e
        | .ok (R2, C2) =>
          let R3 := Dir.row_i Dl R2 C2 my_cell.length
          let C3 := Dir.col_i Dl R2 C2 my_cell.length
          direct Dl A B my_cell C2 R2 C3 R3

/-! ## Vocabulary of the specification -/

/-- The cell at row `r`, column `c` of a board, when there is one. -/
def cellAt (B : Board) (r c : Nat) : Option BoardCell :=
  (B[r]?).bind (fun row => row[c]?)

/-- The cell at integer coordinates; there is none at a negative row or column. -/
def cellAtInt (B : Board) (r c : Int) : Option BoardCell :=
  if r < 0 ∨ c < 0 then none else cellAt B r.toNat c.toNat

/-- A rectangular grid of `h` rows and `w` columns. -/
def Rect (B : Board) (h w : Nat) : Prop :=
  B.length = h ∧ ∀ row ∈ B, row.length = w

instance (B : Board) (h w : Nat) : Decidable (Rect B h w) := by
  unfold Rect; infer_instance

/-- A direction along the vertical axis. -/
def Direction.isVertical (d : Direction) : Bool :=
  d == .UP || d == .DOWN

/-- The opposite direction. -/
def Direction.opposite (d : Direction) : Direction :=
  match d with
  | .UP => .DOWN
  | .DOWN => .UP
  | .LEFT => .RIGHT
  | .RIGHT => .LEFT

/-- The cell `(r2, c2)` lies in the run of `zc.length` cells that starts at `(r, c)` and
extends downwards when `zc` is vertical and to the right when it is horizontal. -/
def inSpan (zc : BoardCell) (r c r2 c2 : Nat) : Prop :=
  if zc.direction.isVertical then c2 = c ∧ r ≤ r2 ∧ (r2 : Int) < (r : Int) + zc.length
  else r2 = r ∧ c ≤ c2 ∧ (c2 : Int) < (c : Int) + zc.length

instance (zc : BoardCell) (r c r2 c2 : Nat) : Decidable (inSpan zc r c r2 c2) := by
  unfold inSpan; infer_instance

/-- The Cell and Board invariants of the spec for one vehicle: `zc` is a vehicle cell of
length at least one, anchored at `(r, c)` (top-most cell of a vertical vehicle, left-most cell
of a horizontal one), its run lies inside the grid, every cell of the run is `zc` itself, and
no cell outside the run bears the identity of `zc`. -/
def IsVehicle (B : Board) (zc : BoardCell) (r c : Nat) : Prop :=
  zc.type ≠ CellType.EMPTY ∧ 1 ≤ zc.length ∧
  (if zc.direction.isVertical then (r : Int) + zc.length ≤ GameBoard.length B ∧
      (c : Int) < GameBoard.width B
    else (c : Int) + zc.length ≤ GameBoard.width B ∧ (r : Int) < GameBoard.length B) ∧
  ∀ r2, r2 < B.length → ∀ c2, c2 < (GameBoard.width B).toNat →
    if inSpan zc r c r2 c2 then cellAt B r2 c2 = some zc
    else (cellAt B r2 c2).map BoardCell.type ≠ some zc.type

instance (B : Board) (zc : BoardCell) (r c : Nat) : Decidable (IsVehicle B zc r c) := by
  unfold IsVehicle; infer_instance

/-- Two cells agree when bearing the same vehicle identity makes them the same cell value
(identity, direction and length). -/
def cellsAgree (x y : Option BoardCell) : Prop :=
  x.map BoardCell.type ≠ some CellType.EMPTY →
    x.map BoardCell.type = y.map BoardCell.type → x = y

instance (x y : Option BoardCell) : Decidable (cellsAgree x y) := by
  unfold cellsAgree; infer_instance

/-- The Cell invariant of the spec for a whole board: two cells of the grid that bear the
same vehicle identity are the same cell value. -/
def CellInv (B : Board) : Prop :=
  ∀ r1, r1 < B.length → ∀ c1, c1 < (GameBoard.width B).toNat →
  ∀ r2, r2 < B.length → ∀ c2, c2 < (GameBoard.width B).toNat →
    cellsAgree (cellAt B r1 c1) (cellAt B r2 c2)

instance (B : Board) : Decidable (CellInv B) := by
  unfold CellInv; infer_instance

/-- The cell a vehicle anchored at `(r, c)` newly enters at unit step `j` of a slide in
direction `d`: one past the far end for `RIGHT` and `DOWN`, one before the anchor for `LEFT`
and `UP`. -/
def enteredAt (d : Direction) (zc : BoardCell) (r c : Nat) (j : Nat) : Int × Int :=
  match d with
  | .RIGHT => ((r : Int), (c : Int) + zc.length - 1 + j)
  | .LEFT => ((r : Int), (c : Int) - j)
  | .DOWN => ((r : Int) + zc.length - 1 + j, (c : Int))
  | .UP => ((r : Int) - j, (c : Int))

/-- The cell newly entered at unit step `j` is inside the grid and bears `EMPTY`. -/
def stepFree (B : Board) (d : Direction) (zc : BoardCell) (r c : Nat) (j : Nat) : Prop :=
  ∃ e, cellAtInt B (enteredAt d zc r c j).1 (enteredAt d zc r c j).2 = some e ∧
    e.type = CellType.EMPTY

instance (B : Board) (d : Direction) (zc : BoardCell) (r c j : Nat) :
    Decidable (stepFree B d zc r c j) :=
  decidable_of_iff
    ((cellAtInt B (enteredAt d zc r c j).1 (enteredAt d zc r c j).2).map BoardCell.type =
      some CellType.EMPTY)
    (by unfold stepFree; exact Option.map_eq_some')

/-- Every cell newly entered during the unit steps `1 .. n` is inside the grid and `EMPTY`. -/
def pathFree (B : Board) (d : Direction) (zc : BoardCell) (r c : Nat) (n : Nat) : Prop :=
  ∀ j, 1 ≤ j → j ≤ n → stepFree B d zc r c j

instance (B : Board) (d : Direction) (zc : BoardCell) (r c n : Nat) :
    Decidable (pathFree B d zc r c n) :=
  decidable_of_iff (∀ j, j < n → stepFree B d zc r c (j + 1))
    ⟨fun hall j h1 h2 => by
      have hstep := hall (j - 1) (by omega)
      rwa [Nat.sub_add_cancel h1] at hstep,
     fun hall j hj => hall (j + 1) (by omega) (by omega)⟩

/-- The cells a vehicle anchored at `(r, c)` leaves behind when it slides `n` steps in
direction `d`. -/
def vacated (d : Direction) (zc : BoardCell) (r c n : Nat) (r2 c2 : Nat) : Prop :=
  match d with
  | .RIGHT => r2 = r ∧ c ≤ c2 ∧ c2 < c + n
  | .DOWN => c2 = c ∧ r ≤ r2 ∧ r2 < r + n
  | .LEFT => r2 = r ∧ (c : Int) + zc.length ≤ (c2 : Int) + n ∧ (c2 : Int) < (c : Int) + zc.length
  | .UP => c2 = c ∧ (r : Int) + zc.length ≤ (r2 : Int) + n ∧ (r2 : Int) < (r : Int) + zc.length

instance (d : Direction) (zc : BoardCell) (r c n r2 c2 : Nat) :
    Decidable (vacated d zc r c n r2 c2) := by
  unfold vacated; cases d <;> infer_instance

/-- The cells a vehicle anchored at `(r, c)` newly covers when it slides `n` steps in
direction `d`. -/
def entered (d : Direction) (zc : BoardCell) (r c n : Nat) (r2 c2 : Nat) : Prop :=
  match d with
  | .RIGHT => r2 = r ∧ (c : Int) + zc.length ≤ (c2 : Int) ∧ (c2 : Int) < (c : Int) + zc.length + n
  | .DOWN => c2 = c ∧ (r : Int) + zc.length ≤ (r2 : Int) ∧ (r2 : Int) < (r : Int) + zc.length + n
  | .LEFT => r2 = r ∧ c ≤ c2 + n ∧ c2 < c
  | .UP => c2 = c ∧ r ≤ r2 + n ∧ r2 < r

instance (d : Direction) (zc : BoardCell) (r c n r2 c2 : Nat) :
    Decidable (entered d zc r c n r2 c2) := by
  unfold entered; cases d <;> infer_instance

/-- The cell the Mover writes into a vacated position: `BoardCell<EMPTY, RIGHT, 1>` in
`direct<RIGHT, ..>` (which also serves `DOWN`), `BoardCell<EMPTY, LEFT, 1>` in
`direct<LEFT, ..>` (which also serves `UP`). -/
def placeholder (d : Direction) : BoardCell :=
  match d with
  | .RIGHT => BoardCell.mk .EMPTY .RIGHT 1
  | .DOWN => BoardCell.mk .EMPTY .RIGHT 1
  | .LEFT => BoardCell.mk .EMPTY .LEFT 1
  | .UP => BoardCell.mk .EMPTY .LEFT 1

/-- The anchor of a vehicle after a slide of `n` steps in direction `d` from `(r, c)`. -/
def movedAnchor (d : Direction) (r c n : Nat) : Nat × Nat :=
  match d with
  | .RIGHT => (r, c + n)
  | .DOWN => (r + n, c)
  | .LEFT => (r, c - n)
  | .UP => (r - n, c)

/-! ## Boards of the testable properties -/

/-- An empty cell, written the way the Mover writes a cell vacated by a move to the right. -/
def cellE : BoardCell := BoardCell.mk .EMPTY .RIGHT 1

/-- The vertical vehicle `Z` of length 3. -/
def cellZ : BoardCell := BoardCell.mk (.vehicle 3) .DOWN 3

/-- The horizontal vehicle `X` of length 2. -/
def cellX : BoardCell := BoardCell.mk (.vehicle 1) .RIGHT 2

/-- The horizontal vehicle `Y` of length 1. -/
def cellY : BoardCell := BoardCell.mk (.vehicle 2) .RIGHT 1

/-- The 6 by 6 board that is empty except `Z` at rows 0 to 2 of column 3. -/
def boardZ : Board :=
  [[cellE, cellE, cellE, cellZ, cellE, cellE],
   [cellE, cellE, cellE, cellZ, cellE, cellE],
   [cellE, cellE, cellE, cellZ, cellE, cellE],
   [cellE, cellE, cellE, cellE, cellE, cellE],
   [cellE, cellE, cellE, cellE, cellE, cellE],
   [cellE, cellE, cellE, cellE, cellE, cellE]]

/-- The 6 by 6 board with `X` at row 2, columns 0 and 1, and `Y` at row 2, column 2. -/
def boardXY : Board :=
  [[cellE, cellE, cellE, cellE, cellE, cellE],
   [cellE, cellE, cellE, cellE, cellE, cellE],
   [cellX, cellX, cellY, cellE, cellE, cellE],
   [cellE, cellE, cellE, cellE, cellE, cellE],
   [cellE, cellE, cellE, cellE, cellE, cellE],
   [cellE, cellE, cellE, cellE, cellE, cellE]]

/-- The cell the Mover writes into a position vacated by a move to the left or upwards. -/
def cellL : BoardCell := BoardCell.mk .EMPTY .LEFT 1

/-- The board `boardZ` after `Z` has moved `DOWN` by 2. -/
def boardZdown : Board :=
  [[cellE, cellE, cellE, cellE, cellE, cellE],
   [cellE, cellE, cellE, cellE, cellE, cellE],
   [cellE, cellE, cellE, cellZ, cellE, cellE],
   [cellE, cellE, cellE, cellZ, cellE, cellE],
   [cellE, cellE, cellE, cellZ, cellE, cellE],
   [cellE, cellE, cellE, cellE, cellE, cellE]]

/-- The board `boardZdown` after `Z` has moved back `UP` by 2. -/
def boardZback : Board :=
  [[cellE, cellE, cellE, cellZ, cellE, cellE],
   [cellE, cellE, cellE, cellZ, cellE, cellE],
   [cellE, cellE, cellE, cellZ, cellE, cellE],
   [cellE, cellE, cellE, cellL, cellE, cellE],
   [cellE, cellE, cellE, cellL, cellE, cellE],
   [cellE, cellE, cellE, cellE, cellE, cellE]]

/-! ## The `Move` command -/

/-- `Move<t_type, d_dir, a_amount>`: its two `static_assert`s, in the order of the source,
then its three constants `type`, `direction` and `amount`. -/
def Move (t_type : CellType) (d_dir : Direction) (a_amount : Int) :
    Except MoveError (CellType × Direction × Int) :=
  if ¬ (a_amount ≥ 0) then .error .InvalidAmount
  else if ¬ (t_type ≠ CellType.EMPTY) then .error .EmptyCellMove
  else .ok (t_type, d_dir, a_amount)

/-! ## The recursion of the Mover, instantiation by instantiation -/

/-- The template `direct<RIGHT, counter, ..>` with its counter an `int`, followed the way
the compiler instantiates it: `counter = 0` selects the specialization that returns `myL`,
any other counter first instantiates `direct<RIGHT, counter - 1, ..>`. The first argument
of kind `Nat` bounds the number of nested instantiations; the result is `none` when that
many instantiations have not met the specialization for 0. -/
def direct_RIGHT_chain (myL : Board) (my_cell : BoardCell) (Co1 Ro1 Co2 : Int) :
    Nat → Int → Option (Except MoveError Board)
  | 0, _ => none
  | depth + 1, counter =>
    if counter = 0 then some (.ok myL)
    else
      match direct_RIGHT_chain myL my_cell Co1 Ro1 Co2 depth (counter - 1) with
      | none => none
      | some (.error e) => some (.error e)
      | some (.ok mainList) =>
        match GetAtIndex Ro1 mainList with
        | .error e => some (.error e)
        | .ok subList =>
          match GetAtIndex (Co2 + counter) subList with
          | .error e => some (.error e)
          | .ok celli =>
            if celli.type ≠ CellType.EMPTY then some (.error .Collision)
            else
              match SetAtIndex (Co2 + counter) my_cell subList with
              | .error e => some (.error e)
              | .ok first =>
                match SetAtIndex (Co1 + counter - 1) (BoardCell.mk .EMPTY .RIGHT 1) first with
                | .error e => some (.error e)
                | .ok second => some (SetAtIndex Ro1 second mainList)

/-- The template `direct<LEFT, counter, ..>` with its counter an `int`, followed the way the
compiler instantiates it, to at most the given number of nested instantiations. -/
def direct_LEFT_chain (myL : Board) (my_cell : BoardCell) (Co1 Ro1 Co2 : Int) :
    Nat → Int → Option (Except MoveError Board)
  | 0, _ => none
  | depth + 1, counter =>
    if counter = 0 then some (.ok myL)
    else
      match direct_LEFT_chain myL my_cell Co1 Ro1 Co2 depth (counter - 1) with
      | none => none
      | some (.error e) => some (.error e)
      | some (.ok mainList) =>
        match GetAtIndex Ro1 mainList with
        | .error e => some (.error e)
        | .ok subList =>
          match GetAtIndex (Co1 - counter) subList with
          | .error e => some (.error e)
          | .ok celli =>
            if celli.type ≠ CellType.EMPTY then some (.error .Collision)
            else
              match SetAtIndex (Co1 - counter) my_cell subList with
              | .error e => some (.error e)
              | .ok first =>
                match SetAtIndex (Co2 - counter + 1) (BoardCell.mk .EMPTY .LEFT 1) first with
                | .error e => some (.error e)
                | .ok second => some (SetAtIndex Ro1 second mainList)

/-! ## The recursion of the Locator, instantiation by instantiation -/

/-- The primary template `Find_Car_Helper<type, type2, row, col, false, B>`, followed the way
the compiler instantiates it. A failing `static_assert` rejects the program but does not end
the instantiation of the class: the members `X_row` and `X_col` after it still require
`next_helper`, which is the primary template again unless `found`, and only the
specialization for `done = true` ends the chain. The first argument of kind `Nat` bounds the
number of nested instantiations of the primary template; the result is `none` when that many
instantiations have not met the specialization for `done = true`. When the chain ends, an
instantiation whose `static_assert` failed yields `VehicleNotFound`. -/
def Find_Car_Helper_chain (type : CellType) (B : Board) :
    Nat → CellType → Int → Int → Option (Except MoveError (Int × Int))
  | 0, _, _, _ => none
  | depth + 1, type2, row, col =>
    let last_row : Bool := (GameBoard.length B == row + 1)
    let found : Bool := (type == type2)
    let last_cell_in_board : Bool := (last_row && (col + 1 == GameBoard.width B))
    let next_row := ConditionalInteger (col + 1 == GameBoard.width B)
      (ConditionalInteger last_cell_in_board row (row + 1)) row
    let next_col := ConditionalInteger (col + 1 == GameBoard.width B) 0
      (ConditionalInteger last_cell_in_board col (col + 1))
    let members : Option (Except MoveError (Int × Int)) :=
      match GetAtIndex next_row B with
      | .error e => some (.error e)
      | .ok next_row_list =>
        match GetAtIndex next_col next_row_list with
        | .error e => some (.error e)
        | .ok next_cell =>
          if found then some (.ok (row, col))
          else Find_Car_Helper_chain type B depth next_cell.type next_row next_col
    if !found && last_cell_in_board then members.map (fun _ => .error .VehicleNotFound)
    else members

/-- A cell of the board is `EMPTY`, or it belongs to a vehicle that meets `IsVehicle` at some
anchor of the grid. -/
def cellCovered (B : Board) (x : Option BoardCell) : Prop :=
  match x with
  | none => True
  | some y => y.type ≠ CellType.EMPTY →
    ∃ r, r < B.length ∧ ∃ c, c < (GameBoard.width B).toNat ∧ IsVehicle B y r c

instance (B : Board) (x : Option BoardCell) : Decidable (cellCovered B x) := by
  unfold cellCovered; cases x <;> infer_instance

/-- The Board invariant of the spec, with the Cell invariant: every cell of the grid that is
not `EMPTY` belongs to a vehicle whose cells are one contiguous run of `length` equal cells
along its direction, and no other cell bears its identity. -/
def BoardInv (B : Board) : Prop :=
  ∀ r1, r1 < B.length → ∀ c1, c1 < (GameBoard.width B).toNat → cellCovered B (cellAt B r1 c1)

instance (B : Board) : Decidable (BoardInv B) := by
  unfold BoardInv; infer_instance

/-- A slide of `n` steps in direction `d` would put a cell of the vehicle anchored at
`(r, c)` outside a grid of `h` rows and `w` columns. -/
def leavesGrid (d : Direction) (zc : BoardCell) (r c n h w : Nat) : Prop :=
  match d with
  | .RIGHT => (w : Int) ≤ (c : Int) + zc.length - 1 + n
  | .LEFT => c < n
  | .DOWN => (h : Int) ≤ (r : Int) + zc.length - 1 + n
  | .UP => r < n

instance (d : Direction) (zc : BoardCell) (r c n h w : Nat) :
    Decidable (leavesGrid d zc r c n h w) := by
  unfold leavesGrid; cases d <;> infer_instance

/-! ## More boards -/

/-- A vertical vehicle of length 2. -/
def cellV : BoardCell := BoardCell.mk (.vehicle 4) .UP 2

/-- A board of 4 rows and 2 columns with `cellV` at rows 2 and 3 of column 1. -/
def boardTall : Board :=
  [[cellE, cellE],
   [cellE, cellE],
   [cellE, cellV],
   [cellE, cellV]]

/-- A board of one row: `Y` (length 1) at column 0, then three empty cells. -/
def boardRow : Board :=
  [[cellY, cellE, cellE, cellE]]

/-- A board of 2 rows and 2 columns whose only vehicle cell is its last cell. -/
def boardLast : Board :=
  [[cellE, cellE],
   [cellE, cellY]]

/-- A board of one row: two empty cells, then `X` (length 2) at columns 2 and 3. -/
def boardPair : Board :=
  [[cellE, cellE, cellX, cellX]]

/-- An empty cell whose direction and length are not those of a placeholder of the Mover. -/
def cellO : BoardCell := BoardCell.mk .EMPTY .UP 0

/-- A board of one row: `X` (length 2) at columns 0 and 1, then two empty cells `cellO`. -/
def boardOdd : Board :=
  [[cellX, cellX, cellO, cellO]]

/-! ## Lemmas -/

set_option maxRecDepth 100000

theorem GetAtIndex_nat {α : Type} (n : Nat) (L : List α) (v : α) (h : L[n]? = some v) :
    GetAtIndex (n : Int) L = .ok v := by
  simp [GetAtIndex, h]

theorem GetAtIndex_nat_none {α : Type} (n : Nat) (L : List α) (h : L[n]? = none) :
    GetAtIndex (n : Int) L = .error .OutOfBounds := by
  simp [GetAtIndex, h]

theorem GetAtIndex_neg {α : Type} (i : Int) (L : List α) (h : i < 0) :
    GetAtIndex i L = .error .OutOfBounds := by
  simp [GetAtIndex, h]

theorem lt_length_of_getElem? {α : Type} (L : List α) (n : Nat) (v : α) (h : L[n]? = some v) :
    n < L.length := by
  obtain ⟨hl, _⟩ := List.getElem?_eq_some.1 h
  exact hl

/-! ### Failing steps -/

theorem direct_RIGHT_error_le (B : Board) (cell : BoardCell) (Co1 Ro1 Co2 : Int) (e : MoveError)
    (k : Nat) (h : direct_RIGHT B cell Co1 Ro1 Co2 k = .error e) (m : Nat) (hm : k ≤ m) :
    direct_RIGHT B cell Co1 Ro1 Co2 m = .error e := by
  induction m with
  | zero =>
    have : k = 0 := by omega
    subst this; exact h
  | succ m ih =>
    by_cases hk : k = m + 1
    · subst hk; exact h
    · have := ih (by omega)
      simp only [direct_RIGHT, this]

theorem direct_LEFT_error_le (B : Board) (cell : BoardCell) (Co1 Ro1 Co2 : Int) (e : MoveError)
    (k : Nat) (h : direct_LEFT B cell Co1 Ro1 Co2 k = .error e) (m : Nat) (hm : k ≤ m) :
    direct_LEFT B cell Co1 Ro1 Co2 m = .error e := by
  induction m with
  | zero =>
    have : k = 0 := by omega
    subst this; exact h
  | succ m ih =>
    by_cases hk : k = m + 1
    · subst hk; exact h
    · have := ih (by omega)
      simp only [direct_LEFT, this]

/-- The step after `k` successful ones, when the cell to enter is occupied. -/
theorem direct_RIGHT_step_blocked (B B2 : Board) (cell : BoardCell) (r b : Nat) (Co1 : Int)
    (k : Nat) (hk : direct_RIGHT B cell Co1 (r : Int) (b : Int) k = .ok B2)
    (rowk : List BoardCell) (hrow : B2[r]? = some rowk) (x : BoardCell)
    (hx : rowk[b + (k + 1)]? = some x) (hne : x.type ≠ CellType.EMPTY) :
    direct_RIGHT B cell Co1 (r : Int) (b : Int) (k + 1) = .error .Collision := by
  have e1 : (b : Int) + ((k + 1 : Nat) : Int) = ((b + (k + 1) : Nat) : Int) := by push_cast; ring
  simp only [direct_RIGHT, hk, e1]
  rw [GetAtIndex_nat r _ rowk hrow]
  simp only []
  rw [GetAtIndex_nat _ _ x hx]
  simp only [ne_eq, hne, not_false_eq_true, if_true]

/-- The step after `k` successful ones, when the cell to enter is outside the row. -/
theorem direct_RIGHT_step_outside (B B2 : Board) (cell : BoardCell) (r b : Nat) (Co1 : Int)
    (k : Nat) (hk : direct_RIGHT B cell Co1 (r : Int) (b : Int) k = .ok B2)
    (rowk : List BoardCell) (hrow : B2[r]? = some rowk)
    (hx : rowk[b + (k + 1)]? = none) :
    direct_RIGHT B cell Co1 (r : Int) (b : Int) (k + 1) = .error .OutOfBounds := by
  have e1 : (b : Int) + ((k + 1 : Nat) : Int) = ((b + (k + 1) : Nat) : Int) := by push_cast; ring
  simp only [direct_RIGHT, hk, e1]
  rw [GetAtIndex_nat r _ rowk hrow]
  simp only []
  rw [GetAtIndex_nat_none _ _ hx]

theorem direct_LEFT_step_blocked (B B2 : Board) (cell : BoardCell) (r a : Nat) (Co2 : Int)
    (k : Nat) (hka : k + 1 ≤ a) (hk : direct_LEFT B cell (a : Int) (r : Int) Co2 k = .ok B2)
    (rowk : List BoardCell) (hrow : B2[r]? = some rowk) (x : BoardCell)
    (hx : rowk[a - (k + 1)]? = some x) (hne : x.type ≠ CellType.EMPTY) :
    direct_LEFT B cell (a : Int) (r : Int) Co2 (k + 1) = .error .Collision := by
  have e1 : (a : Int) - ((k + 1 : Nat) : Int) = ((a - (k + 1) : Nat) : Int) := by omega
  simp only [direct_LEFT, hk, e1]
  rw [GetAtIndex_nat r _ rowk hrow]
  simp only []
  rw [GetAtIndex_nat _ _ x hx]
  simp only [ne_eq, hne, not_false_eq_true, if_true]

theorem direct_LEFT_step_outside (B B2 : Board) (cell : BoardCell) (r a : Nat) (Co2 : Int)
    (k : Nat) (hka : a < k + 1) (hk : direct_LEFT B cell (a : Int) (r : Int) Co2 k = .ok B2)
    (rowk : List BoardCell) (hrow : B2[r]? = some rowk) :
    direct_LEFT B cell (a : Int) (r : Int) Co2 (k + 1) = .error .OutOfBounds := by
  simp only [direct_LEFT, hk]
  rw [GetAtIndex_nat r _ rowk hrow]
  simp only []
  rw [GetAtIndex_neg _ _ (by omega)]

/-! ### Rectangular boards -/

theorem Rect.row {B : Board} {h w : Nat} (hR : Rect B h w) {r : Nat} (hr : r < h) :
    ∃ row, B[r]? = some row ∧ row.length = w := by
  obtain ⟨hl, hrows⟩ := hR
  have hr2 : r < B.length := by omega
  refine ⟨B[r], List.getElem?_eq_getElem hr2, hrows _ (List.getElem_mem hr2)⟩

theorem Rect.cell {B : Board} {h w : Nat} (hR : Rect B h w) {r c : Nat} (hr : r < h)
    (hc : c < w) : ∃ x, cellAt B r c = some x := by
  obtain ⟨row, hrow, hlen⟩ := hR.row hr
  have hc2 : c < row.length := by omega
  exact ⟨row[c], by simp [cellAt, hrow, List.getElem?_eq_getElem hc2]⟩

theorem Rect.bounds {B : Board} {h w : Nat} (hR : Rect B h w) {r c : Nat} {x : BoardCell}
    (hx : cellAt B r c = some x) : r < h ∧ c < w := by
  unfold cellAt at hx
  cases hrow : B[r]? with
  | none => rw [hrow] at hx; simp at hx
  | some row =>
    rw [hrow] at hx
    simp only [Option.some_bind] at hx
    have h1 := lt_length_of_getElem? B r row hrow
    have h2 := lt_length_of_getElem? row c x hx
    have h3 : row ∈ B := List.getElem?_mem hrow
    have h4 := hR.2 row h3
    have h5 := hR.1
    omega

theorem Rect.length_eq {B : Board} {h w : Nat} (hR : Rect B h w) :
    GameBoard.length B = (h : Int) := by
  simp [GameBoard.length, hR.1]

theorem Rect.width_eq {B : Board} {h w : Nat} (hR : Rect B h w) (hh : 0 < h) :
    GameBoard.width B = (w : Int) := by
  obtain ⟨hl, hrows⟩ := hR
  cases B with
  | nil => simp at hl; omega
  | cons head tl =>
    simp [GameBoard.width, hrows head (List.mem_cons_self _ _)]

theorem Rect.set {B : Board} {h w : Nat} (hR : Rect B h w) (r : Nat) (row2 : List BoardCell)
    (hlen : row2.length = w) : Rect (B.set r row2) h w := by
  obtain ⟨hl, hrows⟩ := hR
  refine ⟨by simp [hl], ?_⟩
  intro row hmem
  rcases List.mem_or_eq_of_mem_set hmem with h1 | h1
  · exact hrows row h1
  · rw [h1]; exact hlen

theorem cellAt_set (B : Board) (r : Nat) (row2 : List BoardCell) (hr : r < B.length)
    (r2 c2 : Nat) :
    cellAt (B.set r row2) r2 c2 = if r2 = r then row2[c2]? else cellAt B r2 c2 := by
  unfold cellAt
  by_cases h : r2 = r
  · subst h
    rw [List.getElem?_set_self hr]
    simp
  · rw [List.getElem?_set_ne (fun h2 => h h2.symm)]
    simp [h]

/-- Two rectangular boards of the same size with the same cells are the same board. -/
theorem Rect.ext {B B2 : Board} {h w : Nat} (hR : Rect B h w) (hR2 : Rect B2 h w)
    (hcell : ∀ r c, cellAt B r c = cellAt B2 r c) : B = B2 := by
  apply List.ext_getElem?
  intro r
  by_cases hr : r < h
  · obtain ⟨row, hrow, hlen⟩ := hR.row hr
    obtain ⟨row2, hrow2, hlen2⟩ := hR2.row hr
    rw [hrow, hrow2]
    congr 1
    apply List.ext_getElem?
    intro c
    have := hcell r c
    simpa [cellAt, hrow, hrow2] using this
  · have h1 : B.length ≤ r := by have := hR.1; omega
    have h2 : B2.length ≤ r := by have := hR2.1; omega
    rw [List.getElem?_eq_none h1, List.getElem?_eq_none h2]

theorem SetAtIndex_nat {α : Type} (n : Nat) (U : α) (L : List α) (h : n < L.length) :
    SetAtIndex (n : Int) U L = .ok (L.set n U) := by
  simp [SetAtIndex, h]

theorem set_self_of_getElem? {α : Type} (L : List α) (n : Nat) (v : α) (h : L[n]? = some v) :
    L.set n v = L := by
  apply List.ext_getElem?
  intro i
  rw [List.getElem?_set]
  split_ifs with h1 h2
  · subst h1; exact h.symm
  · subst h1
    have := List.getElem?_eq_some.1 h
    obtain ⟨hl, _⟩ := this
    exact absurd hl h2
  · rfl

/-! ### Steps to the right on one row -/

/-- Closed form of `k` unit steps to the right on row `r`. -/
theorem direct_RIGHT_ok (B : Board) (cell : BoardCell) (r a b : Nat) (hab : a ≤ b)
    (row : List BoardCell) (hrow : B[r]? = some row) (k : Nat)
    (hfree : ∀ j, 1 ≤ j → j ≤ k → ∃ e, row[b + j]? = some e ∧ e.type = CellType.EMPTY) :
    ∃ row2, direct_RIGHT B cell (a : Int) (r : Int) (b : Int) k = .ok (B.set r row2) ∧
      row2.length = row.length ∧
      ∀ i, row2[i]? =
        if a ≤ i ∧ i < a + k then some (BoardCell.mk .EMPTY .RIGHT 1)
        else if b < i ∧ i ≤ b + k then some cell
        else row[i]? := by
  induction k with
  | zero =>
    refine ⟨row, ?_, rfl, ?_⟩
    · simp [direct_RIGHT, set_self_of_getElem? B r row hrow]
    · intro i
      have h1 : ¬ (a ≤ i ∧ i < a + 0) := by omega
      have h2 : ¬ (b < i ∧ i ≤ b + 0) := by omega
      rw [if_neg h1, if_neg h2]
  | succ k ih =>
    obtain ⟨rowk, hk, hlen, hget⟩ := ih (fun j h1 h2 => hfree j h1 (by omega))
    obtain ⟨e, he, hety⟩ := hfree (k + 1) (by omega) (by omega)
    have hr : r < B.length := lt_length_of_getElem? B r row hrow
    have hbk : b + (k + 1) < row.length := lt_length_of_getElem? row _ e he
    have hsub : (B.set r rowk)[r]? = some rowk := by
      rw [List.getElem?_set_self hr]
    have hcelli : rowk[b + (k + 1)]? = some e := by
      rw [hget]
      have h1 : ¬ (a ≤ b + (k + 1) ∧ b + (k + 1) < a + k) := by omega
      have h2 : ¬ (b < b + (k + 1) ∧ b + (k + 1) ≤ b + k) := by omega
      simp only [h1, h2, if_false]
      exact he
    have e1 : (b : Int) + ((k + 1 : Nat) : Int) = ((b + (k + 1) : Nat) : Int) := by push_cast; ring
    have e2 : (a : Int) + ((k + 1 : Nat) : Int) - 1 = ((a + k : Nat) : Int) := by push_cast; ring
    refine ⟨(rowk.set (b + (k + 1)) cell).set (a + k) (BoardCell.mk .EMPTY .RIGHT 1), ?_, ?_, ?_⟩
    · simp only [direct_RIGHT, hk, e1, e2]
      rw [GetAtIndex_nat r _ rowk hsub]
      simp only []
      rw [GetAtIndex_nat _ _ e hcelli]
      simp only [hety, ne_eq, not_true_eq_false, if_false]
      rw [SetAtIndex_nat _ _ _ (by omega)]
      simp only []
      rw [SetAtIndex_nat _ _ _ (by rw [List.length_set]; omega)]
      simp only []
      rw [SetAtIndex_nat _ _ _ (by rw [List.length_set]; exact hr)]
      rw [List.set_set]
    · simp [hlen]
    · intro i
      rw [List.getElem?_set, List.getElem?_set, hget]
      simp only [List.length_set]
      by_cases c1 : a + k = i
      · have h0 : a + k < rowk.length := by omega
        have h1 : a ≤ i ∧ i < a + (k + 1) := by omega
        simp [c1, h1]
        omega
      · by_cases c2 : b + (k + 1) = i
        · have h0 : b + (k + 1) < rowk.length := by omega
          have h1 : ¬ (a ≤ i ∧ i < a + (k + 1)) := by omega
          have h2 : (b < i ∧ i ≤ b + (k + 1)) := by omega
          simp [c1, c2, h1, h2]
          omega
        · by_cases c3 : a ≤ i ∧ i < a + k
          · have h1 : a ≤ i ∧ i < a + (k + 1) := by omega
            simp [c1, c2, c3, h1]
          · have h1 : ¬ (a ≤ i ∧ i < a + (k + 1)) := by omega
            by_cases c4 : b < i ∧ i ≤ b + k
            · have h2 : (b < i ∧ i ≤ b + (k + 1)) := by omega
              simp [c1, c2, c3, c4, h1, h2]
            · have h2 : ¬ (b < i ∧ i ≤ b + (k + 1)) := by omega
              simp [c1, c2, c3, c4, h1, h2]

/-! ### Steps to the left on one row -/

/-- Closed form of `k` unit steps to the left on row `r`. -/
theorem direct_LEFT_ok (B : Board) (cell : BoardCell) (r a b : Nat) (hab : a ≤ b)
    (row : List BoardCell) (hrow : B[r]? = some row) (hb : b < row.length) (k : Nat)
    (hk : k ≤ a)
    (hfree : ∀ j, 1 ≤ j → j ≤ k → ∃ e, row[a - j]? = some e ∧ e.type = CellType.EMPTY) :
    ∃ row2, direct_LEFT B cell (a : Int) (r : Int) (b : Int) k = .ok (B.set r row2) ∧
      row2.length = row.length ∧
      ∀ i, row2[i]? =
        if b < i + k ∧ i ≤ b then some (BoardCell.mk .EMPTY .LEFT 1)
        else if a ≤ i + k ∧ i < a then some cell
        else row[i]? := by
  induction k with
  | zero =>
    refine ⟨row, ?_, rfl, ?_⟩
    · simp [direct_LEFT, set_self_of_getElem? B r row hrow]
    · intro i
      have h1 : ¬ (b < i + 0 ∧ i ≤ b) := by omega
      have h2 : ¬ (a ≤ i + 0 ∧ i < a) := by omega
      rw [if_neg h1, if_neg h2]
  | succ k ih =>
    obtain ⟨rowk, hk1, hlen, hget⟩ := ih (by omega) (fun j h1 h2 => hfree j h1 (by omega))
    obtain ⟨e, he, hety⟩ := hfree (k + 1) (by omega) (by omega)
    have hr : r < B.length := lt_length_of_getElem? B r row hrow
    have hsub : (B.set r rowk)[r]? = some rowk := by
      rw [List.getElem?_set_self hr]
    have hcelli : rowk[a - (k + 1)]? = some e := by
      rw [hget]
      have h1 : ¬ (b < a - (k + 1) + k ∧ a - (k + 1) ≤ b) := by omega
      have h2 : ¬ (a ≤ a - (k + 1) + k ∧ a - (k + 1) < a) := by omega
      rw [if_neg h1, if_neg h2]
      exact he
    have e1 : (a : Int) - ((k + 1 : Nat) : Int) = ((a - (k + 1) : Nat) : Int) := by omega
    have e2 : (b : Int) - ((k + 1 : Nat) : Int) + 1 = ((b - k : Nat) : Int) := by omega
    have hak : a - (k + 1) < rowk.length := by omega
    refine ⟨(rowk.set (a - (k + 1)) cell).set (b - k) (BoardCell.mk .EMPTY .LEFT 1), ?_, ?_, ?_⟩
    · simp only [direct_LEFT, hk1, e1, e2]
      rw [GetAtIndex_nat r _ rowk hsub]
      simp only []
      rw [GetAtIndex_nat _ _ e hcelli]
      simp only [hety, ne_eq, not_true_eq_false, if_false]
      rw [SetAtIndex_nat _ _ _ hak]
      simp only []
      rw [SetAtIndex_nat _ _ _ (by rw [List.length_set]; omega)]
      simp only []
      rw [SetAtIndex_nat _ _ _ (by rw [List.length_set]; exact hr)]
      rw [List.set_set]
    · simp [hlen]
    · intro i
      rw [List.getElem?_set, List.getElem?_set, hget]
      simp only [List.length_set]
      by_cases c1 : b - k = i
      · have h0 : b - k < rowk.length := by omega
        have h1 : b < i + (k + 1) ∧ i ≤ b := by omega
        rw [if_pos c1, if_pos h0, if_pos h1]
      · by_cases c2 : a - (k + 1) = i
        · have h1 : ¬ (b < i + (k + 1) ∧ i ≤ b) := by omega
          have h2 : (a ≤ i + (k + 1) ∧ i < a) := by omega
          rw [if_neg c1, if_pos c2, if_pos hak, if_neg h1, if_pos h2]
        · rw [if_neg c1, if_neg c2]
          by_cases c3 : b < i + k ∧ i ≤ b
          · have h1 : b < i + (k + 1) ∧ i ≤ b := by omega
            rw [if_pos c3, if_pos h1]
          · have h1 : ¬ (b < i + (k + 1) ∧ i ≤ b) := by omega
            rw [if_neg c3, if_neg h1]
            by_cases c4 : a ≤ i + k ∧ i < a
            · have h2 : (a ≤ i + (k + 1) ∧ i < a) := by omega
              rw [if_pos c4, if_pos h2]
            · have h2 : ¬ (a ≤ i + (k + 1) ∧ i < a) := by omega
              rw [if_neg c4, if_neg h2]

/-! ### Transposition -/

theorem column_getElem? (M : Board) (w c : Nat) (hc : c < w)
    (hrows : ∀ row ∈ M, row.length = w) (r : Nat) :
    (M.filterMap (fun row => row[c]?))[r]? = cellAt M r c := by
  induction M generalizing r with
  | nil => simp [cellAt]
  | cons head tl ih =>
    have hh : c < head.length := by
      rw [hrows head (List.mem_cons_self _ _)]; exact hc
    have hhead : head[c]? = some head[c] := List.getElem?_eq_getElem hh
    simp only [List.filterMap_cons, hhead]
    cases r with
    | zero => simp [cellAt, hhead]
    | succ r =>
      have := ih (fun row hm => hrows row (List.mem_cons_of_mem _ hm)) r
      simpa [cellAt] using this

theorem column_length (M : Board) (w c : Nat) (hc : c < w)
    (hrows : ∀ row ∈ M, row.length = w) :
    (M.filterMap (fun row => row[c]?)).length = M.length := by
  induction M with
  | nil => simp
  | cons head tl ih =>
    have hh : c < head.length := by
      rw [hrows head (List.mem_cons_self _ _)]; exact hc
    have hhead : head[c]? = some head[c] := List.getElem?_eq_getElem hh
    simp only [List.filterMap_cons, hhead]
    simp [ih (fun row hm => hrows row (List.mem_cons_of_mem _ hm))]

theorem Transpose_eq {B : Board} {h w : Nat} (hR : Rect B h w) (hh : 0 < h) :
    Transpose B = (List.range w).map (fun c => B.filterMap (fun row => row[c]?)) := by
  obtain ⟨hl, hrows⟩ := hR
  cases B with
  | nil => simp at hl; omega
  | cons head tl =>
    simp only [Transpose, hrows head (List.mem_cons_self _ _)]

theorem Rect.transpose {B : Board} {h w : Nat} (hR : Rect B h w) (hh : 0 < h) :
    Rect (Transpose B) w h := by
  rw [Transpose_eq hR hh]
  refine ⟨by simp, ?_⟩
  intro row hmem
  rw [List.mem_map] at hmem
  obtain ⟨c, hc, rfl⟩ := hmem
  rw [List.mem_range] at hc
  rw [column_length B w c hc hR.2, hR.1]

theorem cellAt_transpose {B : Board} {h w : Nat} (hR : Rect B h w) (hh : 0 < h) (r c : Nat) :
    cellAt (Transpose B) c r = cellAt B r c := by
  rw [Transpose_eq hR hh]
  by_cases hc : c < w
  · unfold cellAt
    rw [List.getElem?_map, List.getElem?_range hc]
    simp only [Option.map_some', Option.some_bind]
    exact column_getElem? B w c hc hR.2 r
  · have h1 : cellAt B r c = none := by
      cases hx : cellAt B r c with
      | none => rfl
      | some x => exact absurd (hR.bounds hx).2 hc
    rw [h1]
    unfold cellAt
    rw [List.getElem?_eq_none (by simp; omega)]
    rfl

theorem Transpose_Transpose {B : Board} {h w : Nat} (hR : Rect B h w) (hh : 0 < h)
    (hw : 0 < w) : Transpose (Transpose B) = B := by
  have hT := hR.transpose hh
  have hTT := hT.transpose hw
  apply Rect.ext hTT hR
  intro r c
  rw [cellAt_transpose hT hw, cellAt_transpose hR hh]

/-! ### Locator -/

/-- Reading the cell at `(r, c)` through two `GetAtIndex`. -/
theorem GetAtIndex_cell (B : Board) (r c : Nat) (x : BoardCell) (hx : cellAt B r c = some x) :
    ∃ row, GetAtIndex (r : Int) B = .ok row ∧ GetAtIndex (c : Int) row = .ok x := by
  unfold cellAt at hx
  cases hrow : B[r]? with
  | none => rw [hrow] at hx; simp at hx
  | some row =>
    rw [hrow] at hx
    simp only [Option.some_bind] at hx
    exact ⟨row, GetAtIndex_nat r B row hrow, GetAtIndex_nat c row x hx⟩

theorem Find_Car_Helper_found {B : Board} {h w : Nat} (hR : Rect B h w) (t : CellType)
    (fuel row col : Nat) (hrow : row < h) (hcol : col < w) :
    Find_Car_Helper t B (fuel + 1) t (row : Int) (col : Int) = .ok ((row : Int), (col : Int)) := by
  have hL := hR.length_eq
  have hW := hR.width_eq (by omega)
  conv_lhs => unfold Find_Car_Helper
  simp only [hL, hW, beq_self_eq_true, Bool.not_true, Bool.false_and, Bool.false_eq_true,
    if_false, if_true]
  by_cases c1 : col + 1 = w
  · have e1 : (((col : Int) + 1) == (w : Int)) = true := by simp; omega
    by_cases c2 : row + 1 = h
    · have e2 : ((h : Int) == (row : Int) + 1) = true := by simp; omega
      obtain ⟨x, hx⟩ := hR.cell hrow (show 0 < w by omega)
      obtain ⟨rw2, g1, g2⟩ := GetAtIndex_cell B row 0 x hx
      simp only [e1, e2, ConditionalInteger, Bool.and_self, if_true]
      rw [g1]; simp only []
      rw [show (0 : Int) = ((0 : Nat) : Int) by rfl, g2]
    · have e2 : ((h : Int) == (row : Int) + 1) = false := by simp; omega
      obtain ⟨x, hx⟩ := hR.cell (show row + 1 < h by omega) (show 0 < w by omega)
      obtain ⟨rw2, g1, g2⟩ := GetAtIndex_cell B (row + 1) 0 x hx
      simp only [e1, e2, ConditionalInteger, Bool.false_and, Bool.false_eq_true, if_true,
        if_false]
      rw [show (row : Int) + 1 = ((row + 1 : Nat) : Int) by push_cast; rfl, g1]; simp only []
      rw [show (0 : Int) = ((0 : Nat) : Int) by rfl, g2]
  · have e1 : (((col : Int) + 1) == (w : Int)) = false := by simp; omega
    obtain ⟨x, hx⟩ := hR.cell hrow (show col + 1 < w by omega)
    obtain ⟨rw2, g1, g2⟩ := GetAtIndex_cell B row (col + 1) x hx
    simp only [e1, ConditionalInteger, Bool.and_false, Bool.false_eq_true, if_false]
    rw [g1]; simp only []
    rw [show (col : Int) + 1 = ((col + 1 : Nat) : Int) by push_cast; rfl, g2]

theorem Find_Car_Helper_last {B : Board} {h w : Nat} (hR : Rect B h w) (t t2 : CellType)
    (hne : t ≠ t2) (fuel row col : Nat) (hrow : row + 1 = h) (hcol : col + 1 = w) :
    Find_Car_Helper t B (fuel + 1) t2 (row : Int) (col : Int) = .error .VehicleNotFound := by
  have hL := hR.length_eq
  have hW := hR.width_eq (by omega)
  have e0 : (t == t2) = false := by simpa using hne
  have e1 : (((col : Int) + 1) == (w : Int)) = true := by simp; omega
  have e2 : ((h : Int) == (row : Int) + 1) = true := by simp; omega
  conv_lhs => unfold Find_Car_Helper
  simp [hL, hW, e0, e1, e2]

theorem Find_Car_Helper_next_col {B : Board} {h w : Nat} (hR : Rect B h w) (t t2 : CellType)
    (hne : t ≠ t2) (fuel row col : Nat) (hrow : row < h) (hcol : col + 1 < w) (y : BoardCell)
    (hy : cellAt B row (col + 1) = some y) :
    Find_Car_Helper t B (fuel + 1) t2 (row : Int) (col : Int) =
      Find_Car_Helper t B fuel y.type (row : Int) ((col + 1 : Nat) : Int) := by
  have hL := hR.length_eq
  have hW := hR.width_eq (by omega)
  have e0 : (t == t2) = false := by simpa using hne
  have e1 : (((col : Int) + 1) == (w : Int)) = false := by simp; omega
  obtain ⟨rw2, g1, g2⟩ := GetAtIndex_cell B row (col + 1) y hy
  conv_lhs => unfold Find_Car_Helper
  simp only [hL, hW, e0, e1, ConditionalInteger, Bool.and_false, Bool.false_eq_true, if_false]
  rw [g1]; simp only []
  rw [show (col : Int) + 1 = ((col + 1 : Nat) : Int) by push_cast; rfl, g2]

theorem Find_Car_Helper_next_row {B : Board} {h w : Nat} (hR : Rect B h w) (t t2 : CellType)
    (hne : t ≠ t2) (fuel row col : Nat) (hrow : row + 1 < h) (hcol : col + 1 = w) (y : BoardCell)
    (hy : cellAt B (row + 1) 0 = some y) :
    Find_Car_Helper t B (fuel + 1) t2 (row : Int) (col : Int) =
      Find_Car_Helper t B fuel y.type ((row + 1 : Nat) : Int) ((0 : Nat) : Int) := by
  have hL := hR.length_eq
  have hW := hR.width_eq (by omega)
  have e0 : (t == t2) = false := by simpa using hne
  have e1 : (((col : Int) + 1) == (w : Int)) = true := by simp; omega
  have e2 : ((h : Int) == (row : Int) + 1) = false := by simp; omega
  obtain ⟨rw2, g1, g2⟩ := GetAtIndex_cell B (row + 1) 0 y hy
  conv_lhs => unfold Find_Car_Helper
  simp only [hL, hW, e0, e1, e2, ConditionalInteger, Bool.false_and, Bool.and_false,
    Bool.false_eq_true, if_false, if_true, Bool.not_false, Bool.and_true, Bool.true_and]
  rw [show (row : Int) + 1 = ((row + 1 : Nat) : Int) by push_cast; rfl, g1]; simp only []
  rw [show (0 : Int) = ((0 : Nat) : Int) by rfl, g2]

theorem cell_index_lt (h w row col : Nat) (hrow : row < h) (hcol : col < w) :
    row * w + col < h * w := by
  have h1 : (row + 1) * w ≤ h * w := Nat.mul_le_mul_right w hrow
  have h2 : (row + 1) * w = row * w + w := by ring
  omega

/-- The scan started at a cell at or before the first match ends at the first match. -/
theorem Find_Car_Helper_first {B : Board} {h w : Nat} (hR : Rect B h w) (t : CellType)
    (r c : Nat) (z : BoardCell) (hz : cellAt B r c = some z) (hzt : z.type = t)
    (hfirst : ∀ r2 c2 y, cellAt B r2 c2 = some y → (r2 < r ∨ (r2 = r ∧ c2 < c)) → y.type ≠ t) :
    ∀ fuel row col x, cellAt B row col = some x → (row < r ∨ (row = r ∧ col ≤ c)) →
      h * w ≤ fuel + (row * w + col) →
      Find_Car_Helper t B fuel x.type (row : Int) (col : Int) = .ok ((r : Int), (c : Int)) := by
  intro fuel
  induction fuel with
  | zero =>
    intro row col x hx _ hf
    have hb := hR.bounds hx
    have := cell_index_lt h w row col hb.1 hb.2
    omega
  | succ fuel ih =>
    intro row col x hx hle hf
    have hb := hR.bounds hx
    have hbz := hR.bounds hz
    by_cases hfound : x.type = t
    · have hpos : row = r ∧ col = c := by
        by_contra hcon
        have hlt : row < r ∨ (row = r ∧ col < c) := by omega
        exact hfirst row col x hx hlt hfound
      obtain ⟨rfl, rfl⟩ := hpos
      rw [hfound]
      exact Find_Car_Helper_found hR t fuel row col hb.1 hb.2
    · have hne : t ≠ x.type := fun hcon => hfound hcon.symm
      have hpos : ¬ (row = r ∧ col = c) := by
        rintro ⟨rfl, rfl⟩
        rw [hz] at hx
        injection hx with hx
        subst hx
        exact hfound hzt
      by_cases hc1 : col + 1 < w
      · obtain ⟨y, hy⟩ := hR.cell hb.1 hc1
        rw [Find_Car_Helper_next_col hR t x.type hne fuel row col hb.1 hc1 y hy]
        exact ih row (col + 1) y hy (by omega) (by omega)
      · have hc2 : col + 1 = w := by omega
        have hrow : row < r := by omega
        have hr1 : row + 1 < h := by omega
        obtain ⟨y, hy⟩ := hR.cell hr1 (show 0 < w by omega)
        rw [Find_Car_Helper_next_row hR t x.type hne fuel row col hr1 hc2 y hy]
        have h2 : (row + 1) * w = row * w + w := by ring
        exact ih (row + 1) 0 y hy (by omega) (by omega)

/-- The scan started at a cell after which no cell matches ends in `VehicleNotFound`. -/
theorem Find_Car_Helper_none {B : Board} {h w : Nat} (hR : Rect B h w) (t : CellType)
    (hnone : ∀ r2 c2 y, cellAt B r2 c2 = some y → y.type ≠ t) :
    ∀ fuel row col x, cellAt B row col = some x →
      h * w ≤ fuel + (row * w + col) →
      Find_Car_Helper t B fuel x.type (row : Int) (col : Int) = .error .VehicleNotFound := by
  intro fuel
  induction fuel with
  | zero =>
    intro row col x hx hf
    have hb := hR.bounds hx
    have := cell_index_lt h w row col hb.1 hb.2
    omega
  | succ fuel ih =>
    intro row col x hx hf
    have hb := hR.bounds hx
    have hne : t ≠ x.type := fun hcon => hnone row col x hx hcon.symm
    by_cases hc1 : col + 1 < w
    · obtain ⟨y, hy⟩ := hR.cell hb.1 hc1
      rw [Find_Car_Helper_next_col hR t x.type hne fuel row col hb.1 hc1 y hy]
      exact ih row (col + 1) y hy (by omega)
    · have hc2 : col + 1 = w := by omega
      by_cases hr1 : row + 1 < h
      · obtain ⟨y, hy⟩ := hR.cell hr1 (show 0 < w by omega)
        rw [Find_Car_Helper_next_row hR t x.type hne fuel row col hr1 hc2 y hy]
        have h2 : (row + 1) * w = row * w + w := by ring
        exact ih (row + 1) 0 y hy (by omega)
      · exact Find_Car_Helper_last hR t x.type hne fuel row col (by omega) hc2

theorem FindCar_eq {B : Board} {h w : Nat} (hR : Rect B h w) (hh : 0 < h) (hw : 0 < w)
    (t : CellType) :
    ∃ x, cellAt B 0 0 = some x ∧
      FindCar t B = Find_Car_Helper t B (h * w) x.type ((0 : Nat) : Int) ((0 : Nat) : Int) := by
  obtain ⟨x, hx⟩ := hR.cell hh hw
  have hW := hR.width_eq hh
  have hL := hR.1
  refine ⟨x, hx, ?_⟩
  cases B with
  | nil => simp [cellAt] at hx
  | cons head tl =>
    cases head with
    | nil => simp [cellAt] at hx
    | cons first rest =>
      have hx2 : first = x := by simpa [cellAt] using hx
      subst hx2
      simp only [FindCar, hW, hL, Int.toNat_ofNat]
      rfl

/-- The Locator returns the first cell, in row-major order, that bears the identity. -/
theorem FindCar_first {B : Board} {h w : Nat} (hR : Rect B h w) (r c : Nat) (z : BoardCell)
    (hz : cellAt B r c = some z)
    (hfirst : ∀ r2 c2 y, cellAt B r2 c2 = some y → (r2 < r ∨ (r2 = r ∧ c2 < c)) →
      y.type ≠ z.type) :
    FindCar z.type B = .ok ((r : Int), (c : Int)) := by
  have hbz := hR.bounds hz
  obtain ⟨x, hx, heq⟩ := FindCar_eq hR (by omega) (by omega) z.type
  rw [heq]
  exact Find_Car_Helper_first hR z.type r c z hz rfl hfirst (h * w) 0 0 x hx (by omega) (by omega)

/-- The Locator fails with `VehicleNotFound` when no cell bears the identity. -/
theorem FindCar_none {B : Board} {h w : Nat} (hR : Rect B h w) (hh : 0 < h) (hw : 0 < w)
    (t : CellType) (hnone : ∀ r2 c2 y, cellAt B r2 c2 = some y → y.type ≠ t) :
    FindCar t B = .error .VehicleNotFound := by
  obtain ⟨x, hx, heq⟩ := FindCar_eq hR hh hw t
  rw [heq]
  exact Find_Car_Helper_none hR t hnone (h * w) 0 0 x hx (by omega)

/-! ### Slides on a rectangular board -/

theorem cellAt_row {B : Board} {r : Nat} {row : List BoardCell} (hrow : B[r]? = some row)
    (c : Nat) : cellAt B r c = row[c]? := by
  simp [cellAt, hrow]

/-- A successful slide of `k` steps to the right, cell by cell. -/
theorem direct_RIGHT_board_ok {B : Board} {h w : Nat} (hR : Rect B h w) (cell : BoardCell)
    (r a b : Nat) (hab : a ≤ b) (hr : r < h) (k : Nat)
    (hfree : ∀ j, 1 ≤ j → j ≤ k → ∃ e, cellAt B r (b + j) = some e ∧ e.type = CellType.EMPTY) :
    ∃ B2, direct_RIGHT B cell (a : Int) (r : Int) (b : Int) k = .ok B2 ∧ Rect B2 h w ∧
      ∀ r2 c2, cellAt B2 r2 c2 =
        if r2 = r ∧ a ≤ c2 ∧ c2 < a + k then some (BoardCell.mk .EMPTY .RIGHT 1)
        else if r2 = r ∧ b < c2 ∧ c2 ≤ b + k then some cell
        else cellAt B r2 c2 := by
  obtain ⟨row, hrow, hlen⟩ := hR.row hr
  have hrl : r < B.length := lt_length_of_getElem? B r row hrow
  obtain ⟨row2, hok, hlen2, hget⟩ := direct_RIGHT_ok B cell r a b hab row hrow k
    (fun j h1 h2 => by
      obtain ⟨e, he, hty⟩ := hfree j h1 h2
      exact ⟨e, by rw [← cellAt_row hrow]; exact he, hty⟩)
  refine ⟨B.set r row2, hok, hR.set r row2 (by omega), ?_⟩
  intro r2 c2
  rw [cellAt_set B r row2 hrl]
  by_cases hr2 : r2 = r
  · subst hr2
    rw [if_pos rfl, hget, cellAt_row hrow]
    simp only [true_and]
  · rw [if_neg hr2, if_neg (fun hc => hr2 hc.1), if_neg (fun hc => hr2 hc.1)]

/-- The slide to the right fails at the first step whose cell is not free: with `Collision`
when that cell is occupied, with `OutOfBounds` when there is no such cell. -/
theorem direct_RIGHT_board_fail {B : Board} {h w : Nat} (hR : Rect B h w) (cell : BoardCell)
    (r a b : Nat) (hab : a ≤ b) (hr : r < h) (k : Nat)
    (hfree : ∀ j, 1 ≤ j → j ≤ k → ∃ e, cellAt B r (b + j) = some e ∧ e.type = CellType.EMPTY)
    (hblock : ¬ ∃ e, cellAt B r (b + (k + 1)) = some e ∧ e.type = CellType.EMPTY)
    (m : Nat) (hm : k + 1 ≤ m) :
    direct_RIGHT B cell (a : Int) (r : Int) (b : Int) m =
      .error (if (cellAt B r (b + (k + 1))).isSome then MoveError.Collision
        else MoveError.OutOfBounds) := by
  obtain ⟨B2, hok, hR2, hget⟩ := direct_RIGHT_board_ok hR cell r a b hab hr k hfree
  obtain ⟨rowk, hrowk, _⟩ := hR2.row hr
  have hcell : rowk[b + (k + 1)]? = cellAt B r (b + (k + 1)) := by
    rw [← cellAt_row hrowk, hget]
    rw [if_neg (by omega), if_neg (by omega)]
  apply direct_RIGHT_error_le B cell _ _ _ _ (k + 1) _ m hm
  cases hx : cellAt B r (b + (k + 1)) with
  | none =>
    rw [hx] at hcell
    simpa using direct_RIGHT_step_outside B B2 cell r b a k hok rowk hrowk hcell
  | some x =>
    rw [hx] at hcell
    have hne : x.type ≠ CellType.EMPTY := fun hc => hblock ⟨x, hx, hc⟩
    simpa using direct_RIGHT_step_blocked B B2 cell r b a k hok rowk hrowk x hcell hne

/-- A successful slide of `k` steps to the left, cell by cell. -/
theorem direct_LEFT_board_ok {B : Board} {h w : Nat} (hR : Rect B h w) (cell : BoardCell)
    (r a b : Nat) (hab : a ≤ b) (hr : r < h) (hb : b < w) (k : Nat) (hk : k ≤ a)
    (hfree : ∀ j, 1 ≤ j → j ≤ k → ∃ e, cellAt B r (a - j) = some e ∧ e.type = CellType.EMPTY) :
    ∃ B2, direct_LEFT B cell (a : Int) (r : Int) (b : Int) k = .ok B2 ∧ Rect B2 h w ∧
      ∀ r2 c2, cellAt B2 r2 c2 =
        if r2 = r ∧ b < c2 + k ∧ c2 ≤ b then some (BoardCell.mk .EMPTY .LEFT 1)
        else if r2 = r ∧ a ≤ c2 + k ∧ c2 < a then some cell
        else cellAt B r2 c2 := by
  obtain ⟨row, hrow, hlen⟩ := hR.row hr
  have hrl : r < B.length := lt_length_of_getElem? B r row hrow
  obtain ⟨row2, hok, hlen2, hget⟩ := direct_LEFT_ok B cell r a b hab row hrow (by omega) k hk
    (fun j h1 h2 => by
      obtain ⟨e, he, hty⟩ := hfree j h1 h2
      exact ⟨e, by rw [← cellAt_row hrow]; exact he, hty⟩)
  refine ⟨B.set r row2, hok, hR.set r row2 (by omega), ?_⟩
  intro r2 c2
  rw [cellAt_set B r row2 hrl]
  by_cases hr2 : r2 = r
  · subst hr2
    rw [if_pos rfl, hget, cellAt_row hrow]
    simp only [true_and]
  · rw [if_neg hr2, if_neg (fun hc => hr2 hc.1), if_neg (fun hc => hr2 hc.1)]

/-- The slide to the left fails at the first step whose cell is not free: with `Collision`
when that cell is occupied, with `OutOfBounds` when the column index falls below zero. -/
theorem direct_LEFT_board_fail {B : Board} {h w : Nat} (hR : Rect B h w) (cell : BoardCell)
    (r a b : Nat) (hab : a ≤ b) (hr : r < h) (hb : b < w) (k : Nat) (hk : k ≤ a)
    (hfree : ∀ j, 1 ≤ j → j ≤ k → ∃ e, cellAt B r (a - j) = some e ∧ e.type = CellType.EMPTY)
    (hblock : k + 1 ≤ a → ¬ ∃ e, cellAt B r (a - (k + 1)) = some e ∧ e.type = CellType.EMPTY)
    (m : Nat) (hm : k + 1 ≤ m) :
    direct_LEFT B cell (a : Int) (r : Int) (b : Int) m =
      .error (if k + 1 ≤ a then MoveError.Collision else MoveError.OutOfBounds) := by
  obtain ⟨B2, hok, hR2, hget⟩ := direct_LEFT_board_ok hR cell r a b hab hr hb k hk hfree
  obtain ⟨rowk, hrowk, _⟩ := hR2.row hr
  apply direct_LEFT_error_le B cell _ _ _ _ (k + 1) _ m hm
  by_cases hka : k + 1 ≤ a
  · rw [if_pos hka]
    have hcell : rowk[a - (k + 1)]? = cellAt B r (a - (k + 1)) := by
      rw [← cellAt_row hrowk, hget]
      rw [if_neg (by omega), if_neg (by omega)]
    obtain ⟨x, hx⟩ := hR.cell hr (show a - (k + 1) < w by omega)
    rw [hx] at hcell
    have hne : x.type ≠ CellType.EMPTY := fun hc => hblock hka ⟨x, hx, hc⟩
    exact direct_LEFT_step_blocked B B2 cell r a b k hka hok rowk hrowk x hcell hne
  · rw [if_neg hka]
    exact direct_LEFT_step_outside B B2 cell r a b k (by omega) hok rowk hrowk

/-! ### Vehicles -/

theorem cellAtInt_nat (B : Board) (r c : Nat) : cellAtInt B (r : Int) (c : Int) = cellAt B r c := by
  simp [cellAtInt]

theorem cellAtInt_of_eq (B : Board) (i j : Int) (r c : Nat) (hi : i = (r : Int))
    (hj : j = (c : Int)) : cellAtInt B i j = cellAt B r c := by
  subst hi; subst hj; exact cellAtInt_nat B r c

theorem cellAtInt_neg (B : Board) (i j : Int) (hneg : i < 0 ∨ j < 0) : cellAtInt B i j = none := by
  simp [cellAtInt, hneg]

/-- What `IsVehicle` says on a rectangular board, with the length as a natural number. -/
theorem IsVehicle.facts {B : Board} {h w : Nat} (hR : Rect B h w) {zc : BoardCell} {r c : Nat}
    (hV : IsVehicle B zc r c) :
    ∃ L : Nat, zc.length = (L : Int) ∧ 1 ≤ L ∧ zc.type ≠ CellType.EMPTY ∧ r < h ∧ c < w ∧
      (if zc.direction.isVertical then r + L ≤ h else c + L ≤ w) ∧
      (∀ r2 c2, inSpan zc r c r2 c2 → cellAt B r2 c2 = some zc) ∧
      (∀ r2 c2 y, cellAt B r2 c2 = some y → y.type = zc.type → inSpan zc r c r2 c2) := by
  obtain ⟨hty, hlen, hin, hall⟩ := hV
  have hL := hR.length_eq
  have hh : 0 < h := by
    rw [hL] at hin
    by_cases hv : zc.direction.isVertical = true
    · rw [if_pos hv] at hin; omega
    · rw [if_neg hv] at hin; omega
  have hW := hR.width_eq hh
  rw [hL, hW] at hin
  rw [hW] at hall
  refine ⟨zc.length.toNat, by omega, by omega, hty, ?_, ?_, ?_, ?_, ?_⟩
  · by_cases hv : zc.direction.isVertical = true
    · rw [if_pos hv] at hin; omega
    · rw [if_neg hv] at hin; omega
  · by_cases hv : zc.direction.isVertical = true
    · rw [if_pos hv] at hin; omega
    · rw [if_neg hv] at hin; omega
  · by_cases hv : zc.direction.isVertical = true
    · rw [if_pos hv] at hin; rw [if_pos hv]; omega
    · rw [if_neg hv] at hin; rw [if_neg hv]; omega
  · intro r2 c2 hs
    have hb : r2 < h ∧ c2 < w := by
      unfold inSpan at hs
      by_cases hv : zc.direction.isVertical = true
      · rw [if_pos hv] at hin hs; omega
      · rw [if_neg hv] at hin hs; omega
    have := hall r2 (by rw [hR.1]; exact hb.1) c2 (by simpa using hb.2)
    rw [if_pos hs] at this
    exact this
  · intro r2 c2 y hy hyt
    have hb := hR.bounds hy
    have := hall r2 (by rw [hR.1]; exact hb.1) c2 (by simpa using hb.2)
    by_contra hs
    rw [if_neg hs] at this
    apply this
    rw [hy, ← hyt]
    rfl

theorem IsVehicle.findCar {B : Board} {h w : Nat} (hR : Rect B h w) {zc : BoardCell} {r c : Nat}
    (hV : IsVehicle B zc r c) : FindCar zc.type B = .ok ((r : Int), (c : Int)) := by
  obtain ⟨L, hL, hL1, hty, hr, hc, hin, hcell, honly⟩ := hV.facts hR
  have hanchor : cellAt B r c = some zc := by
    apply hcell
    unfold inSpan
    by_cases hv : zc.direction.isVertical = true
    · rw [if_pos hv]; omega
    · rw [if_neg hv]; omega
  apply FindCar_first hR r c zc hanchor
  intro r2 c2 y hy hlt hyt
  have hs := honly r2 c2 y hy hyt
  unfold inSpan at hs
  by_cases hv : zc.direction.isVertical = true
  · rw [if_pos hv] at hs; omega
  · rw [if_neg hv] at hs; omega

/-- With a cell of the vehicle and a direction on its axis, `MoveVehicle` passes its four
assertions, locates the anchor and hands over to `direct`. -/
theorem MoveVehicle_eq_direct {B : Board} {h w : Nat} (hR : Rect B h w) {zc : BoardCell}
    {r c : Nat} (hV : IsVehicle B zc r c) (r1 c1 : Nat) (hs : inSpan zc r c r1 c1)
    (d : Direction) (hd : directionOk d zc.direction = true) (A : Int) :
    MoveVehicle B (r1 : Int) (c1 : Int) d A =
      direct d A B zc (c : Int) (r : Int) (Dir.col_i d r c zc.length)
        (Dir.row_i d r c zc.length) := by
  obtain ⟨L, hL, hL1, hty, hr, hc, hin, hcell, honly⟩ := hV.facts hR
  have h1 := hcell r1 c1 hs
  have hb := hR.bounds h1
  obtain ⟨row, g1, g2⟩ := GetAtIndex_cell B r1 c1 zc h1
  have hLen := hR.length_eq
  have hW := hR.width_eq (show 0 < h by omega)
  have hfind := hV.findCar hR
  unfold MoveVehicle
  rw [g1]; simp only []
  rw [g2]; simp only []
  rw [hLen, hW, hfind]
  have e1 : ((r1 : Int) < (h : Int)) := by omega
  have e2 : ((c1 : Int) < (w : Int)) := by omega
  simp only [e1, e2, not_true_eq_false, if_false, hty, hd, Bool.true_eq_false]

/-! ### The Mover in the four directions -/

theorem directionOk_axis (d x : Direction) (hd : directionOk d x = true) :
    x.isVertical = d.isVertical := by
  cases d <;> cases x <;> first | rfl | (exact absurd hd (by decide))

/-- A slide along a free path succeeds; the result is described cell by cell. -/
theorem direct_spec_ok {B : Board} {h w : Nat} (hR : Rect B h w) {zc : BoardCell} {r c : Nat}
    (hV : IsVehicle B zc r c) (d : Direction) (hd : directionOk d zc.direction = true)
    (n : Nat) (hfree : pathFree B d zc r c n) :
    ∃ B2, direct d (n : Int) B zc (c : Int) (r : Int) (Dir.col_i d r c zc.length)
        (Dir.row_i d r c zc.length) = .ok B2 ∧ Rect B2 h w ∧
      ∀ r2 c2, cellAt B2 r2 c2 =
        if vacated d zc r c n r2 c2 then some (placeholder d)
        else if entered d zc r c n r2 c2 then some zc
        else cellAt B r2 c2 := by
  obtain ⟨L, hL, hL1, hty, hr, hc, hin, hcell, honly⟩ := hV.facts hR
  have hax := directionOk_axis d zc.direction hd
  have hnn : ¬ ((n : Int) < 0) := by omega
  cases d with
  | RIGHT =>
    have hv : zc.direction.isVertical = false := by rw [hax]; rfl
    rw [hv] at hin
    simp only [Bool.false_eq_true, if_false] at hin
    have hfree2 : ∀ j, 1 ≤ j → j ≤ n →
        ∃ e, cellAt B r (c + L - 1 + j) = some e ∧ e.type = CellType.EMPTY := by
      intro j h1 h2
      obtain ⟨e, he, hte⟩ := hfree j h1 h2
      refine ⟨e, ?_, hte⟩
      rw [← he]; symm
      apply cellAtInt_of_eq
      · simp only [enteredAt]
      · simp only [enteredAt, hL]; omega
    obtain ⟨B2, hok, hR2, hget⟩ :=
      direct_RIGHT_board_ok hR zc r c (c + L - 1) (by omega) hr n hfree2
    refine ⟨B2, ?_, hR2, ?_⟩
    · have e1 : (c : Int) + (zc.length - 1) = ((c + L - 1 : Nat) : Int) := by omega
      simp only [direct, Dir.col_i, hnn, if_false, e1, Int.toNat_ofNat]
      exact hok
    · intro r2 c2
      rw [hget]
      have hQ : (r2 = r ∧ c + L - 1 < c2 ∧ c2 ≤ c + L - 1 + n) ↔ entered .RIGHT zc r c n r2 c2 := by
        simp only [entered, hL]; omega
      simp only [hQ, vacated, placeholder]
  | LEFT =>
    have hv : zc.direction.isVertical = false := by rw [hax]; rfl
    rw [hv] at hin
    simp only [Bool.false_eq_true, if_false] at hin
    have hnc : n ≤ c := by
      by_contra hcon
      obtain ⟨e, he, _⟩ := hfree (c + 1) (by omega) (by omega)
      rw [cellAtInt_neg B _ _ (by right; simp only [enteredAt]; omega)] at he
      exact absurd he (by simp)
    have hfree2 : ∀ j, 1 ≤ j → j ≤ n →
        ∃ e, cellAt B r (c - j) = some e ∧ e.type = CellType.EMPTY := by
      intro j h1 h2
      obtain ⟨e, he, hte⟩ := hfree j h1 h2
      refine ⟨e, ?_, hte⟩
      rw [← he]; symm
      apply cellAtInt_of_eq
      · simp only [enteredAt]
      · simp only [enteredAt]; omega
    obtain ⟨B2, hok, hR2, hget⟩ :=
      direct_LEFT_board_ok hR zc r c (c + L - 1) (by omega) hr (by omega) n hnc hfree2
    refine ⟨B2, ?_, hR2, ?_⟩
    · have e1 : (c : Int) + zc.length - 1 = ((c + L - 1 : Nat) : Int) := by omega
      simp only [direct, Dir.col_i, hnn, if_false, e1, Int.toNat_ofNat]
      exact hok
    · intro r2 c2
      rw [hget]
      have hP : (r2 = r ∧ c + L - 1 < c2 + n ∧ c2 ≤ c + L - 1) ↔ vacated .LEFT zc r c n r2 c2 := by
        simp only [vacated, hL]; omega
      simp only [hP, entered, placeholder]
  | DOWN =>
    have hv : zc.direction.isVertical = true := by rw [hax]; rfl
    rw [hv] at hin
    simp only [if_true] at hin
    by_cases hn : n = 0
    · subst hn
      refine ⟨B, by simp [direct], hR, ?_⟩
      intro r2 c2
      have h1 : ¬ vacated .DOWN zc r c 0 r2 c2 := by simp only [vacated]; omega
      have h2 : ¬ entered .DOWN zc r c 0 r2 c2 := by simp only [entered]; omega
      rw [if_neg h1, if_neg h2]
    · have hh : 0 < h := by omega
      have hw : 0 < w := by omega
      have hT := hR.transpose hh
      have hfree2 : ∀ j, 1 ≤ j → j ≤ n →
          ∃ e, cellAt (Transpose B) c (r + L - 1 + j) = some e ∧ e.type = CellType.EMPTY := by
        intro j h1 h2
        obtain ⟨e, he, hte⟩ := hfree j h1 h2
        refine ⟨e, ?_, hte⟩
        rw [cellAt_transpose hR hh, ← he]; symm
        apply cellAtInt_of_eq
        · simp only [enteredAt, hL]; omega
        · simp only [enteredAt]
      obtain ⟨T2, hok, hRT2, hget⟩ :=
        direct_RIGHT_board_ok hT zc c r (r + L - 1) (by omega) hc n hfree2
      refine ⟨Transpose T2, ?_, hRT2.transpose hw, ?_⟩
      · have e1 : (r : Int) + zc.length - 1 = ((r + L - 1 : Nat) : Int) := by omega
        have e2 : ¬ ((n : Int) = 0) := by omega
        simp only [direct, Dir.row_i, hnn, if_false, e1, e2, Int.toNat_ofNat, hok]
      · intro r2 c2
        rw [cellAt_transpose hRT2 hw, hget, cellAt_transpose hR hh]
        have hQ : (c2 = c ∧ r + L - 1 < r2 ∧ r2 ≤ r + L - 1 + n) ↔
            entered .DOWN zc r c n r2 c2 := by
          simp only [entered, hL]; omega
        simp only [hQ, vacated, placeholder]
  | UP =>
    have hv : zc.direction.isVertical = true := by rw [hax]; rfl
    rw [hv] at hin
    simp only [if_true] at hin
    by_cases hn : n = 0
    · subst hn
      refine ⟨B, by simp [direct], hR, ?_⟩
      intro r2 c2
      have h1 : ¬ vacated .UP zc r c 0 r2 c2 := by simp only [vacated]; omega
      have h2 : ¬ entered .UP zc r c 0 r2 c2 := by simp only [entered]; omega
      rw [if_neg h1, if_neg h2]
    · have hh : 0 < h := by omega
      have hw : 0 < w := by omega
      have hT := hR.transpose hh
      have hnr : n ≤ r := by
        by_contra hcon
        obtain ⟨e, he, _⟩ := hfree (r + 1) (by omega) (by omega)
        rw [cellAtInt_neg B _ _ (by left; simp only [enteredAt]; omega)] at he
        exact absurd he (by simp)
      have hfree2 : ∀ j, 1 ≤ j → j ≤ n →
          ∃ e, cellAt (Transpose B) c (r - j) = some e ∧ e.type = CellType.EMPTY := by
        intro j h1 h2
        obtain ⟨e, he, hte⟩ := hfree j h1 h2
        refine ⟨e, ?_, hte⟩
        rw [cellAt_transpose hR hh, ← he]; symm
        apply cellAtInt_of_eq
        · simp only [enteredAt]; omega
        · simp only [enteredAt]
      obtain ⟨T2, hok, hRT2, hget⟩ :=
        direct_LEFT_board_ok hT zc c r (r + L - 1) (by omega) hc (by omega) n hnr hfree2
      refine ⟨Transpose T2, ?_, hRT2.transpose hw, ?_⟩
      · have e1 : (r : Int) + zc.length - 1 = ((r + L - 1 : Nat) : Int) := by omega
        have e2 : ¬ ((n : Int) = 0) := by omega
        simp only [direct, Dir.row_i, hnn, if_false, e1, e2, Int.toNat_ofNat, hok]
      · intro r2 c2
        rw [cellAt_transpose hRT2 hw, hget, cellAt_transpose hR hh]
        have hP : (c2 = c ∧ r + L - 1 < r2 + n ∧ r2 ≤ r + L - 1) ↔
            vacated .UP zc r c n r2 c2 := by
          simp only [vacated, hL]; omega
        simp only [hP, entered, placeholder]

/-- A slide stops at the first unit step whose cell is not free: with `Collision` when that
cell is inside the grid (and therefore occupied), with `OutOfBounds` when it is outside. -/
theorem direct_spec_fail {B : Board} {h w : Nat} (hR : Rect B h w) {zc : BoardCell} {r c : Nat}
    (hV : IsVehicle B zc r c) (d : Direction) (hd : directionOk d zc.direction = true)
    (k : Nat) (hfree : pathFree B d zc r c k) (hblock : ¬ stepFree B d zc r c (k + 1))
    (n : Nat) (hn : k + 1 ≤ n) :
    direct d (n : Int) B zc (c : Int) (r : Int) (Dir.col_i d r c zc.length)
        (Dir.row_i d r c zc.length) =
      .error (if (cellAtInt B (enteredAt d zc r c (k + 1)).1
          (enteredAt d zc r c (k + 1)).2).isSome then MoveError.Collision
        else MoveError.OutOfBounds) := by
  obtain ⟨L, hL, hL1, hty, hr, hc, hin, hcell, honly⟩ := hV.facts hR
  have hax := directionOk_axis d zc.direction hd
  have hnn : ¬ ((n : Int) < 0) := by omega
  have e2 : ¬ ((n : Int) = 0) := by omega
  have hh : 0 < h := by omega
  have hw : 0 < w := by omega
  have hT := hR.transpose hh
  cases d with
  | RIGHT =>
    have hv : zc.direction.isVertical = false := by rw [hax]; rfl
    rw [hv] at hin
    simp only [Bool.false_eq_true, if_false] at hin
    have hconv : ∀ j, cellAtInt B (enteredAt .RIGHT zc r c j).1 (enteredAt .RIGHT zc r c j).2 =
        cellAt B r (c + L - 1 + j) := by
      intro j
      apply cellAtInt_of_eq
      · simp only [enteredAt]
      · simp only [enteredAt, hL]; omega
    have hfree2 : ∀ j, 1 ≤ j → j ≤ k →
        ∃ e, cellAt B r (c + L - 1 + j) = some e ∧ e.type = CellType.EMPTY := by
      intro j h1 h2
      rw [← hconv]; exact hfree j h1 h2
    have hblock2 : ¬ ∃ e, cellAt B r (c + L - 1 + (k + 1)) = some e ∧
        e.type = CellType.EMPTY := by
      rw [← hconv]; exact hblock
    have := direct_RIGHT_board_fail hR zc r c (c + L - 1) (by omega) hr k hfree2 hblock2 n hn
    have e1 : (c : Int) + (zc.length - 1) = ((c + L - 1 : Nat) : Int) := by omega
    simp only [direct, Dir.col_i, hnn, if_false, e1, Int.toNat_ofNat]
    rw [this, hconv]
  | LEFT =>
    have hv : zc.direction.isVertical = false := by rw [hax]; rfl
    rw [hv] at hin
    simp only [Bool.false_eq_true, if_false] at hin
    have hconv : ∀ j, j ≤ c →
        cellAtInt B (enteredAt .LEFT zc r c j).1 (enteredAt .LEFT zc r c j).2 =
        cellAt B r (c - j) := by
      intro j hj
      apply cellAtInt_of_eq
      · simp only [enteredAt]
      · simp only [enteredAt]; omega
    have hconvneg : ∀ j, c < j →
        cellAtInt B (enteredAt .LEFT zc r c j).1 (enteredAt .LEFT zc r c j).2 = none := by
      intro j hj
      exact cellAtInt_neg B _ _ (by right; simp only [enteredAt]; omega)
    have hkc : k ≤ c := by
      by_contra hcon
      obtain ⟨e, he, _⟩ := hfree (c + 1) (by omega) (by omega)
      rw [hconvneg (c + 1) (by omega)] at he
      exact absurd he (by simp)
    have hfree2 : ∀ j, 1 ≤ j → j ≤ k →
        ∃ e, cellAt B r (c - j) = some e ∧ e.type = CellType.EMPTY := by
      intro j h1 h2
      rw [← hconv j (by omega)]; exact hfree j h1 h2
    have hblock2 : k + 1 ≤ c → ¬ ∃ e, cellAt B r (c - (k + 1)) = some e ∧
        e.type = CellType.EMPTY := by
      intro hk1
      rw [← hconv (k + 1) hk1]; exact hblock
    have := direct_LEFT_board_fail hR zc r c (c + L - 1) (by omega) hr (by omega) k hkc
      hfree2 hblock2 n hn
    have e1 : (c : Int) + zc.length - 1 = ((c + L - 1 : Nat) : Int) := by omega
    simp only [direct, Dir.col_i, hnn, if_false, e1, Int.toNat_ofNat]
    rw [this]
    by_cases hk1 : k + 1 ≤ c
    · obtain ⟨x, hx⟩ := hR.cell hr (show c - (k + 1) < w by omega)
      rw [hconv (k + 1) hk1, hx, if_pos hk1]
      rfl
    · rw [hconvneg (k + 1) (by omega), if_neg hk1]
      rfl
  | DOWN =>
    have hv : zc.direction.isVertical = true := by rw [hax]; rfl
    rw [hv] at hin
    simp only [if_true] at hin
    have hconv : ∀ j, cellAtInt B (enteredAt .DOWN zc r c j).1 (enteredAt .DOWN zc r c j).2 =
        cellAt (Transpose B) c (r + L - 1 + j) := by
      intro j
      rw [cellAt_transpose hR hh]
      apply cellAtInt_of_eq
      · simp only [enteredAt, hL]; omega
      · simp only [enteredAt]
    have hfree2 : ∀ j, 1 ≤ j → j ≤ k →
        ∃ e, cellAt (Transpose B) c (r + L - 1 + j) = some e ∧ e.type = CellType.EMPTY := by
      intro j h1 h2
      rw [← hconv]; exact hfree j h1 h2
    have hblock2 : ¬ ∃ e, cellAt (Transpose B) c (r + L - 1 + (k + 1)) = some e ∧
        e.type = CellType.EMPTY := by
      rw [← hconv]; exact hblock
    have := direct_RIGHT_board_fail hT zc c r (r + L - 1) (by omega) hc k hfree2 hblock2 n hn
    have e1 : (r : Int) + zc.length - 1 = ((r + L - 1 : Nat) : Int) := by omega
    simp only [direct, Dir.row_i, hnn, if_false, e1, e2, Int.toNat_ofNat]
    rw [this, hconv]
  | UP =>
    have hv : zc.direction.isVertical = true := by rw [hax]; rfl
    rw [hv] at hin
    simp only [if_true] at hin
    have hconv : ∀ j, j ≤ r →
        cellAtInt B (enteredAt .UP zc r c j).1 (enteredAt .UP zc r c j).2 =
        cellAt (Transpose B) c (r - j) := by
      intro j hj
      rw [cellAt_transpose hR hh]
      apply cellAtInt_of_eq
      · simp only [enteredAt]; omega
      · simp only [enteredAt]
    have hconvneg : ∀ j, r < j →
        cellAtInt B (enteredAt .UP zc r c j).1 (enteredAt .UP zc r c j).2 = none := by
      intro j hj
      exact cellAtInt_neg B _ _ (by left; simp only [enteredAt]; omega)
    have hkr : k ≤ r := by
      by_contra hcon
      obtain ⟨e, he, _⟩ := hfree (r + 1) (by omega) (by omega)
      rw [hconvneg (r + 1) (by omega)] at he
      exact absurd he (by simp)
    have hfree2 : ∀ j, 1 ≤ j → j ≤ k →
        ∃ e, cellAt (Transpose B) c (r - j) = some e ∧ e.type = CellType.EMPTY := by
      intro j h1 h2
      rw [← hconv j (by omega)]; exact hfree j h1 h2
    have hblock2 : k + 1 ≤ r → ¬ ∃ e, cellAt (Transpose B) c (r - (k + 1)) = some e ∧
        e.type = CellType.EMPTY := by
      intro hk1
      rw [← hconv (k + 1) hk1]; exact hblock
    have := direct_LEFT_board_fail hT zc c r (r + L - 1) (by omega) hc (by omega) k hkr
      hfree2 hblock2 n hn
    have e1 : (r : Int) + zc.length - 1 = ((r + L - 1 : Nat) : Int) := by omega
    simp only [direct, Dir.row_i, hnn, if_false, e1, e2, Int.toNat_ofNat]
    rw [this]
    by_cases hk1 : k + 1 ≤ r
    · obtain ⟨x, hx⟩ := hT.cell hc (show r - (k + 1) < h by omega)
      rw [hconv (k + 1) hk1, hx, if_pos hk1]
      rfl
    · rw [hconvneg (k + 1) (by omega), if_neg hk1]
      rfl

/-! ### The orchestrator on a vehicle -/

/-- Either the whole path of `n` steps is free, or there is a first step that is not. -/
theorem pathFree_or_first_block (B : Board) (d : Direction) (zc : BoardCell) (r c : Nat)
    (n : Nat) :
    pathFree B d zc r c n ∨ ∃ k, k < n ∧ pathFree B d zc r c k ∧ ¬ stepFree B d zc r c (k + 1) := by
  induction n with
  | zero =>
    left
    intro j h1 h2
    omega
  | succ n ih =>
    rcases ih with hfree | ⟨k, hk, hfree, hblock⟩
    · by_cases hstep : stepFree B d zc r c (n + 1)
      · left
        intro j h1 h2
        by_cases hj : j = n + 1
        · rw [hj]; exact hstep
        · exact hfree j h1 (by omega)
      · right
        exact ⟨n, by omega, hfree, hstep⟩
    · right
      exact ⟨k, by omega, hfree, hblock⟩

/-- A move along a free path succeeds; the result is described cell by cell. -/
theorem MoveVehicle_ok {B : Board} {h w : Nat} (hR : Rect B h w) {zc : BoardCell} {r c : Nat}
    (hV : IsVehicle B zc r c) (r1 c1 : Nat) (hs : inSpan zc r c r1 c1)
    (d : Direction) (hd : directionOk d zc.direction = true)
    (n : Nat) (hfree : pathFree B d zc r c n) :
    ∃ B2, MoveVehicle B (r1 : Int) (c1 : Int) d (n : Int) = .ok B2 ∧ Rect B2 h w ∧
      ∀ r2 c2, cellAt B2 r2 c2 =
        if vacated d zc r c n r2 c2 then some (placeholder d)
        else if entered d zc r c n r2 c2 then some zc
        else cellAt B r2 c2 := by
  rw [MoveVehicle_eq_direct hR hV r1 c1 hs d hd]
  exact direct_spec_ok hR hV d hd n hfree

/-- A move stops at the first unit step whose cell is not free. -/
theorem MoveVehicle_fail {B : Board} {h w : Nat} (hR : Rect B h w) {zc : BoardCell} {r c : Nat}
    (hV : IsVehicle B zc r c) (r1 c1 : Nat) (hs : inSpan zc r c r1 c1)
    (d : Direction) (hd : directionOk d zc.direction = true)
    (k : Nat) (hfree : pathFree B d zc r c k) (hblock : ¬ stepFree B d zc r c (k + 1))
    (n : Nat) (hn : k + 1 ≤ n) :
    MoveVehicle B (r1 : Int) (c1 : Int) d (n : Int) =
      .error (if (cellAtInt B (enteredAt d zc r c (k + 1)).1
          (enteredAt d zc r c (k + 1)).2).isSome then MoveError.Collision
        else MoveError.OutOfBounds) := by
  rw [MoveVehicle_eq_direct hR hV r1 c1 hs d hd]
  exact direct_spec_fail hR hV d hd k hfree hblock n hn

/-- A move with a direction off the vehicle's axis stops at the direction assertion. -/
theorem MoveVehicle_gate {B : Board} {h w : Nat} (hR : Rect B h w) {zc : BoardCell}
    {r c : Nat} (hV : IsVehicle B zc r c) (r1 c1 : Nat) (hs : inSpan zc r c r1 c1)
    (d : Direction) (hd : directionOk d zc.direction = false) (A : Int) :
    MoveVehicle B (r1 : Int) (c1 : Int) d A = .error .OrientationMismatch := by
  obtain ⟨L, hL, hL1, hty, hr, hc, hin, hcell, honly⟩ := hV.facts hR
  have h1 := hcell r1 c1 hs
  have hb := hR.bounds h1
  obtain ⟨row, g1, g2⟩ := GetAtIndex_cell B r1 c1 zc h1
  have hLen := hR.length_eq
  have hW := hR.width_eq (show 0 < h by omega)
  unfold MoveVehicle
  rw [g1]; simp only []
  rw [g2]; simp only []
  rw [hLen, hW]
  have e1 : ((r1 : Int) < (h : Int)) := by omega
  have e2 : ((c1 : Int) < (w : Int)) := by omega
  simp only [e1, e2, not_true_eq_false, if_false, hty, hd, if_true]

/-- A move that succeeds went along a free path. -/
theorem MoveVehicle_ok_pathFree {B : Board} {h w : Nat} (hR : Rect B h w) {zc : BoardCell}
    {r c : Nat} (hV : IsVehicle B zc r c) (r1 c1 : Nat) (hs : inSpan zc r c r1 c1)
    (d : Direction) (n : Nat) (B2 : Board)
    (hok : MoveVehicle B (r1 : Int) (c1 : Int) d (n : Int) = .ok B2) :
    directionOk d zc.direction = true ∧ pathFree B d zc r c n := by
  have hd : directionOk d zc.direction = true := by
    by_contra hcon
    have hf : directionOk d zc.direction = false := by simpa using hcon
    rw [MoveVehicle_gate hR hV r1 c1 hs d hf] at hok
    exact absurd hok (by simp)
  refine ⟨hd, ?_⟩
  rcases pathFree_or_first_block B d zc r c n with hfree | ⟨k, hk, hfree, hblock⟩
  · exact hfree
  · rw [MoveVehicle_fail hR hV r1 c1 hs d hd k hfree hblock n (by omega)] at hok
    exact absurd hok (by simp)

/-- The cells a slide would enter lie on a line through the grid: when the one at step `j`
is inside, so is every earlier one. -/
theorem enteredAt_inside {B : Board} {h w : Nat} (hR : Rect B h w) {zc : BoardCell} {r c : Nat}
    (hV : IsVehicle B zc r c) (d : Direction) (hd : directionOk d zc.direction = true)
    (j : Nat) (x : BoardCell)
    (hx : cellAtInt B (enteredAt d zc r c j).1 (enteredAt d zc r c j).2 = some x)
    (k : Nat) (hk : k ≤ j) :
    (cellAtInt B (enteredAt d zc r c k).1 (enteredAt d zc r c k).2).isSome = true := by
  obtain ⟨L, hL, hL1, hty, hr, hc, hin, hcell, honly⟩ := hV.facts hR
  have hax := directionOk_axis d zc.direction hd
  have key : ∀ (i1 i2 : Int), (∃ a b : Nat, i1 = a ∧ i2 = b ∧ a < h ∧ b < w) →
      (cellAtInt B i1 i2).isSome = true := by
    rintro i1 i2 ⟨a, b, rfl, rfl, ha, hb⟩
    obtain ⟨y, hy⟩ := hR.cell ha hb
    rw [cellAtInt_nat, hy]
    rfl
  have hpos : 0 ≤ (enteredAt d zc r c j).1 ∧ 0 ≤ (enteredAt d zc r c j).2 := by
    by_contra hcon
    rw [cellAtInt_neg B _ _ (by omega)] at hx
    exact absurd hx (by simp)
  have hbnd : ((enteredAt d zc r c j).1.toNat < h) ∧ ((enteredAt d zc r c j).2.toNat < w) := by
    have : cellAt B (enteredAt d zc r c j).1.toNat (enteredAt d zc r c j).2.toNat = some x := by
      rw [← hx]; symm
      apply cellAtInt_of_eq <;> omega
    exact hR.bounds this
  apply key
  cases d with
  | RIGHT =>
    simp only [enteredAt] at hpos hbnd ⊢
    exact ⟨r, c + L - 1 + k, rfl, by omega, hr, by omega⟩
  | LEFT =>
    simp only [enteredAt] at hpos hbnd ⊢
    exact ⟨r, c - k, rfl, by omega, hr, by omega⟩
  | DOWN =>
    simp only [enteredAt] at hpos hbnd ⊢
    exact ⟨r + L - 1 + k, c, by omega, rfl, by omega, hc⟩
  | UP =>
    simp only [enteredAt] at hpos hbnd ⊢
    exact ⟨r - k, c, by omega, rfl, by omega, hc⟩

/-! ### The assertions of the orchestrator -/

theorem GetAtIndex_error {α : Type} (i : Int) (L : List α) (e : MoveError)
    (h : GetAtIndex i L = .error e) : e = MoveError.OutOfBounds := by
  unfold GetAtIndex at h
  by_cases hi : i < 0
  · rw [if_pos hi] at h
    injection h with h
    exact h.symm
  · rw [if_neg hi] at h
    cases hL : L[i.toNat]? with
    | none =>
      rw [hL] at h
      injection h with h
      exact h.symm
    | some v =>
      rw [hL] at h
      exact absurd h (by simp)

theorem cellAt_lt_length {B : Board} {r c : Nat} {x : BoardCell} (hx : cellAt B r c = some x) :
    (r : Int) < GameBoard.length B := by
  unfold cellAt at hx
  cases hrow : B[r]? with
  | none => rw [hrow] at hx; simp at hx
  | some row =>
    have := lt_length_of_getElem? B r row hrow
    simp only [GameBoard.length]
    omega

/-- On a cell inside the grid, `MoveVehicle` depends on the coordinates it is given only
through the cell they designate. -/
theorem MoveVehicle_cell (B : Board) (r c : Nat) (x : BoardCell) (hx : cellAt B r c = some x)
    (hc : (c : Int) < GameBoard.width B) (d : Direction) (A : Int) :
    MoveVehicle B (r : Int) (c : Int) d A =
      if x.type = CellType.EMPTY then .error .EmptyCellMove
      else if directionOk d x.direction = false then .error .OrientationMismatch
      else
        match FindCar x.type B with
        | .error e => .error e
        | .ok (R2, C2) =>
          direct d A B x C2 R2 (Dir.col_i d R2 C2 x.length) (Dir.row_i d R2 C2 x.length) := by
  obtain ⟨row, g1, g2⟩ := GetAtIndex_cell B r c x hx
  have hr := cellAt_lt_length hx
  unfold MoveVehicle
  rw [g1]; simp only []
  rw [g2]; simp only []
  by_cases h1 : x.type = CellType.EMPTY
  · simp only [hr, hc, not_true_eq_false, if_false, h1, if_true]
  · by_cases h2 : directionOk d x.direction = false
    · simp only [hr, hc, not_true_eq_false, if_false, h1, h2, if_true]
    · simp only [hr, hc, not_true_eq_false, if_false, h1, h2]

/-- Some cell bears the identity, so some cell is the first to bear it. -/
theorem exists_first_match {B : Board} {h w : Nat} (hR : Rect B h w) (r1 c1 : Nat)
    (x : BoardCell) (hx : cellAt B r1 c1 = some x) :
    ∃ r c z, cellAt B r c = some z ∧ z.type = x.type ∧
      ∀ r2 c2 y, cellAt B r2 c2 = some y → (r2 < r ∨ (r2 = r ∧ c2 < c)) → y.type ≠ x.type := by
  let P : Nat → Prop := fun i => ∃ r c z, r * w + c = i ∧ cellAt B r c = some z ∧ z.type = x.type
  have hP : ∃ i, P i := ⟨r1 * w + c1, r1, c1, x, rfl, hx, rfl⟩
  haveI := Classical.decPred P
  obtain ⟨r, c, z, hidx, hz, hzt⟩ := Nat.find_spec hP
  refine ⟨r, c, z, hz, hzt, ?_⟩
  intro r2 c2 y hy hlt hyt
  have hb := hR.bounds hy
  have hbz := hR.bounds hz
  have hlt2 : r2 * w + c2 < Nat.find hP := by
    rw [← hidx]
    rcases hlt with h1 | ⟨h1, h2⟩
    · have h3 : (r2 + 1) * w ≤ r * w := Nat.mul_le_mul_right w h1
      have h4 : (r2 + 1) * w = r2 * w + w := by ring
      omega
    · subst h1; omega
  exact Nat.find_min hP hlt2 ⟨r2, c2, y, rfl, hy, hyt⟩

/-! ### The board after a move -/

theorem directionOk_opposite (d x : Direction) (hd : directionOk d x = true) :
    directionOk d.opposite x = true := by
  cases d <;> cases x <;> first | rfl | (exact absurd hd (by decide))

theorem placeholder_type (d : Direction) : (placeholder d).type = CellType.EMPTY := by
  cases d <;> rfl

/-- A free step designates a cell inside the grid. -/
theorem stepFree_bounds {B : Board} {h w : Nat} (hR : Rect B h w) (d : Direction)
    (zc : BoardCell) (r c j : Nat) (hstep : stepFree B d zc r c j) :
    0 ≤ (enteredAt d zc r c j).1 ∧ (enteredAt d zc r c j).1 < (h : Int) ∧
    0 ≤ (enteredAt d zc r c j).2 ∧ (enteredAt d zc r c j).2 < (w : Int) := by
  obtain ⟨e, he, _⟩ := hstep
  have hpos : 0 ≤ (enteredAt d zc r c j).1 ∧ 0 ≤ (enteredAt d zc r c j).2 := by
    by_contra hcon
    rw [cellAtInt_neg B _ _ (by omega)] at he
    exact absurd he (by simp)
  have : cellAt B (enteredAt d zc r c j).1.toNat (enteredAt d zc r c j).2.toNat = some e := by
    rw [← he]; symm
    apply cellAtInt_of_eq <;> omega
  have hb := hR.bounds this
  omega

/-- A vehicle from the description of its cells. -/
theorem IsVehicle.of_cells {B : Board} {h w : Nat} (hR : Rect B h w) (hh : 0 < h)
    (zc : BoardCell) (ra ca : Nat) (hty : zc.type ≠ CellType.EMPTY) (hlen : 1 ≤ zc.length)
    (hin : if zc.direction.isVertical then (ra : Int) + zc.length ≤ (h : Int) ∧ ca < w
      else (ca : Int) + zc.length ≤ (w : Int) ∧ ra < h)
    (hall : ∀ r2 c2, r2 < h → c2 < w →
      if inSpan zc ra ca r2 c2 then cellAt B r2 c2 = some zc
      else (cellAt B r2 c2).map BoardCell.type ≠ some zc.type) :
    IsVehicle B zc ra ca := by
  have hL := hR.length_eq
  have hW := hR.width_eq hh
  refine ⟨hty, hlen, ?_, ?_⟩
  · rw [hL, hW]
    by_cases hv : zc.direction.isVertical = true
    · rw [if_pos hv] at hin ⊢; omega
    · rw [if_neg hv] at hin ⊢; omega
  · intro r2 hr2 c2 hc2
    rw [hW] at hc2
    exact hall r2 c2 (by rw [← hR.1]; exact hr2) (by simpa using hc2)

/-- After a slide along a free path the vehicle sits, whole and alone, at the moved anchor. -/
theorem IsVehicle.moved {B B2 : Board} {h w : Nat} (hR : Rect B h w) (hR2 : Rect B2 h w)
    {zc : BoardCell} {r c : Nat} (hV : IsVehicle B zc r c) (d : Direction)
    (hd : directionOk d zc.direction = true) (n : Nat) (hfree : pathFree B d zc r c n)
    (hget : ∀ r2 c2, cellAt B2 r2 c2 =
        if vacated d zc r c n r2 c2 then some (placeholder d)
        else if entered d zc r c n r2 c2 then some zc
        else cellAt B r2 c2) :
    IsVehicle B2 zc (movedAnchor d r c n).1 (movedAnchor d r c n).2 := by
  obtain ⟨L, hL, hL1, hty, hr, hc, hin, hcell, honly⟩ := hV.facts hR
  have hax := directionOk_axis d zc.direction hd
  have hlast : 1 ≤ n → _ := fun h1 => stepFree_bounds hR d zc r c n (hfree n h1 (le_refl n))
  have hnot : ∀ r2 c2, ¬ inSpan zc r c r2 c2 →
      (cellAt B r2 c2).map BoardCell.type ≠ some zc.type := by
    intro r2 c2 hns hmap
    cases hy : cellAt B r2 c2 with
    | none => rw [hy] at hmap; simp at hmap
    | some y =>
      rw [hy] at hmap
      simp only [Option.map_some', Option.some.injEq] at hmap
      exact hns (honly r2 c2 y hy hmap)
  have hph : (some (placeholder d)).map BoardCell.type ≠ some zc.type := by
    simp only [Option.map_some', placeholder_type, ne_eq, Option.some.injEq]
    exact fun hcon => hty hcon.symm
  apply IsVehicle.of_cells hR2 (by omega) zc _ _ hty (by omega)
  · cases d with
    | RIGHT =>
      have hv : zc.direction.isVertical = false := by rw [hax]; rfl
      rw [hv] at hin ⊢
      simp only [Bool.false_eq_true, if_false, movedAnchor, enteredAt] at hin hlast ⊢
      by_cases hn : 1 ≤ n
      · have := hlast hn; omega
      · omega
    | LEFT =>
      have hv : zc.direction.isVertical = false := by rw [hax]; rfl
      rw [hv] at hin ⊢
      simp only [Bool.false_eq_true, if_false, movedAnchor, enteredAt] at hin hlast ⊢
      by_cases hn : 1 ≤ n
      · have := hlast hn; omega
      · omega
    | DOWN =>
      have hv : zc.direction.isVertical = true := by rw [hax]; rfl
      rw [hv] at hin ⊢
      simp only [if_true, movedAnchor, enteredAt] at hin hlast ⊢
      by_cases hn : 1 ≤ n
      · have := hlast hn; omega
      · omega
    | UP =>
      have hv : zc.direction.isVertical = true := by rw [hax]; rfl
      rw [hv] at hin ⊢
      simp only [if_true, movedAnchor, enteredAt] at hin hlast ⊢
      by_cases hn : 1 ≤ n
      · have := hlast hn; omega
      · omega
  · intro r2 c2 hr2 hc2
    rw [hget]
    have hold := hcell r2 c2
    have hnold := hnot r2 c2
    have hnle : 1 ≤ n → _ := hlast
    cases d with
    | RIGHT =>
      have hv : zc.direction.isVertical = false := by rw [hax]; rfl
      simp only [inSpan, hv, Bool.false_eq_true, if_false, movedAnchor, vacated, entered,
        enteredAt] at hold hnold hnle ⊢
      by_cases hn : 1 ≤ n
      · have := hnle hn
        split_ifs <;> first | rfl | exact hph | (apply hold; omega) | (apply hnold; omega) | omega
      · split_ifs <;> first | rfl | exact hph | (apply hold; omega) | (apply hnold; omega) | omega
    | LEFT =>
      have hv : zc.direction.isVertical = false := by rw [hax]; rfl
      simp only [inSpan, hv, Bool.false_eq_true, if_false, movedAnchor, vacated, entered,
        enteredAt] at hold hnold hnle ⊢
      by_cases hn : 1 ≤ n
      · have := hnle hn
        split_ifs <;> first | rfl | exact hph | (apply hold; omega) | (apply hnold; omega) | omega
      · split_ifs <;> first | rfl | exact hph | (apply hold; omega) | (apply hnold; omega) | omega
    | DOWN =>
      have hv : zc.direction.isVertical = true := by rw [hax]; rfl
      simp only [inSpan, hv, if_true, movedAnchor, vacated, entered,
        enteredAt] at hold hnold hnle ⊢
      by_cases hn : 1 ≤ n
      · have := hnle hn
        split_ifs <;> first | rfl | exact hph | (apply hold; omega) | (apply hnold; omega) | omega
      · split_ifs <;> first | rfl | exact hph | (apply hold; omega) | (apply hnold; omega) | omega
    | UP =>
      have hv : zc.direction.isVertical = true := by rw [hax]; rfl
      simp only [inSpan, hv, if_true, movedAnchor, vacated, entered,
        enteredAt] at hold hnold hnle ⊢
      by_cases hn : 1 ≤ n
      · have := hnle hn
        split_ifs <;> first | rfl | exact hph | (apply hold; omega) | (apply hnold; omega) | omega
      · split_ifs <;> first | rfl | exact hph | (apply hold; omega) | (apply hnold; omega) | omega

/-! ### Axis reduction -/

/-- On a rectangular board with at least one row and one column, the `DOWN` slide is the
`RIGHT` slide on the transposed board, rows and columns exchanged, transposed back; this
includes the specialization for a counter of 0 and the counters below 0. -/
theorem direct_DOWN_transpose {B : Board} {h w : Nat} (hR : Rect B h w) (hh : 0 < h)
    (hw : 0 < w) (my_cell : BoardCell) (counter Co1 Ro1 Co2 Ro2 : Int) :
    direct .DOWN counter B my_cell Co1 Ro1 Co2 Ro2 =
      Except.map Transpose (direct .RIGHT counter (Transpose B) my_cell Ro1 Co1 Ro2 Co2) := by
  unfold direct
  by_cases hneg : counter < 0
  · rw [if_pos hneg, if_pos hneg]
    rfl
  · rw [if_neg hneg, if_neg hneg]
    simp only []
    by_cases h0 : counter = 0
    · rw [if_pos h0, h0]
      simp only [Int.toNat_zero, direct_RIGHT, Except.map]
      rw [Transpose_Transpose hR hh hw]
    · rw [if_neg h0]
      cases direct_RIGHT (Transpose B) my_cell Ro1 Co1 Ro2 counter.toNat with
      | error e => rfl
      | ok T2 => rfl

/-! ## The claims -/

/-- C1: on a rectangular board that holds a vertical vehicle `zc` whose top-most cell is at
`(r, c)`, if the `n` cells of column `c` directly below the vehicle are inside the grid and
`EMPTY`, then `MoveVehicle` on any cell `(r + i, c)` of the vehicle with `DOWN` and amount `n`
succeeds, and in the board it returns the `zc.length` cells of column `c` from row `r + n` on
hold `zc`, rows `r .. r + n - 1` of column `c` are `EMPTY`, and every other cell is unchanged. -/
theorem C1_down_slide (B : Board) (h w : Nat) (zc : BoardCell) (r c i n : Nat)
    (hR : Rect B h w) (hV : IsVehicle B zc r c) (hvert : zc.direction.isVertical = true)
    (hi : (i : Int) < zc.length)
    (hfree : ∀ j : Nat, j < n →
      ∃ e, cellAtInt B ((r : Int) + zc.length + j) c = some e ∧ e.type = CellType.EMPTY) :
    ∃ B2, MoveVehicle B ((r + i : Nat) : Int) (c : Int) .DOWN (n : Int) = .ok B2 ∧
      Rect B2 h w ∧
      (∀ j : Nat, (j : Int) < zc.length → cellAt B2 (r + n + j) c = some zc) ∧
      (∀ j : Nat, j < n → ∃ e, cellAt B2 (r + j) c = some e ∧ e.type = CellType.EMPTY) ∧
      (∀ r2 c2 : Nat, ¬ (c2 = c ∧ r ≤ r2 ∧ (r2 : Int) < (r : Int) + n + zc.length) →
        cellAt B2 r2 c2 = cellAt B r2 c2) := by
  obtain ⟨L, hL, hL1, hty, hr, hc, hin, hcell, honly⟩ := hV.facts hR
  have hs : inSpan zc r c (r + i) c := by
    unfold inSpan
    rw [if_pos hvert]
    omega
  have hd : directionOk .DOWN zc.direction = true := by
    have : zc.direction = .UP ∨ zc.direction = .DOWN := by
      cases hdir : zc.direction <;> simp [hdir, Direction.isVertical] at hvert ⊢
    rcases this with h1 | h1 <;> rw [h1] <;> rfl
  have hpath : pathFree B .DOWN zc r c n := by
    intro j h1 h2
    obtain ⟨e, he, hte⟩ := hfree (j - 1) (by omega)
    refine ⟨e, ?_, hte⟩
    rw [← he]
    simp only [enteredAt]
    congr 1
    omega
  obtain ⟨B2, hok, hR2, hget⟩ := MoveVehicle_ok hR hV (r + i) c hs .DOWN hd n hpath
  refine ⟨B2, hok, hR2, ?_, ?_, ?_⟩
  · intro j hj
    rw [hget]
    have h1 : ¬ vacated .DOWN zc r c n (r + n + j) c := by simp only [vacated, true_and]; omega
    rw [if_neg h1]
    by_cases h2 : entered .DOWN zc r c n (r + n + j) c
    · rw [if_pos h2]
    · rw [if_neg h2]
      apply hcell
      unfold inSpan
      rw [if_pos hvert]
      simp only [entered, true_and] at h2
      omega
  · intro j hj
    rw [hget]
    have h1 : vacated .DOWN zc r c n (r + j) c := by simp only [vacated, true_and]; omega
    rw [if_pos h1]
    exact ⟨_, rfl, rfl⟩
  · intro r2 c2 hout
    rw [hget]
    have h1 : ¬ vacated .DOWN zc r c n r2 c2 := by simp only [vacated, true_and]; omega
    have h2 : ¬ entered .DOWN zc r c n r2 c2 := by simp only [entered, true_and]; omega
    rw [if_neg h1, if_neg h2]

/-- C1, witness: `Z` of length 3 at rows 0 to 2 of column 3 of the 6 by 6 board, moved
`DOWN` by 2 from its top cell. -/
theorem C1_down_slide_witness :
    ∃ B2, MoveVehicle boardZ ((0 + 0 : Nat) : Int) ((3 : Nat) : Int) .DOWN ((2 : Nat) : Int) = .ok B2 ∧
      Rect B2 6 6 ∧
      (∀ j : Nat, (j : Int) < cellZ.length → cellAt B2 (0 + 2 + j) 3 = some cellZ) ∧
      (∀ j : Nat, j < 2 → ∃ e, cellAt B2 (0 + j) 3 = some e ∧ e.type = CellType.EMPTY) ∧
      (∀ r2 c2 : Nat, ¬ (c2 = 3 ∧ 0 ≤ r2 ∧ (r2 : Int) < ((0 : Nat) : Int) + (2 : Nat) + cellZ.length) →
        cellAt B2 r2 c2 = cellAt boardZ r2 c2) :=
  C1_down_slide boardZ 6 6 cellZ 0 3 0 2 (by decide) (by decide) rfl (by decide)
    (fun j hj => ⟨cellE, by interval_cases j <;> rfl, rfl⟩)

/-- C2: on a rectangular board, for a vehicle `zc` anchored at `(r, c)`, a direction `d` on
its axis and an amount `n`, if the cell the vehicle would newly enter at some unit step
`j` with `1 ≤ j ≤ n` is inside the grid and not `EMPTY`, then `MoveVehicle` on any cell of the
vehicle fails with `Collision`: no board is returned. -/
theorem C2_collision (B : Board) (h w : Nat) (zc : BoardCell) (r c r1 c1 : Nat)
    (d : Direction) (n j : Nat) (x : BoardCell)
    (hR : Rect B h w) (hV : IsVehicle B zc r c) (hs : inSpan zc r c r1 c1)
    (hd : directionOk d zc.direction = true) (hj1 : 1 ≤ j) (hjn : j ≤ n)
    (hx : cellAtInt B (enteredAt d zc r c j).1 (enteredAt d zc r c j).2 = some x)
    (hne : x.type ≠ CellType.EMPTY) :
    MoveVehicle B (r1 : Int) (c1 : Int) d (n : Int) = .error .Collision := by
  rcases pathFree_or_first_block B d zc r c j with hfree | ⟨k, hk, hfree, hblock⟩
  · obtain ⟨e, he, hte⟩ := hfree j hj1 (le_refl j)
    rw [hx] at he
    injection he with he
    rw [he] at hne
    exact absurd hte hne
  · rw [MoveVehicle_fail hR hV r1 c1 hs d hd k hfree hblock n (by omega)]
    rw [enteredAt_inside hR hV d hd j x hx (k + 1) (by omega)]
    rfl

/-- C2, witness: `X` at row 2, columns 0 and 1, meets `Y` at row 2, column 2, when moved
`RIGHT` by 1. -/
theorem C2_collision_witness :
    MoveVehicle boardXY ((2 : Nat) : Int) ((0 : Nat) : Int) .RIGHT ((1 : Nat) : Int) =
      .error .Collision :=
  C2_collision boardXY 6 6 cellX 2 0 2 0 .RIGHT 1 1 cellY (by decide) (by decide) (by decide)
    rfl (by decide) (by decide) rfl (by decide)

/-- C3, as amended: on a rectangular board holding the vehicle `zc` anchored at `(r, c)`, if
`MoveVehicle` from a cell of the vehicle in direction `d` by `n` succeeds with `B2`, then
`MoveVehicle` on `B2` from any cell bearing the vehicle's identity, in the opposite direction
by `n`, succeeds with a board `B3` of the same size that agrees with `B` on every cell except
the cells the vehicle had entered, which now hold the placeholder of the return direction.
`B3` is `B` exactly when those cells already held that placeholder in `B`. -/
theorem C3_inverse_moves (B B2 : Board) (h w : Nat) (zc : BoardCell) (r c r1 c1 : Nat)
    (d : Direction) (n : Nat) (r3 c3 : Nat)
    (hR : Rect B h w) (hV : IsVehicle B zc r c) (hs : inSpan zc r c r1 c1)
    (hok : MoveVehicle B (r1 : Int) (c1 : Int) d (n : Int) = .ok B2)
    (h3 : (cellAt B2 r3 c3).map BoardCell.type = some zc.type) :
    ∃ B3, MoveVehicle B2 (r3 : Int) (c3 : Int) d.opposite (n : Int) = .ok B3 ∧ Rect B3 h w ∧
      (∀ r2 c2, cellAt B3 r2 c2 =
        if entered d zc r c n r2 c2 then some (placeholder d.opposite) else cellAt B r2 c2) ∧
      (B3 = B ↔ ∀ r2 c2, entered d zc r c n r2 c2 →
        cellAt B r2 c2 = some (placeholder d.opposite)) := by
  obtain ⟨hd, hpath⟩ := MoveVehicle_ok_pathFree hR hV r1 c1 hs d n B2 hok
  obtain ⟨B2', hok', hR2, hget⟩ := MoveVehicle_ok hR hV r1 c1 hs d hd n hpath
  rw [hok] at hok'
  injection hok' with hB2
  subst hB2
  have hV2 := IsVehicle.moved hR hR2 hV d hd n hpath hget
  obtain ⟨L, hL, hL1, hty, hr, hc, hin, hcell, honly⟩ := hV.facts hR
  obtain ⟨L2, _, _, _, _, _, _, hcell2, honly2⟩ := hV2.facts hR2
  have hax := directionOk_axis d zc.direction hd
  have hlast : 1 ≤ n → _ := fun h1 => stepFree_bounds hR d zc r c n (hpath n h1 (le_refl n))
  have hs3 : inSpan zc (movedAnchor d r c n).1 (movedAnchor d r c n).2 r3 c3 := by
    cases hy : cellAt B2 r3 c3 with
    | none => rw [hy] at h3; simp at h3
    | some y =>
      rw [hy] at h3
      simp only [Option.map_some', Option.some.injEq] at h3
      exact honly2 r3 c3 y hy h3
  have hd2 := directionOk_opposite d zc.direction hd
  have hvac : ∀ a b : Nat, vacated d zc r c n a b →
      ∃ e, cellAt B2 a b = some e ∧ e.type = CellType.EMPTY := by
    intro a b hv
    rw [hget, if_pos hv]
    exact ⟨_, rfl, placeholder_type d⟩
  have hpath2 : pathFree B2 d.opposite zc (movedAnchor d r c n).1 (movedAnchor d r c n).2 n := by
    intro j hj1 hjn
    have hn := hlast (by omega)
    unfold stepFree
    cases d with
    | RIGHT =>
      simp only [enteredAt, movedAnchor, Direction.opposite] at hn ⊢
      rw [cellAtInt_of_eq B2 _ _ r (c + n - j) rfl (by omega)]
      exact hvac r (c + n - j) (by simp only [vacated, true_and]; omega)
    | LEFT =>
      simp only [enteredAt, movedAnchor, Direction.opposite] at hn ⊢
      rw [cellAtInt_of_eq B2 _ _ r (c - n + L - 1 + j) rfl (by omega)]
      exact hvac r (c - n + L - 1 + j) (by simp only [vacated, true_and]; omega)
    | DOWN =>
      simp only [enteredAt, movedAnchor, Direction.opposite] at hn ⊢
      rw [cellAtInt_of_eq B2 _ _ (r + n - j) c (by omega) rfl]
      exact hvac (r + n - j) c (by simp only [vacated, true_and]; omega)
    | UP =>
      simp only [enteredAt, movedAnchor, Direction.opposite] at hn ⊢
      rw [cellAtInt_of_eq B2 _ _ (r - n + L - 1 + j) c (by omega) rfl]
      exact hvac (r - n + L - 1 + j) c (by simp only [vacated, true_and]; omega)
  obtain ⟨B3, hok3, hR3, hget3⟩ :=
    MoveVehicle_ok hR2 hV2 r3 c3 hs3 d.opposite hd2 n hpath2
  have hform : ∀ r2 c2, cellAt B3 r2 c2 =
      if entered d zc r c n r2 c2 then some (placeholder d.opposite) else cellAt B r2 c2 := by
    intro r2 c2
    rw [hget3, hget]
    have hold := hcell r2 c2
    cases d with
    | RIGHT =>
      have hv : zc.direction.isVertical = false := by rw [hax]; rfl
      simp only [inSpan, hv, Bool.false_eq_true, if_false, movedAnchor, vacated, entered,
        enteredAt, Direction.opposite] at hold hlast ⊢
      by_cases hn : 1 ≤ n
      · have := hlast hn
        split_ifs <;> first | rfl | (symm; apply hold; omega) | omega
      · split_ifs <;> first | rfl | (symm; apply hold; omega) | omega
    | LEFT =>
      have hv : zc.direction.isVertical = false := by rw [hax]; rfl
      simp only [inSpan, hv, Bool.false_eq_true, if_false, movedAnchor, vacated, entered,
        enteredAt, Direction.opposite] at hold hlast ⊢
      by_cases hn : 1 ≤ n
      · have := hlast hn
        split_ifs <;> first | rfl | (symm; apply hold; omega) | omega
      · split_ifs <;> first | rfl | (symm; apply hold; omega) | omega
    | DOWN =>
      have hv : zc.direction.isVertical = true := by rw [hax]; rfl
      simp only [inSpan, hv, if_true, movedAnchor, vacated, entered,
        enteredAt, Direction.opposite] at hold hlast ⊢
      by_cases hn : 1 ≤ n
      · have := hlast hn
        split_ifs <;> first | rfl | (symm; apply hold; omega) | omega
      · split_ifs <;> first | rfl | (symm; apply hold; omega) | omega
    | UP =>
      have hv : zc.direction.isVertical = true := by rw [hax]; rfl
      simp only [inSpan, hv, if_true, movedAnchor, vacated, entered,
        enteredAt, Direction.opposite] at hold hlast ⊢
      by_cases hn : 1 ≤ n
      · have := hlast hn
        split_ifs <;> first | rfl | (symm; apply hold; omega) | omega
      · split_ifs <;> first | rfl | (symm; apply hold; omega) | omega
  refine ⟨B3, hok3, hR3, hform, ?_⟩
  constructor
  · intro hB r2 c2 hent
    rw [← hB, hform, if_pos hent]
  · intro hall
    apply Rect.ext hR3 hR
    intro r2 c2
    rw [hform]
    by_cases hent : entered d zc r c n r2 c2
    · rw [if_pos hent, hall r2 c2 hent]
    · rw [if_neg hent]

/-- C3, witness: `Z` moved `DOWN` by 2 on the 6 by 6 board and then back `UP` by 2 from its
bottom cell. -/
theorem C3_inverse_moves_witness :
    ∃ B3, MoveVehicle boardZdown ((4 : Nat) : Int) ((3 : Nat) : Int) Direction.DOWN.opposite
        ((2 : Nat) : Int) = .ok B3 ∧ Rect B3 6 6 ∧
      (∀ r2 c2, cellAt B3 r2 c2 =
        if entered .DOWN cellZ 0 3 2 r2 c2 then some (placeholder Direction.DOWN.opposite)
        else cellAt boardZ r2 c2) ∧
      (B3 = boardZ ↔ ∀ r2 c2, entered .DOWN cellZ 0 3 2 r2 c2 →
        cellAt boardZ r2 c2 = some (placeholder Direction.DOWN.opposite)) :=
  C3_inverse_moves boardZ boardZdown 6 6 cellZ 0 3 0 3 .DOWN 2 4 3 (by decide) (by decide)
    (by decide) rfl rfl

/-- C3, counterexample: on the 6 by 6 board whose empty cells are `BoardCell<EMPTY, RIGHT, 1>`,
`Z` moved `DOWN` by 2 and then `UP` by 2 gives a board that differs from the first one: the
two cells `Z` passed through now hold `BoardCell<EMPTY, LEFT, 1>`. -/
theorem C3_counterexample :
    ∃ B2 B3, MoveVehicle boardZ 0 3 .DOWN 2 = .ok B2 ∧
      MoveVehicle B2 2 3 Direction.DOWN.opposite 2 = .ok B3 ∧ B3 ≠ boardZ :=
  ⟨boardZdown, boardZback, rfl, rfl, by decide⟩

/-- C4: on a rectangular board, `MoveVehicle` with amount 0 on a cell that is inside the grid
and not `EMPTY`, in a direction on the axis of that cell, succeeds and returns the board it
was given. -/
theorem C4_zero_step (B : Board) (h w : Nat) (r c : Nat) (x : BoardCell) (d : Direction)
    (hR : Rect B h w) (hx : cellAt B r c = some x) (hne : x.type ≠ CellType.EMPTY)
    (hd : directionOk d x.direction = true) :
    MoveVehicle B (r : Int) (c : Int) d 0 = .ok B := by
  have hb := hR.bounds hx
  have hW := hR.width_eq (show 0 < h by omega)
  obtain ⟨r0, c0, z, hz, hzt, hfirst⟩ := exists_first_match hR r c x hx
  have hfind : FindCar x.type B = .ok ((r0 : Int), (c0 : Int)) := by
    rw [← hzt]
    apply FindCar_first hR r0 c0 z hz
    rw [hzt]
    exact hfirst
  rw [MoveVehicle_cell B r c x hx (by rw [hW]; omega) d 0, if_neg hne, hd, hfind]
  cases d <;> simp [direct, direct_RIGHT, direct_LEFT]

/-- C4, witness: `Z` on the 6 by 6 board, moved `UP` by 0 from its middle cell. -/
theorem C4_zero_step_witness :
    MoveVehicle boardZ ((1 : Nat) : Int) ((3 : Nat) : Int) .UP 0 = .ok boardZ :=
  C4_zero_step boardZ 6 6 1 3 cellZ .UP (by decide) rfl (by decide) rfl

/-- C5: `MoveVehicle` on a cell inside the grid that holds a horizontal vehicle fails with
`OrientationMismatch` for `UP` and `DOWN`, and on a cell that holds a vertical vehicle for
`LEFT` and `RIGHT`, whatever the amount and whatever lies on the path. -/
theorem C5_orientation_gate (B : Board) (r c : Nat) (x : BoardCell) (d : Direction) (A : Int)
    (hx : cellAt B r c = some x) (hc : (c : Int) < GameBoard.width B)
    (hne : x.type ≠ CellType.EMPTY)
    (hmis : ((x.direction = .LEFT ∨ x.direction = .RIGHT) ∧ (d = .UP ∨ d = .DOWN)) ∨
      ((x.direction = .UP ∨ x.direction = .DOWN) ∧ (d = .LEFT ∨ d = .RIGHT))) :
    MoveVehicle B (r : Int) (c : Int) d A = .error .OrientationMismatch := by
  have hd : directionOk d x.direction = false := by
    rcases hmis with ⟨h1 | h1, h2 | h2⟩ | ⟨h1 | h1, h2 | h2⟩ <;> rw [h1, h2] <;> rfl
  rw [MoveVehicle_cell B r c x hx hc d A, if_neg hne, if_pos hd]

/-- C5, witness: the horizontal `X` of the 6 by 6 board, moved `DOWN` by 1 although the
cell below it is free. -/
theorem C5_orientation_gate_witness :
    MoveVehicle boardXY ((2 : Nat) : Int) ((0 : Nat) : Int) .DOWN 1 =
      .error .OrientationMismatch :=
  C5_orientation_gate boardXY 2 0 cellX .DOWN 1 rfl (by decide) (by decide)
    (Or.inl ⟨Or.inr rfl, Or.inr rfl⟩)

/-- C6: `MoveVehicle` with a row that is not below the number of rows, or a column that is
not below the width, fails with `OutOfBounds`, for every direction and amount. -/
theorem C6_out_of_bounds (B : Board) (R1 C1 : Int) (d : Direction) (A : Int)
    (hout : GameBoard.length B ≤ R1 ∨ GameBoard.width B ≤ C1) :
    MoveVehicle B R1 C1 d A = .error .OutOfBounds := by
  unfold MoveVehicle
  cases h1 : GetAtIndex R1 B with
  | error e => rw [GetAtIndex_error R1 B e h1]
  | ok subList =>
    simp only []
    cases h2 : GetAtIndex C1 subList with
    | error e => rw [GetAtIndex_error C1 subList e h2]
    | ok my_cell =>
      simp only []
      rcases hout with h3 | h3
      · rw [if_pos (by omega)]
      · by_cases h4 : R1 < GameBoard.length B
        · rw [if_neg (by omega), if_pos (by omega)]
        · rw [if_pos h4]

/-- C6, witness: row 6 and column 0 on a board of 6 rows. -/
theorem C6_out_of_bounds_witness :
    MoveVehicle boardXY 6 0 .RIGHT 1 = .error .OutOfBounds :=
  C6_out_of_bounds boardXY 6 0 .RIGHT 1 (Or.inl (by decide))

/-- C7, as amended: on a rectangular board holding a vertical vehicle `zc` anchored at
`(r, c)`, `MoveVehicle` with `DOWN` from any cell of the vehicle gives, for every amount, the
same result (the same board or the same failure) as transposing the board, running the
Mover's `RIGHT` slide for `zc` on the transposed board with the rows and columns of anchor and
far end exchanged, and transposing the result back. `MoveVehicle` itself with `RIGHT` on the
transposed board fails with `OrientationMismatch`: transposition leaves the direction of
every cell as it was. -/
theorem C7_down_by_transposition (B : Board) (h w : Nat) (zc : BoardCell) (r c r1 c1 : Nat)
    (A : Int) (hR : Rect B h w) (hV : IsVehicle B zc r c)
    (hvert : zc.direction.isVertical = true) (hs : inSpan zc r c r1 c1) :
    MoveVehicle B (r1 : Int) (c1 : Int) .DOWN A =
        Except.map Transpose
          (direct .RIGHT A (Transpose B) zc (r : Int) (c : Int) ((r : Int) + zc.length - 1)
            (c : Int)) ∧
      MoveVehicle (Transpose B) (c1 : Int) (r1 : Int) .RIGHT A = .error .OrientationMismatch := by
  obtain ⟨L, hL, hL1, hty, hr, hc, hin, hcell, honly⟩ := hV.facts hR
  have hdir : zc.direction = .UP ∨ zc.direction = .DOWN := by
    cases hdir : zc.direction <;> simp [hdir, Direction.isVertical] at hvert ⊢
  have hd : directionOk .DOWN zc.direction = true := by
    rcases hdir with h1 | h1 <;> rw [h1] <;> rfl
  have hd2 : directionOk .RIGHT zc.direction = false := by
    rcases hdir with h1 | h1 <;> rw [h1] <;> rfl
  have hh : 0 < h := by omega
  have hw : 0 < w := by omega
  constructor
  · rw [MoveVehicle_eq_direct hR hV r1 c1 hs .DOWN hd A]
    exact direct_DOWN_transpose hR hh hw zc A _ _ _ _
  · have h1 := hcell r1 c1 hs
    have hb := hR.bounds h1
    have hT := hR.transpose hh
    have hcT : cellAt (Transpose B) c1 r1 = some zc := by
      rw [cellAt_transpose hR hh]; exact h1
    rw [MoveVehicle_cell (Transpose B) c1 r1 zc hcT (by rw [hT.width_eq hw]; omega) .RIGHT A,
      if_neg hty, if_pos hd2]

/-- C7, witness: `Z` on the 6 by 6 board, moved `DOWN` by 2 from its middle cell. -/
theorem C7_down_by_transposition_witness :
    MoveVehicle boardZ ((1 : Nat) : Int) ((3 : Nat) : Int) .DOWN 2 =
        Except.map Transpose
          (direct .RIGHT 2 (Transpose boardZ) cellZ ((0 : Nat) : Int) ((3 : Nat) : Int)
            (((0 : Nat) : Int) + cellZ.length - 1) ((3 : Nat) : Int)) ∧
      MoveVehicle (Transpose boardZ) ((3 : Nat) : Int) ((1 : Nat) : Int) .RIGHT 2 =
        .error .OrientationMismatch :=
  C7_down_by_transposition boardZ 6 6 cellZ 0 3 1 3 2 (by decide) (by decide) rfl (by decide)

/-- C7, counterexample: on the 6 by 6 board, `Z` moved `DOWN` by 2 succeeds, while `MoveVehicle`
with `RIGHT` by 2 on the transposed board, from the transposed cell, is rejected with
`OrientationMismatch`, so that transposing back gives no board. -/
theorem C7_counterexample :
    MoveVehicle boardZ 0 3 .DOWN 2 = .ok boardZdown ∧
      Except.map Transpose (MoveVehicle (Transpose boardZ) 3 0 .RIGHT 2) =
        .error .OrientationMismatch ∧
      MoveVehicle boardZ 0 3 .DOWN 2 ≠
        Except.map Transpose (MoveVehicle (Transpose boardZ) 3 0 .RIGHT 2) :=
  ⟨rfl, rfl, fun hcon => Except.noConfusion hcon⟩

/-- C8: `MoveVehicle` on a cell inside the grid that is `EMPTY` fails with `EmptyCellMove`,
for every direction and every amount. -/
theorem C8_empty_cell (B : Board) (r c : Nat) (x : BoardCell) (d : Direction) (A : Int)
    (hx : cellAt B r c = some x) (hc : (c : Int) < GameBoard.width B)
    (hE : x.type = CellType.EMPTY) :
    MoveVehicle B (r : Int) (c : Int) d A = .error .EmptyCellMove := by
  rw [MoveVehicle_cell B r c x hx hc d A, if_pos hE]

/-- C8, witness: the empty top-left cell of the 6 by 6 board, amount 0. -/
theorem C8_empty_cell_witness :
    MoveVehicle boardZ ((0 : Nat) : Int) ((0 : Nat) : Int) .LEFT 0 = .error .EmptyCellMove :=
  C8_empty_cell boardZ 0 0 cellE .LEFT 0 rfl (by decide) rfl

/-- C9: on a board that meets the Cell invariant, `MoveVehicle` gives the same result (the
same board or the same failure) from any two cells inside the grid that bear the same
vehicle identity, for every direction and amount. -/
theorem C9_any_cell (B : Board) (r1 c1 r2 c2 : Nat) (x y : BoardCell) (d : Direction) (A : Int)
    (hC : CellInv B)
    (hx : cellAt B r1 c1 = some x) (hc1 : (c1 : Int) < GameBoard.width B)
    (hy : cellAt B r2 c2 = some y) (hc2 : (c2 : Int) < GameBoard.width B)
    (hsame : x.type = y.type) :
    MoveVehicle B (r1 : Int) (c1 : Int) d A = MoveVehicle B (r2 : Int) (c2 : Int) d A := by
  rw [MoveVehicle_cell B r1 c1 x hx hc1 d A, MoveVehicle_cell B r2 c2 y hy hc2 d A]
  by_cases hE : x.type = CellType.EMPTY
  · rw [if_pos hE, if_pos (by rw [← hsame]; exact hE)]
  · have hr1 := cellAt_lt_length hx
    have hr2 := cellAt_lt_length hy
    simp only [GameBoard.length] at hr1 hr2
    have := hC r1 (by omega) c1 (by omega) r2 (by omega) c2 (by omega)
    rw [hx, hy] at this
    have hxy : x = y := by
      have h3 := this (by simpa using hE) (by simpa using hsame)
      injection h3
    subst hxy
    rfl

/-- C9, witness: the top and the bottom cell of `Z` on the 6 by 6 board, moved `DOWN` by 2. -/
theorem C9_any_cell_witness :
    MoveVehicle boardZ ((0 : Nat) : Int) ((3 : Nat) : Int) .DOWN 2 =
      MoveVehicle boardZ ((2 : Nat) : Int) ((3 : Nat) : Int) .DOWN 2 :=
  C9_any_cell boardZ 0 3 2 3 cellZ cellZ .DOWN 2 (by decide) rfl (by decide) rfl (by decide) rfl

/-- C10: on a rectangular board on which some cell bears the identity, `FindCar` returns
coordinates `(r, c)` inside the grid such that the cell at `(r, c)` bears the identity and no
cell earlier in row-major order (a smaller row, or the same row and a smaller column) does. -/
theorem C10_first_match (B : Board) (h w : Nat) (r1 c1 : Nat) (x : BoardCell)
    (hR : Rect B h w) (hx : cellAt B r1 c1 = some x) :
    ∃ r c : Nat, FindCar x.type B = .ok ((r : Int), (c : Int)) ∧ r < h ∧ c < w ∧
      (∃ z, cellAt B r c = some z ∧ z.type = x.type) ∧
      ∀ r2 c2 y, cellAt B r2 c2 = some y → (r2 < r ∨ (r2 = r ∧ c2 < c)) → y.type ≠ x.type := by
  obtain ⟨r0, c0, z, hz, hzt, hfirst⟩ := exists_first_match hR r1 c1 x hx
  have hb := hR.bounds hz
  refine ⟨r0, c0, ?_, hb.1, hb.2, ⟨z, hz, hzt⟩, hfirst⟩
  rw [← hzt]
  apply FindCar_first hR r0 c0 z hz
  rw [hzt]
  exact hfirst

/-- C10, witness: looking for `Y` from its own cell on the 6 by 6 board. -/
theorem C10_first_match_witness :
    ∃ r c : Nat, FindCar cellY.type boardXY = .ok ((r : Int), (c : Int)) ∧ r < 6 ∧ c < 6 ∧
      (∃ z, cellAt boardXY r c = some z ∧ z.type = cellY.type) ∧
      ∀ r2 c2 y, cellAt boardXY r2 c2 = some y → (r2 < r ∨ (r2 = r ∧ c2 < c)) →
        y.type ≠ cellY.type :=
  C10_first_match boardXY 6 6 2 2 cellY (by decide) rfl

/-! ## Lemmas for the later claims -/

/-! ### Axis reduction, upwards -/

/-- On a rectangular board with at least one row and one column, the `UP` slide is the
`LEFT` slide on the transposed board, rows and columns exchanged, transposed back. -/
theorem direct_UP_transpose {B : Board} {h w : Nat} (hR : Rect B h w) (hh : 0 < h)
    (hw : 0 < w) (my_cell : BoardCell) (counter Co1 Ro1 Co2 Ro2 : Int) :
    direct .UP counter B my_cell Co1 Ro1 Co2 Ro2 =
      Except.map Transpose (direct .LEFT counter (Transpose B) my_cell Ro1 Co1 Ro2 Co2) := by
  unfold direct
  by_cases hneg : counter < 0
  · rw [if_pos hneg, if_pos hneg]
    rfl
  · rw [if_neg hneg, if_neg hneg]
    simp only []
    by_cases h0 : counter = 0
    · rw [if_pos h0, h0]
      simp only [Int.toNat_zero, direct_LEFT, Except.map]
      rw [Transpose_Transpose hR hh hw]
    · rw [if_neg h0]
      cases direct_LEFT (Transpose B) my_cell Ro1 Co1 Ro2 counter.toNat with
      | error e => rfl
      | ok T2 => rfl

theorem isVertical_directionOk (d x : Direction) (hx : x.isVertical = d.isVertical) :
    directionOk d x = true := by
  cases d <;> cases x <;> first | rfl | (exact absurd hx (by decide))

/-! ### The Board invariant -/

/-- Under the Board invariant every cell that is not `EMPTY` is a cell of a vehicle. -/
theorem BoardInv.vehicle {B : Board} {h w : Nat} (hR : Rect B h w) (hI : BoardInv B)
    {r1 c1 : Nat} {x : BoardCell} (hx : cellAt B r1 c1 = some x)
    (hne : x.type ≠ CellType.EMPTY) : ∃ r c, IsVehicle B x r c := by
  have hb := hR.bounds hx
  have hW := hR.width_eq (show 0 < h by omega)
  have := hI r1 (by rw [hR.1]; exact hb.1) c1 (by rw [hW]; simpa using hb.2)
  rw [hx] at this
  obtain ⟨r, _, c, _, hV⟩ := this hne
  exact ⟨r, c, hV⟩

/-! ### Slides on one row of any board -/

/-- Either a property holds at every step `1 .. k`, or there is a first step where it fails. -/
theorem first_failure (P : Nat → Prop) (k : Nat) :
    (∀ j, 1 ≤ j → j ≤ k → P j) ∨ ∃ m, m < k ∧ (∀ j, 1 ≤ j → j ≤ m → P j) ∧ ¬ P (m + 1) := by
  induction k with
  | zero =>
    left
    intro j h1 h2
    omega
  | succ k ih =>
    rcases ih with hall | ⟨m, hm, hall, hfail⟩
    · by_cases hstep : P (k + 1)
      · left
        intro j h1 h2
        by_cases hj : j = k + 1
        · rw [hj]; exact hstep
        · exact hall j h1 (by omega)
      · right
        exact ⟨k, by omega, hall, hstep⟩
    · right
      exact ⟨m, by omega, hall, hfail⟩

theorem direct_RIGHT_eq (n : Nat) (B : Board) (cell : BoardCell) (Co1 Ro1 Co2 Ro2 : Int) :
    direct .RIGHT (n : Int) B cell Co1 Ro1 Co2 Ro2 = direct_RIGHT B cell Co1 Ro1 Co2 n := by
  have hnn : ¬ ((n : Int) < 0) := by omega
  simp only [direct, hnn, if_false, Int.toNat_ofNat]

theorem direct_LEFT_eq (n : Nat) (B : Board) (cell : BoardCell) (Co1 Ro1 Co2 Ro2 : Int) :
    direct .LEFT (n : Int) B cell Co1 Ro1 Co2 Ro2 = direct_LEFT B cell Co1 Ro1 Co2 n := by
  have hnn : ¬ ((n : Int) < 0) := by omega
  simp only [direct, hnn, if_false, Int.toNat_ofNat]

/-- A slide to the right that succeeds went over free cells of the original row. -/
theorem direct_RIGHT_row_free (B B2 : Board) (cell : BoardCell) (r a b : Nat) (hab : a ≤ b)
    (row : List BoardCell) (hrow : B[r]? = some row) (n : Nat)
    (hok : direct_RIGHT B cell (a : Int) (r : Int) (b : Int) n = .ok B2) :
    ∀ j, 1 ≤ j → j ≤ n → ∃ e, row[b + j]? = some e ∧ e.type = CellType.EMPTY := by
  rcases first_failure (fun j => ∃ e, row[b + j]? = some e ∧ e.type = CellType.EMPTY) n with
    hall | ⟨m, hm, hall, hfail⟩
  · exact hall
  · exfalso
    obtain ⟨rowm, hokm, hlen, hget⟩ := direct_RIGHT_ok B cell r a b hab row hrow m hall
    have hr : r < B.length := lt_length_of_getElem? B r row hrow
    have hsub : (B.set r rowm)[r]? = some rowm := List.getElem?_set_self hr
    have hcell : rowm[b + (m + 1)]? = row[b + (m + 1)]? := by
      rw [hget, if_neg (by omega), if_neg (by omega)]
    have herr : ∃ e, direct_RIGHT B cell (a : Int) (r : Int) (b : Int) (m + 1) = .error e := by
      cases hx : row[b + (m + 1)]? with
      | none =>
        rw [hx] at hcell
        exact ⟨_, direct_RIGHT_step_outside B _ cell r b a m hokm rowm hsub hcell⟩
      | some x =>
        rw [hx] at hcell
        have hne : x.type ≠ CellType.EMPTY := fun hc => hfail ⟨x, hx, hc⟩
        exact ⟨_, direct_RIGHT_step_blocked B _ cell r b a m hokm rowm hsub x hcell hne⟩
    obtain ⟨e, he⟩ := herr
    rw [direct_RIGHT_error_le B cell _ _ _ e (m + 1) he n (by omega)] at hok
    exact absurd hok (by simp)

/-- A slide to the left that succeeds stayed inside the row and went over free cells of
the original row. -/
theorem direct_LEFT_row_free (B B2 : Board) (cell : BoardCell) (r a b : Nat) (hab : a ≤ b)
    (row : List BoardCell) (hrow : B[r]? = some row) (hb : b < row.length) (n : Nat)
    (hok : direct_LEFT B cell (a : Int) (r : Int) (b : Int) n = .ok B2) :
    n ≤ a ∧ ∀ j, 1 ≤ j → j ≤ n → ∃ e, row[a - j]? = some e ∧ e.type = CellType.EMPTY := by
  rcases first_failure
    (fun j => j ≤ a ∧ ∃ e, row[a - j]? = some e ∧ e.type = CellType.EMPTY) n with
    hall | ⟨m, hm, hall, hfail⟩
  · refine ⟨?_, fun j h1 h2 => (hall j h1 h2).2⟩
    by_cases hn : n = 0
    · omega
    · exact (hall n (by omega) (le_refl n)).1
  · exfalso
    have hma : m ≤ a := by
      by_cases hm0 : m = 0
      · omega
      · exact (hall m (by omega) (le_refl m)).1
    obtain ⟨rowm, hokm, hlen, hget⟩ := direct_LEFT_ok B cell r a b hab row hrow hb m hma
      (fun j h1 h2 => (hall j h1 h2).2)
    have hr : r < B.length := lt_length_of_getElem? B r row hrow
    have hsub : (B.set r rowm)[r]? = some rowm := List.getElem?_set_self hr
    have herr : ∃ e, direct_LEFT B cell (a : Int) (r : Int) (b : Int) (m + 1) = .error e := by
      by_cases hka : m + 1 ≤ a
      · have hcell : rowm[a - (m + 1)]? = row[a - (m + 1)]? := by
          rw [hget, if_neg (by omega), if_neg (by omega)]
        have hlt : a - (m + 1) < row.length := by omega
        have hx : row[a - (m + 1)]? = some row[a - (m + 1)] := List.getElem?_eq_getElem hlt
        rw [hx] at hcell
        have hne : (row[a - (m + 1)]).type ≠ CellType.EMPTY :=
          fun hc => hfail ⟨hka, _, hx, hc⟩
        exact ⟨_, direct_LEFT_step_blocked B _ cell r a b m hka hokm rowm hsub _ hcell hne⟩
      · exact ⟨_, direct_LEFT_step_outside B _ cell r a b m (by omega) hokm rowm hsub⟩
    obtain ⟨e, he⟩ := herr
    rw [direct_LEFT_error_le B cell _ _ _ e (m + 1) he n (by omega)] at hok
    exact absurd hok (by simp)

/-- The row of a vehicle from its cells. -/
theorem vehicle_row (B : Board) (cell : BoardCell) (r a b : Nat) (hab : a ≤ b)
    (hveh : ∀ i, a ≤ i → i ≤ b → cellAt B r i = some cell) :
    ∃ row, B[r]? = some row ∧ b < row.length ∧ ∀ i, cellAt B r i = row[i]? := by
  have hb := hveh b hab (le_refl b)
  unfold cellAt at hb
  cases hrow : B[r]? with
  | none => rw [hrow] at hb; simp at hb
  | some row =>
    rw [hrow] at hb
    simp only [Option.some_bind] at hb
    exact ⟨row, rfl, lt_length_of_getElem? row b cell hb, fun i => by simp [cellAt, hrow]⟩

/-- The result of a successful slide to the right on any board, cell by cell. -/
theorem direct_RIGHT_cells (B B2 : Board) (cell : BoardCell) (r a b : Nat) (hab : a ≤ b)
    (hveh : ∀ i, a ≤ i → i ≤ b → cellAt B r i = some cell) (n : Nat)
    (hok : direct_RIGHT B cell (a : Int) (r : Int) (b : Int) n = .ok B2) :
    ∀ r2 c2, cellAt B2 r2 c2 =
      if r2 = r ∧ a ≤ c2 ∧ c2 < a + n then some (BoardCell.mk .EMPTY .RIGHT 1)
      else if r2 = r ∧ b < c2 ∧ c2 ≤ b + n then some cell
      else cellAt B r2 c2 := by
  obtain ⟨row, hrow, hb, hrc⟩ := vehicle_row B cell r a b hab hveh
  have hfree := direct_RIGHT_row_free B B2 cell r a b hab row hrow n hok
  obtain ⟨row2, hok2, hlen, hget⟩ := direct_RIGHT_ok B cell r a b hab row hrow n hfree
  rw [hok] at hok2
  injection hok2 with hB2
  subst hB2
  have hr : r < B.length := lt_length_of_getElem? B r row hrow
  intro r2 c2
  rw [cellAt_set B r row2 hr]
  by_cases hr2 : r2 = r
  · subst hr2
    rw [if_pos rfl, hget, hrc]
    simp only [true_and]
  · rw [if_neg hr2, if_neg (fun hc => hr2 hc.1), if_neg (fun hc => hr2 hc.1)]

/-- The result of a successful slide to the left on any board, cell by cell. -/
theorem direct_LEFT_cells (B B2 : Board) (cell : BoardCell) (r a b : Nat) (hab : a ≤ b)
    (hveh : ∀ i, a ≤ i → i ≤ b → cellAt B r i = some cell) (n : Nat)
    (hok : direct_LEFT B cell (a : Int) (r : Int) (b : Int) n = .ok B2) :
    n ≤ a ∧ ∀ r2 c2, cellAt B2 r2 c2 =
      if r2 = r ∧ b < c2 + n ∧ c2 ≤ b then some (BoardCell.mk .EMPTY .LEFT 1)
      else if r2 = r ∧ a ≤ c2 + n ∧ c2 < a then some cell
      else cellAt B r2 c2 := by
  obtain ⟨row, hrow, hb, hrc⟩ := vehicle_row B cell r a b hab hveh
  obtain ⟨hna, hfree⟩ := direct_LEFT_row_free B B2 cell r a b hab row hrow hb n hok
  obtain ⟨row2, hok2, hlen, hget⟩ := direct_LEFT_ok B cell r a b hab row hrow hb n hna hfree
  rw [hok] at hok2
  injection hok2 with hB2
  subst hB2
  have hr : r < B.length := lt_length_of_getElem? B r row hrow
  refine ⟨hna, ?_⟩
  intro r2 c2
  rw [cellAt_set B r row2 hr]
  by_cases hr2 : r2 = r
  · subst hr2
    rw [if_pos rfl, hget, hrc]
    simp only [true_and]
  · rw [if_neg hr2, if_neg (fun hc => hr2 hc.1), if_neg (fun hc => hr2 hc.1)]

/-- On any board, the slide to the right stops at the first step whose cell of the original
row is not free: with `Collision` when there is such a cell, with `OutOfBounds` otherwise. -/
theorem direct_RIGHT_row_fail (B : Board) (cell : BoardCell) (r a b : Nat) (hab : a ≤ b)
    (row : List BoardCell) (hrow : B[r]? = some row) (m : Nat)
    (hall : ∀ j, 1 ≤ j → j ≤ m → ∃ e, row[b + j]? = some e ∧ e.type = CellType.EMPTY)
    (hfail : ¬ ∃ e, row[b + (m + 1)]? = some e ∧ e.type = CellType.EMPTY)
    (n : Nat) (hn : m + 1 ≤ n) :
    direct_RIGHT B cell (a : Int) (r : Int) (b : Int) n =
      .error (if (row[b + (m + 1)]?).isSome then MoveError.Collision
        else MoveError.OutOfBounds) := by
  obtain ⟨rowm, hokm, hlen, hget⟩ := direct_RIGHT_ok B cell r a b hab row hrow m hall
  have hr : r < B.length := lt_length_of_getElem? B r row hrow
  have hsub : (B.set r rowm)[r]? = some rowm := List.getElem?_set_self hr
  have hcell : rowm[b + (m + 1)]? = row[b + (m + 1)]? := by
    rw [hget, if_neg (by omega), if_neg (by omega)]
  apply direct_RIGHT_error_le B cell _ _ _ _ (m + 1) _ n hn
  cases hx : row[b + (m + 1)]? with
  | none =>
    rw [hx] at hcell
    simpa using direct_RIGHT_step_outside B _ cell r b a m hokm rowm hsub hcell
  | some x =>
    rw [hx] at hcell
    have hne : x.type ≠ CellType.EMPTY := fun hc => hfail ⟨x, hx, hc⟩
    simpa using direct_RIGHT_step_blocked B _ cell r b a m hokm rowm hsub x hcell hne

/-- On any board, the slide to the left stops at the first step whose cell of the original
row is not free: with `Collision` when the column is not below zero, with `OutOfBounds`
when it is. -/
theorem direct_LEFT_row_fail (B : Board) (cell : BoardCell) (r a b : Nat) (hab : a ≤ b)
    (row : List BoardCell) (hrow : B[r]? = some row) (hb : b < row.length) (m : Nat)
    (hma : m ≤ a)
    (hall : ∀ j, 1 ≤ j → j ≤ m → ∃ e, row[a - j]? = some e ∧ e.type = CellType.EMPTY)
    (hfail : m + 1 ≤ a → ¬ ∃ e, row[a - (m + 1)]? = some e ∧ e.type = CellType.EMPTY)
    (n : Nat) (hn : m + 1 ≤ n) :
    direct_LEFT B cell (a : Int) (r : Int) (b : Int) n =
      .error (if m + 1 ≤ a then MoveError.Collision else MoveError.OutOfBounds) := by
  obtain ⟨rowm, hokm, hlen, hget⟩ := direct_LEFT_ok B cell r a b hab row hrow hb m hma hall
  have hr : r < B.length := lt_length_of_getElem? B r row hrow
  have hsub : (B.set r rowm)[r]? = some rowm := List.getElem?_set_self hr
  apply direct_LEFT_error_le B cell _ _ _ _ (m + 1) _ n hn
  by_cases hka : m + 1 ≤ a
  · rw [if_pos hka]
    have hcell : rowm[a - (m + 1)]? = row[a - (m + 1)]? := by
      rw [hget, if_neg (by omega), if_neg (by omega)]
    have hlt : a - (m + 1) < row.length := by omega
    have hx : row[a - (m + 1)]? = some row[a - (m + 1)] := List.getElem?_eq_getElem hlt
    rw [hx] at hcell
    have hne : (row[a - (m + 1)]).type ≠ CellType.EMPTY :=
      fun hc => hfail hka ⟨_, hx, hc⟩
    exact direct_LEFT_step_blocked B _ cell r a b m hka hokm rowm hsub _ hcell hne
  · rw [if_neg hka]
    exact direct_LEFT_step_outside B _ cell r a b m (by omega) hokm rowm hsub

/-! ### Termination -/

theorem SetAtIndex_error {α : Type} (i : Int) (U : α) (L : List α) (e : MoveError)
    (h : SetAtIndex i U L = .error e) : e = MoveError.OutOfBounds := by
  unfold SetAtIndex at h
  by_cases hi : i < 0
  · rw [if_pos hi] at h
    injection h with h
    exact h.symm
  · rw [if_neg hi] at h
    by_cases hl : i.toNat < L.length
    · rw [if_pos hl] at h
      exact absurd h (by simp)
    · rw [if_neg hl] at h
      injection h with h
      exact h.symm

theorem GetAtIndex_ok_bounds {α : Type} (i : Int) (L : List α) (v : α)
    (h : GetAtIndex i L = .ok v) : 0 ≤ i ∧ i.toNat < L.length := by
  unfold GetAtIndex at h
  by_cases hi : i < 0
  · rw [if_pos hi] at h
    exact absurd h (by simp)
  · rw [if_neg hi] at h
    cases hL : L[i.toNat]? with
    | none => rw [hL] at h; exact absurd h (by simp)
    | some w => exact ⟨by omega, lt_length_of_getElem? L _ w hL⟩

/-- The slide to the right fails only with `Collision` or `OutOfBounds`. -/
theorem direct_RIGHT_error_kind (B : Board) (cell : BoardCell) (Co1 Ro1 Co2 : Int) (n : Nat)
    (e : MoveError) (h : direct_RIGHT B cell Co1 Ro1 Co2 n = .error e) :
    e = MoveError.Collision ∨ e = MoveError.OutOfBounds := by
  induction n with
  | zero => exact absurd h (by simp [direct_RIGHT])
  | succ n ih =>
    simp only [direct_RIGHT] at h
    split at h
    · rename_i e2 h2
      injection h with h
      subst h
      exact ih h2
    · split at h
      · rename_i e2 h2
        injection h with h
        subst h
        right; exact GetAtIndex_error _ _ _ h2
      · split at h
        · rename_i e2 h2
          injection h with h
          subst h
          right; exact GetAtIndex_error _ _ _ h2
        · split at h
          · injection h with h
            left; exact h.symm
          · split at h
            · rename_i e2 h2
              injection h with h
              subst h
              right; exact SetAtIndex_error _ _ _ _ h2
            · split at h
              · rename_i e2 h2
                injection h with h
                subst h
                right; exact SetAtIndex_error _ _ _ _ h2
              · right; exact SetAtIndex_error _ _ _ _ h

/-- The slide to the left fails only with `Collision` or `OutOfBounds`. -/
theorem direct_LEFT_error_kind (B : Board) (cell : BoardCell) (Co1 Ro1 Co2 : Int) (n : Nat)
    (e : MoveError) (h : direct_LEFT B cell Co1 Ro1 Co2 n = .error e) :
    e = MoveError.Collision ∨ e = MoveError.OutOfBounds := by
  induction n with
  | zero => exact absurd h (by simp [direct_LEFT])
  | succ n ih =>
    simp only [direct_LEFT] at h
    split at h
    · rename_i e2 h2
      injection h with h
      subst h
      exact ih h2
    · split at h
      · rename_i e2 h2
        injection h with h
        subst h
        right; exact GetAtIndex_error _ _ _ h2
      · split at h
        · rename_i e2 h2
          injection h with h
          subst h
          right; exact GetAtIndex_error _ _ _ h2
        · split at h
          · injection h with h
            left; exact h.symm
          · split at h
            · rename_i e2 h2
              injection h with h
              subst h
              right; exact SetAtIndex_error _ _ _ _ h2
            · split at h
              · rename_i e2 h2
                injection h with h
                subst h
                right; exact SetAtIndex_error _ _ _ _ h2
              · right; exact SetAtIndex_error _ _ _ _ h

/-- With a counter that is not negative, `direct` fails only with `Collision` or
`OutOfBounds`. -/
theorem direct_error_kind (d : Direction) (counter : Int) (hc : 0 ≤ counter) (B : Board)
    (cell : BoardCell) (Co1 Ro1 Co2 Ro2 : Int) (e : MoveError)
    (h : direct d counter B cell Co1 Ro1 Co2 Ro2 = .error e) :
    e = MoveError.Collision ∨ e = MoveError.OutOfBounds := by
  have hnn : ¬ (counter < 0) := by omega
  unfold direct at h
  rw [if_neg hnn] at h
  cases d with
  | RIGHT => exact direct_RIGHT_error_kind _ _ _ _ _ _ e h
  | LEFT => exact direct_LEFT_error_kind _ _ _ _ _ _ e h
  | DOWN =>
    simp only [] at h
    split at h
    · exact absurd h (by simp)
    · split at h
      · rename_i e2 h2
        injection h with h
        subst h
        exact direct_RIGHT_error_kind _ _ _ _ _ _ _ h2
      · exact absurd h (by simp)
  | UP =>
    simp only [] at h
    split at h
    · exact absurd h (by simp)
    · split at h
      · rename_i e2 h2
        injection h with h
        subst h
        exact direct_LEFT_error_kind _ _ _ _ _ _ _ h2
      · exact absurd h (by simp)

theorem GameBoard.width_nonneg (B : Board) : 0 ≤ GameBoard.width B := by
  cases B with
  | nil => simp [GameBoard.width]
  | cons head tl => simp [GameBoard.width]

/-- The scan of a board whose width is `Wn`, started inside the grid with one unit of fuel
for each cell still to visit, never runs out of fuel. -/
theorem Find_Car_Helper_error_kind_aux (t : CellType) (B : Board) (Wn : Nat)
    (hWn : GameBoard.width B = (Wn : Int)) :
    ∀ (fuel row col : Nat) (type2 : CellType), row < B.length → col < Wn →
      B.length * Wn ≤ fuel + (row * Wn + col) →
      ∀ e, Find_Car_Helper t B fuel type2 (row : Int) (col : Int) = .error e →
        e = MoveError.OutOfBounds ∨ e = MoveError.VehicleNotFound := by
  intro fuel
  induction fuel with
  | zero =>
    intro row col type2 hrow hcol hf e _
    have := cell_index_lt B.length Wn row col hrow hcol
    omega
  | succ fuel ih =>
    intro row col type2 hrow hcol hf e h
    simp only [Find_Car_Helper, hWn] at h
    split at h
    · injection h with h
      right; exact h.symm
    · rename_i hnl
      split at h
      · rename_i e2 h2
        injection h with h
        subst h
        left; exact GetAtIndex_error _ _ _ h2
      · rename_i rowlist hrl
        split at h
        · rename_i e2 h2
          injection h with h
          subst h
          left; exact GetAtIndex_error _ _ _ h2
        · rename_i next_cell hnc
          split at h
          · exact absurd h (by simp)
          · rename_i hfound
            have hb := GetAtIndex_ok_bounds _ _ _ hrl
            have hfound2 : (t == type2) = false := by simpa using hfound
            by_cases hc1 : col + 1 = Wn
            · have e1 : (((col : Int) + 1) == (Wn : Int)) = true := by simp; omega
              have hlr : (GameBoard.length B == (row : Int) + 1) = false := by
                cases hlr : (GameBoard.length B == (row : Int) + 1) with
                | false => rfl
                | true => simp [hfound2, hlr, e1] at hnl
              simp only [e1, hlr, ConditionalInteger, if_true, Bool.false_and,
                Bool.false_eq_true, if_false] at h hb
              have h4 : (row + 1) * Wn = row * Wn + Wn := by ring
              have h3 := ih (row + 1) 0 next_cell.type (by omega) (by omega) (by omega) e
              apply h3
              rw [← h]
              have e3 : ((row + 1 : Nat) : Int) = (row : Int) + 1 := by push_cast; rfl
              rw [e3]
              rfl
            · have e1 : (((col : Int) + 1) == (Wn : Int)) = false := by simp; omega
              simp only [e1, ConditionalInteger, Bool.and_false, Bool.false_eq_true,
                if_false] at h hb
              have h3 := ih row (col + 1) next_cell.type hrow (by omega) (by omega) e
              apply h3
              rw [← h]
              congr 1

/-- On any board, the scan started inside the grid with one unit of fuel for each cell
still to visit never runs out of fuel: it fails only with `OutOfBounds` (a row shorter than
the first one) or `VehicleNotFound`. -/
theorem Find_Car_Helper_error_kind (t : CellType) (B : Board) :
    ∀ (fuel row col : Nat) (type2 : CellType), row < B.length →
      (col : Int) < GameBoard.width B →
      B.length * (GameBoard.width B).toNat ≤ fuel + (row * (GameBoard.width B).toNat + col) →
      ∀ e, Find_Car_Helper t B fuel type2 (row : Int) (col : Int) = .error e →
        e = MoveError.OutOfBounds ∨ e = MoveError.VehicleNotFound := by
  intro fuel row col type2 hrow hcol hf e h
  have hW := GameBoard.width_nonneg B
  exact Find_Car_Helper_error_kind_aux t B (GameBoard.width B).toNat (by omega) fuel row col
    type2 hrow (by omega) hf e h

/-- On any board `FindCar` fails only with `OutOfBounds` or `VehicleNotFound`: its first
failing check, or its result, comes before the bound of `Find_Car_Helper` is reached. -/
theorem FindCar_error_kind (t : CellType) (B : Board) (e : MoveError)
    (h : FindCar t B = .error e) :
    e = MoveError.OutOfBounds ∨ e = MoveError.VehicleNotFound := by
  cases B with
  | nil =>
    simp only [FindCar] at h
    injection h with h
    left; exact h.symm
  | cons head tl =>
    cases head with
    | nil =>
      simp only [FindCar] at h
      injection h with h
      left; exact h.symm
    | cons first rest =>
      simp only [FindCar] at h
      exact Find_Car_Helper_error_kind t ((first :: rest) :: tl) _ 0 0 first.type
        (by simp) (by simp [GameBoard.width]) (by omega) e h

/-- With an amount that is not negative, `MoveVehicle` never ends in `InstantiationDepth`
(nor in `InvalidAmount`, which no assertion of `MoveVehicle` produces). -/
theorem MoveVehicle_error_kind (B : Board) (R1 C1 : Int) (d : Direction) (A : Int)
    (hA : 0 ≤ A) (e : MoveError) (h : MoveVehicle B R1 C1 d A = .error e) :
    e ≠ MoveError.InstantiationDepth ∧ e ≠ MoveError.InvalidAmount := by
  unfold MoveVehicle at h
  split at h
  · rename_i e2 h2
    injection h with h
    subst h
    rw [GetAtIndex_error _ _ _ h2]
    exact ⟨by decide, by decide⟩
  · split at h
    · rename_i e2 h2
      injection h with h
      subst h
      rw [GetAtIndex_error _ _ _ h2]
      exact ⟨by decide, by decide⟩
    · split at h
      · injection h with h
        subst h
        exact ⟨by decide, by decide⟩
      · split at h
        · injection h with h
          subst h
          exact ⟨by decide, by decide⟩
        · split at h
          · injection h with h
            subst h
            exact ⟨by decide, by decide⟩
          · split at h
            · injection h with h
              subst h
              exact ⟨by decide, by decide⟩
            · split at h
              · rename_i e2 h2
                injection h with h
                subst h
                rcases FindCar_error_kind _ _ _ h2 with h3 | h3 <;> rw [h3] <;>
                  exact ⟨by decide, by decide⟩
              · rcases direct_error_kind d A hA B _ _ _ _ _ e h with h3 | h3 <;> rw [h3] <;>
                  exact ⟨by decide, by decide⟩

/-- From a counter below zero the chain of instantiations of `direct<RIGHT, ..>` never
meets the specialization for 0, however deep it is followed. -/
theorem direct_RIGHT_chain_neg (B : Board) (cell : BoardCell) (Co1 Ro1 Co2 : Int) :
    ∀ (depth : Nat) (counter : Int), counter < 0 →
      direct_RIGHT_chain B cell Co1 Ro1 Co2 depth counter = none := by
  intro depth
  induction depth with
  | zero => intro counter _; rfl
  | succ depth ih =>
    intro counter hc
    have h0 : ¬ (counter = 0) := by omega
    simp only [direct_RIGHT_chain, h0, if_false, ih (counter - 1) (by omega)]

/-- From a counter below zero the chain of instantiations of `direct<LEFT, ..>` never meets
the specialization for 0, however deep it is followed. -/
theorem direct_LEFT_chain_neg (B : Board) (cell : BoardCell) (Co1 Ro1 Co2 : Int) :
    ∀ (depth : Nat) (counter : Int), counter < 0 →
      direct_LEFT_chain B cell Co1 Ro1 Co2 depth counter = none := by
  intro depth
  induction depth with
  | zero => intro counter _; rfl
  | succ depth ih =>
    intro counter hc
    have h0 : ¬ (counter = 0) := by omega
    simp only [direct_LEFT_chain, h0, if_false, ih (counter - 1) (by omega)]

/-- No assertion of `MoveVehicle` concerns the amount: whatever its arguments, it never
fails with `InvalidAmount`. -/
theorem MoveVehicle_never_InvalidAmount (B : Board) (R1 C1 : Int) (d : Direction) (A : Int) :
    MoveVehicle B R1 C1 d A ≠ .error .InvalidAmount := by
  intro h
  by_cases hA : 0 ≤ A
  · exact (MoveVehicle_error_kind B R1 C1 d A hA _ h).2 rfl
  · unfold MoveVehicle at h
    split at h
    · rename_i e2 h2
      have := GetAtIndex_error _ _ _ h2
      injection h with h
      rw [h] at this
      exact absurd this (by decide)
    · split at h
      · rename_i e2 h2
        have := GetAtIndex_error _ _ _ h2
        injection h with h
        rw [h] at this
        exact absurd this (by decide)
      · split at h
        · exact absurd h (by simp)
        · split at h
          · exact absurd h (by simp)
          · split at h
            · exact absurd h (by simp)
            · split at h
              · exact absurd h (by simp)
              · split at h
                · rename_i e2 h2
                  injection h with h
                  subst h
                  rcases FindCar_error_kind _ _ _ h2 with h3 | h3 <;>
                    exact absurd h3 (by decide)
                · unfold direct at h
                  rw [if_pos (by omega)] at h
                  exact absurd h (by simp)

/-! ### Invariants along a move -/

theorem GetAtIndex_ok_elem {α : Type} (i : Int) (L : List α) (v : α)
    (h : GetAtIndex i L = .ok v) : 0 ≤ i ∧ L[i.toNat]? = some v := by
  unfold GetAtIndex at h
  by_cases hi : i < 0
  · rw [if_pos hi] at h
    exact absurd h (by simp)
  · rw [if_neg hi] at h
    cases hL : L[i.toNat]? with
    | none => rw [hL] at h; exact absurd h (by simp)
    | some w =>
      rw [hL] at h
      injection h with h
      subst h
      exact ⟨by omega, rfl⟩

/-- A call of `MoveVehicle` that succeeds was given the coordinates of a cell of the grid
that is not `EMPTY`, and an amount that is not negative. -/
theorem MoveVehicle_ok_args (B B2 : Board) (R1 C1 : Int) (d : Direction) (A : Int)
    (hok : MoveVehicle B R1 C1 d A = .ok B2) :
    ∃ (r1 c1 n : Nat) (x : BoardCell), R1 = (r1 : Int) ∧ C1 = (c1 : Int) ∧ A = (n : Int) ∧
      cellAt B r1 c1 = some x ∧ x.type ≠ CellType.EMPTY := by
  have hA : 0 ≤ A := by
    by_contra hcon
    have hne := MoveVehicle_never_InvalidAmount B R1 C1 d A
    unfold MoveVehicle at hok
    split at hok
    · exact absurd hok (by simp)
    · split at hok
      · exact absurd hok (by simp)
      · split at hok
        · exact absurd hok (by simp)
        · split at hok
          · exact absurd hok (by simp)
          · split at hok
            · exact absurd hok (by simp)
            · split at hok
              · exact absurd hok (by simp)
              · split at hok
                · exact absurd hok (by simp)
                · unfold direct at hok
                  rw [if_pos (by omega)] at hok
                  exact absurd hok (by simp)
  unfold MoveVehicle at hok
  split at hok
  · exact absurd hok (by simp)
  · rename_i subList h1
    split at hok
    · exact absurd hok (by simp)
    · rename_i my_cell h2
      obtain ⟨hr0, hr1⟩ := GetAtIndex_ok_elem _ _ _ h1
      obtain ⟨hc0, hc1⟩ := GetAtIndex_ok_elem _ _ _ h2
      refine ⟨R1.toNat, C1.toNat, A.toNat, my_cell, by omega, by omega, by omega, ?_, ?_⟩
      · simp [cellAt, hr1, hc1]
      · intro hE
        split at hok
        · exact absurd hok (by simp)
        · split at hok
          · exact absurd hok (by simp)
          · exact absurd hok (by simp)

/-- The cells a slide along a free path enters were `EMPTY` before. -/
theorem entered_free (B : Board) (d : Direction) (zc : BoardCell) (r c n : Nat) (L : Nat)
    (hL : zc.length = (L : Int)) (hfree : pathFree B d zc r c n) (r2 c2 : Nat)
    (hent : entered d zc r c n r2 c2) :
    ∃ e, cellAt B r2 c2 = some e ∧ e.type = CellType.EMPTY := by
  cases d with
  | RIGHT =>
    simp only [entered] at hent
    obtain ⟨e, he, hte⟩ := hfree (c2 + 1 - c - L) (by omega) (by omega)
    refine ⟨e, ?_, hte⟩
    rw [← he]; symm
    apply cellAtInt_of_eq
    · simp only [enteredAt]; omega
    · simp only [enteredAt]; omega
  | LEFT =>
    simp only [entered] at hent
    obtain ⟨e, he, hte⟩ := hfree (c - c2) (by omega) (by omega)
    refine ⟨e, ?_, hte⟩
    rw [← he]; symm
    apply cellAtInt_of_eq
    · simp only [enteredAt]; omega
    · simp only [enteredAt]; omega
  | DOWN =>
    simp only [entered] at hent
    obtain ⟨e, he, hte⟩ := hfree (r2 + 1 - r - L) (by omega) (by omega)
    refine ⟨e, ?_, hte⟩
    rw [← he]; symm
    apply cellAtInt_of_eq
    · simp only [enteredAt]; omega
    · simp only [enteredAt]; omega
  | UP =>
    simp only [entered] at hent
    obtain ⟨e, he, hte⟩ := hfree (r - r2) (by omega) (by omega)
    refine ⟨e, ?_, hte⟩
    rw [← he]; symm
    apply cellAtInt_of_eq
    · simp only [enteredAt]; omega
    · simp only [enteredAt]; omega

/-- A vacated cell was a cell of the vehicle or a cell the vehicle had entered. -/
theorem vacated_cases (d : Direction) (zc : BoardCell) (r c n r2 c2 : Nat)
    (hd : directionOk d zc.direction = true) (hlen : 1 ≤ zc.length)
    (hvac : vacated d zc r c n r2 c2) :
    inSpan zc r c r2 c2 ∨ entered d zc r c n r2 c2 := by
  have hax := directionOk_axis d zc.direction hd
  cases d with
  | RIGHT =>
    have hv : zc.direction.isVertical = false := by rw [hax]; rfl
    simp only [inSpan, hv, Bool.false_eq_true, if_false, vacated, entered] at hvac ⊢
    omega
  | LEFT =>
    have hv : zc.direction.isVertical = false := by rw [hax]; rfl
    simp only [inSpan, hv, Bool.false_eq_true, if_false, vacated, entered] at hvac ⊢
    omega
  | DOWN =>
    have hv : zc.direction.isVertical = true := by rw [hax]; rfl
    simp only [inSpan, hv, if_true, vacated, entered] at hvac ⊢
    omega
  | UP =>
    have hv : zc.direction.isVertical = true := by rw [hax]; rfl
    simp only [inSpan, hv, if_true, vacated, entered] at hvac ⊢
    omega

/-- A move leaves every cell of every other vehicle where it was, and creates none. -/
theorem moved_other_cells {B B2 : Board} {h w : Nat} (hR : Rect B h w) {zc : BoardCell}
    {r c : Nat} (hV : IsVehicle B zc r c) (d : Direction)
    (hd : directionOk d zc.direction = true) (n : Nat) (hfree : pathFree B d zc r c n)
    (hget : ∀ r2 c2, cellAt B2 r2 c2 =
        if vacated d zc r c n r2 c2 then some (placeholder d)
        else if entered d zc r c n r2 c2 then some zc
        else cellAt B r2 c2)
    (r2 c2 : Nat) (y : BoardCell) (hy1 : y.type ≠ CellType.EMPTY) (hy2 : y.type ≠ zc.type) :
    cellAt B r2 c2 = some y ↔ cellAt B2 r2 c2 = some y := by
  obtain ⟨L, hL, hL1, hty, hr, hc, hin, hcell, honly⟩ := hV.facts hR
  rw [hget]
  by_cases hvac : vacated d zc r c n r2 c2
  · rw [if_pos hvac]
    constructor
    · intro hy
      exfalso
      rcases vacated_cases d zc r c n r2 c2 hd (by omega) hvac with hs | hent
      · rw [hcell r2 c2 hs] at hy
        injection hy with hy
        exact hy2 (by rw [hy])
      · obtain ⟨e, he, hte⟩ := entered_free B d zc r c n L hL hfree r2 c2 hent
        rw [he] at hy
        injection hy with hy
        exact hy1 (by rw [← hy]; exact hte)
    · intro hy
      injection hy with hy
      exact absurd (by rw [← hy]; exact placeholder_type d) hy1
  · rw [if_neg hvac]
    by_cases hent : entered d zc r c n r2 c2
    · rw [if_pos hent]
      constructor
      · intro hy
        exfalso
        obtain ⟨e, he, hte⟩ := entered_free B d zc r c n L hL hfree r2 c2 hent
        rw [he] at hy
        injection hy with hy
        exact hy1 (by rw [← hy]; exact hte)
      · intro hy
        injection hy with hy
        exact absurd (by rw [hy]) hy2
    · rw [if_neg hent]

/-- A move leaves every other vehicle whole and alone at its anchor. -/
theorem IsVehicle.other {B B2 : Board} {h w : Nat} (hR : Rect B h w) (hR2 : Rect B2 h w)
    {zc : BoardCell} {r c : Nat} (hV : IsVehicle B zc r c) (d : Direction)
    (hd : directionOk d zc.direction = true) (n : Nat) (hfree : pathFree B d zc r c n)
    (hget : ∀ r2 c2, cellAt B2 r2 c2 =
        if vacated d zc r c n r2 c2 then some (placeholder d)
        else if entered d zc r c n r2 c2 then some zc
        else cellAt B r2 c2)
    {y : BoardCell} {r0 c0 : Nat} (hVy : IsVehicle B y r0 c0) (hne : y.type ≠ zc.type) :
    IsVehicle B2 y r0 c0 := by
  obtain ⟨Ly, hLy, hLy1, hty, hr0, hc0, hin, hcell, honly⟩ := hVy.facts hR
  have hiff := fun r2 c2 =>
    moved_other_cells hR hV d hd n hfree hget r2 c2 y hty hne
  apply IsVehicle.of_cells hR2 (by omega) y r0 c0 hty (by omega)
  · by_cases hv : y.direction.isVertical = true
    · rw [if_pos hv] at hin ⊢; omega
    · rw [if_neg hv] at hin ⊢; omega
  · intro r2 c2 hr2 hc2
    by_cases hs : inSpan y r0 c0 r2 c2
    · rw [if_pos hs]
      exact (hiff r2 c2).1 (hcell r2 c2 hs)
    · rw [if_neg hs]
      intro hmap
      cases hy2 : cellAt B2 r2 c2 with
      | none => rw [hy2] at hmap; simp at hmap
      | some y2 =>
        rw [hy2] at hmap
        simp only [Option.map_some', Option.some.injEq] at hmap
        have hiff2 := moved_other_cells hR hV d hd n hfree hget r2 c2 y2
          (by rw [hmap]; exact hty) (by rw [hmap]; exact hne)
        exact hs (honly r2 c2 y2 (hiff2.2 hy2) hmap)

/-- The Board invariant contains the Cell invariant. -/
theorem BoardInv.cellInv {B : Board} {h w : Nat} (hR : Rect B h w) (hI : BoardInv B) :
    CellInv B := by
  intro r1 hr1 c1 hc1 r2 hr2 c2 hc2 hne hsame
  have hh : 0 < h := by have := hR.1; omega
  have hW := hR.width_eq hh
  rw [hW] at hc1 hc2
  obtain ⟨x, hx⟩ := hR.cell (show r1 < h by rw [← hR.1]; exact hr1)
    (show c1 < w by simpa using hc1)
  obtain ⟨y, hy⟩ := hR.cell (show r2 < h by rw [← hR.1]; exact hr2)
    (show c2 < w by simpa using hc2)
  rw [hx, hy] at hsame
  rw [hx] at hne
  simp only [Option.map_some', Option.some.injEq, ne_eq] at hsame hne
  obtain ⟨r, c, hV⟩ := hI.vehicle hR hx hne
  obtain ⟨L, hL, hL1, hty, hr, hc, hin, hcell, honly⟩ := hV.facts hR
  rw [hx, hy, ← hcell r2 c2 (honly r2 c2 y hy hsame.symm), hy]

/-! ### The chain of the Locator -/

/-- When the chain of the Locator ends, its outcome is the one `Find_Car_Helper` gives. -/
theorem Find_Car_Helper_chain_eq (t : CellType) (B : Board) (depth : Nat) (t2 : CellType)
    (row col : Int) (res : Except MoveError (Int × Int))
    (hres : Find_Car_Helper_chain t B depth t2 row col = some res) :
    Find_Car_Helper t B depth t2 row col = res := by
  induction depth generalizing t2 row col res with
  | zero => simp [Find_Car_Helper_chain] at hres
  | succ depth ih =>
    unfold Find_Car_Helper_chain at hres
    unfold Find_Car_Helper
    simp only at hres ⊢
    split
    · rename_i hcond
      rw [if_pos hcond] at hres
      rw [Option.map_eq_some'] at hres
      obtain ⟨_, _, hres⟩ := hres
      exact hres
    · rename_i hcond
      rw [if_neg hcond] at hres
      split
      · rename_i e he
        rw [he] at hres
        simp only [Option.some.injEq] at hres
        exact hres
      · rename_i next_row_list h1
        rw [h1] at hres
        simp only at hres
        split
        · rename_i e he
          rw [he] at hres
          simp only [Option.some.injEq] at hres
          exact hres
        · rename_i next_cell h2
          rw [h2] at hres
          simp only at hres
          split
          · rename_i hf
            rw [if_pos hf] at hres
            simp only [Option.some.injEq] at hres
            exact hres
          · rename_i hf
            rw [if_neg hf] at hres
            exact ih _ _ _ _ hres

/-- C11: on a rectangular board with at least one row and one column, `FindCar` fails
with `VehicleNotFound` exactly when no cell of the board bears the identity; when some cell
bears it, the last cell of the board included, `FindCar` returns coordinates. -/
theorem C11_not_found (B : Board) (h w : Nat) (t : CellType)
    (hR : Rect B h w) (hh : 0 < h) (hw : 0 < w) :
    (FindCar t B = .error .VehicleNotFound ↔
        ∀ r c y, cellAt B r c = some y → y.type ≠ t) ∧
      ((∃ r c y, cellAt B r c = some y ∧ y.type = t) →
        ∃ r c : Nat, FindCar t B = .ok ((r : Int), (c : Int))) := by
  have hsome : (∃ r c y, cellAt B r c = some y ∧ y.type = t) →
      ∃ r c : Nat, FindCar t B = .ok ((r : Int), (c : Int)) := by
    rintro ⟨r1, c1, x, hx, hxt⟩
    obtain ⟨r0, c0, z, hz, hzt, hfirst⟩ := exists_first_match hR r1 c1 x hx
    refine ⟨r0, c0, ?_⟩
    rw [← hxt, ← hzt]
    apply FindCar_first hR r0 c0 z hz
    rw [hzt]
    exact hfirst
  refine ⟨⟨?_, FindCar_none hR hh hw t⟩, hsome⟩
  intro hfail r c y hy hyt
  obtain ⟨r0, c0, hfound⟩ := hsome ⟨r, c, y, hy, hyt⟩
  rw [hfound] at hfail
  exact absurd hfail (by simp)

/-- C11, witness: on the board of 2 rows and 2 columns whose only vehicle cell is the last
cell, `FindCar` does not fail. -/
theorem C11_not_found_witness :
    ∃ r c : Nat, FindCar cellY.type boardLast = .ok ((r : Int), (c : Int)) :=
  (C11_not_found boardLast 2 2 cellY.type (by decide) (by decide) (by decide)).2
    ⟨1, 1, cellY, rfl, rfl⟩

/-- C12, the code at a failing input: `Move` rejects the amount `-1` with `InvalidAmount`,
but `MoveVehicle` on the top cell of `Z` with `DOWN` and amount `-1` passes its four assertions
and hands the amount to `direct`, whose chain of instantiations from `-1` never meets the
specialization for 0, however deep it is followed; and `MoveVehicle` never yields
`InvalidAmount`, whatever its arguments. -/
theorem C12_negative_amount_runs_away :
    Move cellZ.type .DOWN (-1) = .error .InvalidAmount ∧
      MoveVehicle boardZ 0 3 .DOWN (-1) = .error .InstantiationDepth ∧
      (∀ depth, direct_RIGHT_chain (Transpose boardZ) cellZ 0 3 2 depth (-1) = none) ∧
      (∀ B R1 C1 d A, MoveVehicle B R1 C1 d A ≠ .error .InvalidAmount) :=
  ⟨rfl, rfl, fun depth => direct_RIGHT_chain_neg _ _ _ _ _ depth (-1) (by decide),
    MoveVehicle_never_InvalidAmount⟩

/-- C13: on a rectangular board, for a vehicle `zc` anchored at `(r, c)`, a direction `d` on
its axis and an amount `n` such that sliding `n` cells would put a cell of the vehicle
outside the grid (far-end column `+ n` not below the width for `RIGHT`, `n` above the anchor
column for `LEFT`, far-end row `+ n` not below the height for `DOWN`, `n` above the anchor
row for `UP`), `MoveVehicle` from any cell of the vehicle returns no board: it fails with
`Collision` when an occupied cell lies on the way to the edge and with `OutOfBounds`
otherwise. An index below zero is not wrapped or clamped. -/
theorem C13_leaves_grid (B : Board) (h w : Nat) (zc : BoardCell) (r c r1 c1 : Nat)
    (d : Direction) (n : Nat)
    (hR : Rect B h w) (hV : IsVehicle B zc r c) (hs : inSpan zc r c r1 c1)
    (hd : directionOk d zc.direction = true) (hout : leavesGrid d zc r c n h w) :
    ∃ e, MoveVehicle B (r1 : Int) (c1 : Int) d (n : Int) = .error e ∧
      (e = MoveError.Collision ∨ e = MoveError.OutOfBounds) ∧
      ((∀ j x, 1 ≤ j → j ≤ n →
          cellAtInt B (enteredAt d zc r c j).1 (enteredAt d zc r c j).2 = some x →
          x.type = CellType.EMPTY) → e = MoveError.OutOfBounds) := by
  obtain ⟨L, hL, hL1, hty, hr, hc, hin, hcell, honly⟩ := hV.facts hR
  have hax := directionOk_axis d zc.direction hd
  have hn1 : 1 ≤ n := by
    cases d with
    | RIGHT =>
      have hv : zc.direction.isVertical = false := by rw [hax]; rfl
      rw [hv] at hin
      simp only [leavesGrid, Bool.false_eq_true, if_false] at hout hin
      omega
    | LEFT => simp only [leavesGrid] at hout; omega
    | DOWN =>
      have hv : zc.direction.isVertical = true := by rw [hax]; rfl
      rw [hv] at hin
      simp only [leavesGrid, if_true] at hout hin
      omega
    | UP => simp only [leavesGrid] at hout; omega
  have hnot : ¬ pathFree B d zc r c n := by
    intro hfree
    have hb := stepFree_bounds hR d zc r c n (hfree n hn1 (le_refl n))
    cases d with
    | RIGHT => simp only [leavesGrid, enteredAt] at hout hb; omega
    | LEFT => simp only [leavesGrid, enteredAt] at hout hb; omega
    | DOWN => simp only [leavesGrid, enteredAt] at hout hb; omega
    | UP => simp only [leavesGrid, enteredAt] at hout hb; omega
  rcases pathFree_or_first_block B d zc r c n with hfree | ⟨k, hk, hfree, hblock⟩
  · exact absurd hfree hnot
  · refine ⟨_, MoveVehicle_fail hR hV r1 c1 hs d hd k hfree hblock n (by omega), ?_, ?_⟩
    · by_cases hsome : (cellAtInt B (enteredAt d zc r c (k + 1)).1
          (enteredAt d zc r c (k + 1)).2).isSome = true
      · rw [if_pos hsome]; left; rfl
      · rw [if_neg hsome]; right; rfl
    · intro hempty
      by_cases hsome : (cellAtInt B (enteredAt d zc r c (k + 1)).1
          (enteredAt d zc r c (k + 1)).2).isSome = true
      · exfalso
        obtain ⟨x, hx⟩ := Option.isSome_iff_exists.1 hsome
        exact hblock ⟨x, hx, hempty (k + 1) x (by omega) (by omega) hx⟩
      · rw [if_neg hsome]

/-- C13, witness: `Z` at rows 0 to 2 of the 6 by 6 board cannot move `UP` by 1, nor can its
row index fall below zero. -/
theorem C13_leaves_grid_witness :
    ∃ e, MoveVehicle boardZ ((1 : Nat) : Int) ((3 : Nat) : Int) .UP ((1 : Nat) : Int) = .error e ∧
      (e = MoveError.Collision ∨ e = MoveError.OutOfBounds) ∧
      ((∀ j x, 1 ≤ j → j ≤ 1 →
          cellAtInt boardZ (enteredAt .UP cellZ 0 3 j).1 (enteredAt .UP cellZ 0 3 j).2 = some x →
          x.type = CellType.EMPTY) → e = MoveError.OutOfBounds) :=
  C13_leaves_grid boardZ 6 6 cellZ 0 3 1 3 .UP 1 (by decide) (by decide) (by decide) rfl
    (by decide)

/-- C14: on a rectangular board that meets the Board invariant (every cell that is not
`EMPTY` belongs to one contiguous run of `length` equal cells along its direction, which
alone bears its identity; this contains the Cell invariant), for every call of `MoveVehicle`
that succeeds: the returned board has the same size, meets the Board invariant and the Cell
invariant, holds exactly the same vehicle identities, and holds every vehicle other than the
moved one on the same cells. -/
theorem C14_invariants_preserved (B B2 : Board) (h w : Nat) (R1 C1 : Int) (d : Direction)
    (A : Int) (hR : Rect B h w) (hI : BoardInv B)
    (hok : MoveVehicle B R1 C1 d A = .ok B2) :
    Rect B2 h w ∧ BoardInv B2 ∧ CellInv B2 ∧
      (∀ t, t ≠ CellType.EMPTY →
        ((∃ r c y, cellAt B r c = some y ∧ y.type = t) ↔
          (∃ r c y, cellAt B2 r c = some y ∧ y.type = t))) ∧
      (∀ x, cellAtInt B R1 C1 = some x → ∀ r c y, y.type ≠ CellType.EMPTY →
        y.type ≠ x.type → (cellAt B r c = some y ↔ cellAt B2 r c = some y)) := by
  obtain ⟨r1, c1, n, zc, hR1, hC1, hAn, hzc, hzne⟩ := MoveVehicle_ok_args B B2 R1 C1 d A hok
  subst hR1 hC1 hAn
  obtain ⟨r, c, hV⟩ := hI.vehicle hR hzc hzne
  obtain ⟨L, hL, hL1, hty, hr, hc, hin, hcell, honly⟩ := hV.facts hR
  have hs : inSpan zc r c r1 c1 := honly r1 c1 zc hzc rfl
  obtain ⟨hd, hpath⟩ := MoveVehicle_ok_pathFree hR hV r1 c1 hs d n B2 hok
  obtain ⟨B2', hok', hR2, hget⟩ := MoveVehicle_ok hR hV r1 c1 hs d hd n hpath
  rw [hok] at hok'
  injection hok' with hB2
  subst hB2
  have hV2 := IsVehicle.moved hR hR2 hV d hd n hpath hget
  obtain ⟨_, _, _, _, hra, hca, _, hcell2, honly2⟩ := hV2.facts hR2
  have hh : 0 < h := by omega
  have hW2 := hR2.width_eq hh
  have hother := fun r2 c2 y =>
    moved_other_cells hR hV d hd n hpath hget r2 c2 y
  have hanchor : inSpan zc r c r c := by
    unfold inSpan
    by_cases hv : zc.direction.isVertical = true
    · rw [if_pos hv]; omega
    · rw [if_neg hv]; omega
  have hanchor2 : inSpan zc (movedAnchor d r c n).1 (movedAnchor d r c n).2
      (movedAnchor d r c n).1 (movedAnchor d r c n).2 := by
    unfold inSpan
    by_cases hv : zc.direction.isVertical = true
    · rw [if_pos hv]; omega
    · rw [if_neg hv]; omega
  have hcov : ∀ r2 c2 y, cellAt B2 r2 c2 = some y → y.type ≠ CellType.EMPTY →
      ∃ r0 c0, r0 < h ∧ c0 < w ∧ IsVehicle B2 y r0 c0 := by
    intro r2 c2 y hy hyne
    by_cases hyt : y.type = zc.type
    · have hyz : y = zc := by
        have := hcell2 r2 c2 (honly2 r2 c2 y hy hyt)
        rw [hy] at this
        injection this
      rw [hyz]
      exact ⟨_, _, hra, hca, hV2⟩
    · have hyB := (hother r2 c2 y hyne hyt).2 hy
      obtain ⟨r0, c0, hVy⟩ := hI.vehicle hR hyB hyne
      obtain ⟨_, _, _, _, hr0, hc0, _, _, _⟩ := hVy.facts hR
      exact ⟨r0, c0, hr0, hc0, IsVehicle.other hR hR2 hV d hd n hpath hget hVy hyt⟩
  have hI2 : BoardInv B2 := by
    intro r2 hr2 c2 hc2
    cases hy : cellAt B2 r2 c2 with
    | none => exact True.intro
    | some y =>
      intro hyne
      obtain ⟨r0, c0, hr0, hc0, hVy⟩ := hcov r2 c2 y hy hyne
      exact ⟨r0, by rw [hR2.1]; exact hr0, c0, by rw [hW2]; simpa using hc0, hVy⟩
  refine ⟨hR2, hI2, hI2.cellInv hR2, ?_, ?_⟩
  · intro t ht
    constructor
    · rintro ⟨r2, c2, y, hy, hyt⟩
      by_cases htz : t = zc.type
      · exact ⟨_, _, zc, hcell2 _ _ hanchor2, htz.symm⟩
      · exact ⟨r2, c2, y, (hother r2 c2 y (by rw [hyt]; exact ht)
          (by rw [hyt]; exact htz)).1 hy, hyt⟩
    · rintro ⟨r2, c2, y, hy, hyt⟩
      by_cases htz : t = zc.type
      · exact ⟨r, c, zc, hcell r c hanchor, htz.symm⟩
      · exact ⟨r2, c2, y, (hother r2 c2 y (by rw [hyt]; exact ht)
          (by rw [hyt]; exact htz)).2 hy, hyt⟩
  · intro x hx r2 c2 y hy1 hy2
    rw [cellAtInt_nat, hzc] at hx
    injection hx with hx
    subst hx
    exact hother r2 c2 y hy1 hy2

/-- C14, witness: `Z` moved `DOWN` by 2 on the 6 by 6 board. -/
theorem C14_invariants_preserved_witness :
    Rect boardZdown 6 6 ∧ BoardInv boardZdown ∧ CellInv boardZdown ∧
      (∀ t, t ≠ CellType.EMPTY →
        ((∃ r c y, cellAt boardZ r c = some y ∧ y.type = t) ↔
          (∃ r c y, cellAt boardZdown r c = some y ∧ y.type = t))) ∧
      (∀ x, cellAtInt boardZ 0 3 = some x → ∀ r c y, y.type ≠ CellType.EMPTY →
        y.type ≠ x.type → (cellAt boardZ r c = some y ↔ cellAt boardZdown r c = some y)) :=
  C14_invariants_preserved boardZ boardZdown 6 6 0 3 .DOWN 2 (by decide) (by decide) rfl

/-- C15: on any board, for a row `r` whose columns `a .. b` (with `a ≤ b`) hold `cell`, and
any amount `n`: if the slide `direct<RIGHT, n, ..>` succeeds, its result holds `cell` at
columns `a + n .. b + n` of row `r`, `EMPTY` at columns `a .. a + n - 1`, and is unchanged at
every other cell of the board; if the slide `direct<LEFT, n, ..>` succeeds, then `n ≤ a` and
its result holds `cell` at columns `a - n .. b - n`, `EMPTY` at columns `b - n + 1 .. b`, and
is unchanged at every other cell. Nothing relates `n` to the length `b - a + 1`. -/
theorem C15_slide_translates (B B2 : Board) (cell : BoardCell) (r a b n : Nat) (Ro2 : Int)
    (hab : a ≤ b) (hveh : ∀ i, a ≤ i → i ≤ b → cellAt B r i = some cell) :
    (direct .RIGHT (n : Int) B cell (a : Int) (r : Int) (b : Int) Ro2 = .ok B2 →
      (∀ i, a + n ≤ i → i ≤ b + n → cellAt B2 r i = some cell) ∧
      (∀ i, a ≤ i → i < a + n → ∃ e, cellAt B2 r i = some e ∧ e.type = CellType.EMPTY) ∧
      (∀ r2 c2, ¬ (r2 = r ∧ a ≤ c2 ∧ c2 ≤ b + n) → cellAt B2 r2 c2 = cellAt B r2 c2)) ∧
    (direct .LEFT (n : Int) B cell (a : Int) (r : Int) (b : Int) Ro2 = .ok B2 →
      n ≤ a ∧
      (∀ i, a ≤ i + n → i + n ≤ b → cellAt B2 r i = some cell) ∧
      (∀ i, b < i + n → i ≤ b → ∃ e, cellAt B2 r i = some e ∧ e.type = CellType.EMPTY) ∧
      (∀ r2 c2, ¬ (r2 = r ∧ a ≤ c2 + n ∧ c2 ≤ b) → cellAt B2 r2 c2 = cellAt B r2 c2)) := by
  constructor
  · intro hok
    rw [direct_RIGHT_eq] at hok
    have hget := direct_RIGHT_cells B B2 cell r a b hab hveh n hok
    refine ⟨?_, ?_, ?_⟩
    · intro i h1 h2
      rw [hget, if_neg (by omega)]
      by_cases h3 : r = r ∧ b < i ∧ i ≤ b + n
      · rw [if_pos h3]
      · rw [if_neg h3]
        exact hveh i (by omega) (by omega)
    · intro i h1 h2
      rw [hget, if_pos ⟨rfl, h1, h2⟩]
      exact ⟨_, rfl, rfl⟩
    · intro r2 c2 hout
      rw [hget, if_neg (by omega), if_neg (by omega)]
  · intro hok
    rw [direct_LEFT_eq] at hok
    obtain ⟨hna, hget⟩ := direct_LEFT_cells B B2 cell r a b hab hveh n hok
    refine ⟨hna, ?_, ?_, ?_⟩
    · intro i h1 h2
      rw [hget, if_neg (by omega)]
      by_cases h3 : r = r ∧ a ≤ i + n ∧ i < a
      · rw [if_pos h3]
      · rw [if_neg h3]
        exact hveh i (by omega) (by omega)
    · intro i h1 h2
      rw [hget, if_pos ⟨rfl, h1, h2⟩]
      exact ⟨_, rfl, rfl⟩
    · intro r2 c2 hout
      rw [hget, if_neg (by omega), if_neg (by omega)]

/-- C15, witness: `Y` of length 1 at column 0 of the one-row board, slid `RIGHT` by 3, more
than its length. -/
theorem C15_slide_translates_witness :
    (∀ i, 0 + 3 ≤ i → i ≤ 0 + 3 → cellAt [[cellE, cellE, cellE, cellY]] 0 i = some cellY) ∧
      (∀ i, 0 ≤ i → i < 0 + 3 →
        ∃ e, cellAt [[cellE, cellE, cellE, cellY]] 0 i = some e ∧ e.type = CellType.EMPTY) ∧
      (∀ r2 c2, ¬ (r2 = 0 ∧ 0 ≤ c2 ∧ c2 ≤ 0 + 3) →
        cellAt [[cellE, cellE, cellE, cellY]] r2 c2 = cellAt boardRow r2 c2) :=
  (C15_slide_translates boardRow [[cellE, cellE, cellE, cellY]] cellY 0 0 0 3 0 (le_refl 0)
    (fun i _ h2 => by
      have hi : i = 0 := by omega
      subst hi
      rfl)).1 rfl

/-- C16, as amended: on any board, for a row `r` whose columns `a .. b` (with `a ≤ b`) hold
`cell`, and any amount `n`. If `direct<RIGHT, n, ..>` succeeds: every cell of the span after
the old far end `b` up to the new far end `b + n` that is not before the new anchor `a + n`
holds `cell`, every cell from the old anchor `a` up to, not including, the new anchor is
`EMPTY`, and every cell covered before and after (`a + n .. b`) holds `cell`. If
`direct<LEFT, n, ..>` succeeds, the ends exchange roles: every cell from the new anchor
`a - n` up to, not including, the old anchor that is not after the new far end `b - n` holds
`cell`, every cell after the new far end up to the old far end is `EMPTY`, and every cell
covered before and after (`a .. b - n`) holds `cell`. -/
theorem C16_net_effect (B B2 : Board) (cell : BoardCell) (r a b n : Nat) (Ro2 : Int)
    (hab : a ≤ b) (hveh : ∀ i, a ≤ i → i ≤ b → cellAt B r i = some cell) :
    (direct .RIGHT (n : Int) B cell (a : Int) (r : Int) (b : Int) Ro2 = .ok B2 →
      (∀ i, b < i → i ≤ b + n → a + n ≤ i → cellAt B2 r i = some cell) ∧
      (∀ i, a ≤ i → i < a + n → ∃ e, cellAt B2 r i = some e ∧ e.type = CellType.EMPTY) ∧
      (∀ i, a + n ≤ i → i ≤ b → cellAt B2 r i = some cell)) ∧
    (direct .LEFT (n : Int) B cell (a : Int) (r : Int) (b : Int) Ro2 = .ok B2 →
      (∀ i, a ≤ i + n → i < a → i + n ≤ b → cellAt B2 r i = some cell) ∧
      (∀ i, b < i + n → i ≤ b → ∃ e, cellAt B2 r i = some e ∧ e.type = CellType.EMPTY) ∧
      (∀ i, a ≤ i → i + n ≤ b → cellAt B2 r i = some cell)) := by
  constructor
  · intro hok
    rw [direct_RIGHT_eq] at hok
    have hget := direct_RIGHT_cells B B2 cell r a b hab hveh n hok
    refine ⟨?_, ?_, ?_⟩
    · intro i h1 h2 h3
      rw [hget, if_neg (by omega), if_pos ⟨rfl, h1, h2⟩]
    · intro i h1 h2
      rw [hget, if_pos ⟨rfl, h1, h2⟩]
      exact ⟨_, rfl, rfl⟩
    · intro i h1 h2
      rw [hget, if_neg (by omega), if_neg (by omega)]
      exact hveh i (by omega) h2
  · intro hok
    rw [direct_LEFT_eq] at hok
    obtain ⟨hna, hget⟩ := direct_LEFT_cells B B2 cell r a b hab hveh n hok
    refine ⟨?_, ?_, ?_⟩
    · intro i h1 h2 h3
      rw [hget, if_neg (by omega), if_pos ⟨rfl, h1, h2⟩]
    · intro i h1 h2
      rw [hget, if_pos ⟨rfl, h1, h2⟩]
      exact ⟨_, rfl, rfl⟩
    · intro i h1 h2
      rw [hget, if_neg (by omega), if_neg (by omega)]
      exact hveh i h1 (by omega)

/-- C16, witness: `X` at columns 2 and 3 of the one-row board, slid `LEFT` by 2. -/
theorem C16_net_effect_witness :
    (∀ i, 2 ≤ i + 2 → i < 2 → i + 2 ≤ 3 →
        cellAt [[cellX, cellX, cellL, cellL]] 0 i = some cellX) ∧
      (∀ i, 3 < i + 2 → i ≤ 3 →
        ∃ e, cellAt [[cellX, cellX, cellL, cellL]] 0 i = some e ∧ e.type = CellType.EMPTY) ∧
      (∀ i, 2 ≤ i → i + 2 ≤ 3 → cellAt [[cellX, cellX, cellL, cellL]] 0 i = some cellX) :=
  (C16_net_effect boardPair [[cellX, cellX, cellL, cellL]] cellX 0 2 3 2 0 (by decide)
    (fun i h1 h2 => by interval_cases i <;> rfl)).2 rfl

/-- C16, counterexample: `Y` of length 1 at column 0 of the one-row board, slid `RIGHT` by 3,
ends at column 3, and columns 1 and 2, which lie strictly between its old and its new far
end, are `EMPTY`; `X` at columns 2 and 3 of the other one-row board, slid `LEFT` by 2, ends at
columns 0 and 1, so that column 1, strictly between its old anchor 2 and its new anchor 0,
is occupied, not `EMPTY`. -/
theorem C16_counterexample :
    (direct .RIGHT 3 boardRow cellY 0 0 0 0 = .ok [[cellE, cellE, cellE, cellY]] ∧
      (cellAt [[cellE, cellE, cellE, cellY]] 0 1).map BoardCell.type = some CellType.EMPTY ∧
      (cellAt [[cellE, cellE, cellE, cellY]] 0 2).map BoardCell.type = some CellType.EMPTY) ∧
    (direct .LEFT 2 boardPair cellX 2 0 3 0 = .ok [[cellX, cellX, cellL, cellL]] ∧
      cellAt [[cellX, cellX, cellL, cellL]] 0 1 = some cellX ∧
      cellX.type ≠ CellType.EMPTY) :=
  ⟨⟨rfl, rfl, rfl⟩, ⟨rfl, rfl, by decide⟩⟩

/-- C17: on any board, for a row `r` whose columns `a .. b` (with `a ≤ b`) hold the vehicle,
and any amount `n`: the recursive slide `direct<RIGHT, n, ..>` succeeds if and only if each
of the cells at columns `b + 1 .. b + n` of row `r` is inside the grid and `EMPTY` in the
original board, and `direct<LEFT, n, ..>` succeeds if and only if each of the cells at columns
`a - n .. a - 1` is inside the grid and `EMPTY` in the original board. A `Collision` is always
due to an occupied cell outside the vehicle, on the path in the original board. -/
theorem C17_full_path_check (B : Board) (cell : BoardCell) (r a b n : Nat) (Ro2 : Int)
    (hab : a ≤ b) (hveh : ∀ i, a ≤ i → i ≤ b → cellAt B r i = some cell) :
    ((∃ B2, direct .RIGHT (n : Int) B cell (a : Int) (r : Int) (b : Int) Ro2 = .ok B2) ↔
      ∀ j, 1 ≤ j → j ≤ n → ∃ e, cellAt B r (b + j) = some e ∧ e.type = CellType.EMPTY) ∧
    ((∃ B2, direct .LEFT (n : Int) B cell (a : Int) (r : Int) (b : Int) Ro2 = .ok B2) ↔
      ∀ j : Nat, 1 ≤ j → j ≤ n →
        ∃ e, cellAtInt B (r : Int) ((a : Int) - j) = some e ∧ e.type = CellType.EMPTY) ∧
    (direct .RIGHT (n : Int) B cell (a : Int) (r : Int) (b : Int) Ro2 = .error .Collision →
      ∃ j x, 1 ≤ j ∧ j ≤ n ∧ cellAt B r (b + j) = some x ∧ x.type ≠ CellType.EMPTY) ∧
    (direct .LEFT (n : Int) B cell (a : Int) (r : Int) (b : Int) Ro2 = .error .Collision →
      ∃ j x, 1 ≤ j ∧ j ≤ n ∧ j ≤ a ∧ cellAt B r (a - j) = some x ∧
        x.type ≠ CellType.EMPTY) := by
  obtain ⟨row, hrow, hb, hrc⟩ := vehicle_row B cell r a b hab hveh
  rw [direct_RIGHT_eq, direct_LEFT_eq]
  refine ⟨⟨?_, ?_⟩, ⟨?_, ?_⟩, ?_, ?_⟩
  · rintro ⟨B2, hok⟩ j h1 h2
    rw [hrc]
    exact direct_RIGHT_row_free B B2 cell r a b hab row hrow n hok j h1 h2
  · intro hfree
    obtain ⟨row2, hok, _, _⟩ := direct_RIGHT_ok B cell r a b hab row hrow n
      (fun j h1 h2 => by rw [← hrc]; exact hfree j h1 h2)
    exact ⟨_, hok⟩
  · rintro ⟨B2, hok⟩ j h1 h2
    obtain ⟨hna, hfree⟩ := direct_LEFT_row_free B B2 cell r a b hab row hrow hb n hok
    rw [cellAtInt_of_eq B _ _ r (a - j) rfl (by omega), hrc]
    exact hfree j h1 h2
  · intro hfree
    have hna : n ≤ a := by
      by_contra hcon
      obtain ⟨e, he, _⟩ := hfree (a + 1) (by omega) (by omega)
      rw [cellAtInt_neg B _ _ (by right; omega)] at he
      exact absurd he (by simp)
    obtain ⟨row2, hok, _, _⟩ := direct_LEFT_ok B cell r a b hab row hrow hb n hna
      (fun j h1 h2 => by
        obtain ⟨e, he, hte⟩ := hfree j h1 h2
        rw [cellAtInt_of_eq B _ _ r (a - j) rfl (by omega), hrc] at he
        exact ⟨e, he, hte⟩)
    exact ⟨_, hok⟩
  · intro herr
    rcases first_failure (fun j => ∃ e, row[b + j]? = some e ∧ e.type = CellType.EMPTY) n with
      hall | ⟨m, hm, hall, hfail⟩
    · obtain ⟨row2, hok, _, _⟩ := direct_RIGHT_ok B cell r a b hab row hrow n hall
      rw [hok] at herr
      exact absurd herr (by simp)
    · rw [direct_RIGHT_row_fail B cell r a b hab row hrow m hall hfail n (by omega)] at herr
      cases hx : row[b + (m + 1)]? with
      | none =>
        rw [hx] at herr
        exact absurd herr (by simp)
      | some x =>
        exact ⟨m + 1, x, by omega, by omega, by rw [hrc]; exact hx,
          fun hc => hfail ⟨x, hx, hc⟩⟩
  · intro herr
    rcases first_failure
      (fun j => j ≤ a ∧ ∃ e, row[a - j]? = some e ∧ e.type = CellType.EMPTY) n with
      hall | ⟨m, hm, hall, hfail⟩
    · have hna : n ≤ a := by
        by_cases hn : n = 0
        · omega
        · exact (hall n (by omega) (le_refl n)).1
      obtain ⟨row2, hok, _, _⟩ := direct_LEFT_ok B cell r a b hab row hrow hb n hna
        (fun j h1 h2 => (hall j h1 h2).2)
      rw [hok] at herr
      exact absurd herr (by simp)
    · have hma : m ≤ a := by
        by_cases hm0 : m = 0
        · omega
        · exact (hall m (by omega) (le_refl m)).1
      rw [direct_LEFT_row_fail B cell r a b hab row hrow hb m hma
        (fun j h1 h2 => (hall j h1 h2).2) (fun hka hc => hfail ⟨hka, hc⟩) n (by omega)] at herr
      by_cases hka : m + 1 ≤ a
      · have hlt : a - (m + 1) < row.length := by omega
        have hx : row[a - (m + 1)]? = some row[a - (m + 1)] := List.getElem?_eq_getElem hlt
        exact ⟨m + 1, _, by omega, by omega, hka, by rw [hrc]; exact hx,
          fun hc => hfail ⟨hka, _, hx, hc⟩⟩
      · rw [if_neg hka] at herr
        exact absurd herr (by simp)

/-- C17, witness: `X` at columns 0 and 1 of row 2 of the 6 by 6 board, with `Y` next to it. -/
theorem C17_full_path_check_witness :
    ((∃ B2, direct .RIGHT ((1 : Nat) : Int) boardXY cellX ((0 : Nat) : Int) ((2 : Nat) : Int)
        ((1 : Nat) : Int) 2 = .ok B2) ↔
      ∀ j, 1 ≤ j → j ≤ 1 → ∃ e, cellAt boardXY 2 (1 + j) = some e ∧ e.type = CellType.EMPTY) ∧
    ((∃ B2, direct .LEFT ((1 : Nat) : Int) boardXY cellX ((0 : Nat) : Int) ((2 : Nat) : Int)
        ((1 : Nat) : Int) 2 = .ok B2) ↔
      ∀ j : Nat, 1 ≤ j → j ≤ 1 →
        ∃ e, cellAtInt boardXY ((2 : Nat) : Int) (((0 : Nat) : Int) - j) = some e ∧
          e.type = CellType.EMPTY) ∧
    (direct .RIGHT ((1 : Nat) : Int) boardXY cellX ((0 : Nat) : Int) ((2 : Nat) : Int)
        ((1 : Nat) : Int) 2 = .error .Collision →
      ∃ j x, 1 ≤ j ∧ j ≤ 1 ∧ cellAt boardXY 2 (1 + j) = some x ∧ x.type ≠ CellType.EMPTY) ∧
    (direct .LEFT ((1 : Nat) : Int) boardXY cellX ((0 : Nat) : Int) ((2 : Nat) : Int)
        ((1 : Nat) : Int) 2 = .error .Collision →
      ∃ j x, 1 ≤ j ∧ j ≤ 1 ∧ j ≤ 0 ∧ cellAt boardXY 2 (0 - j) = some x ∧
        x.type ≠ CellType.EMPTY) :=
  C17_full_path_check boardXY cellX 2 0 1 1 2 (by decide)
    (fun i _ h2 => by interval_cases i <;> rfl)

/-- C18: on a rectangular board that meets the Cell and Board invariants, for every cell that
is not `EMPTY` and every direction `d` on its axis: `FindCar` returns the top-left-most cell
`(r, c)` bearing the identity; `Dir` gives the far end `(r, c + length - 1)` for `RIGHT` and
`LEFT` and `(r + length - 1, c)` for `UP` and `DOWN`; the far end for `d` is inside the grid;
and the cells bearing the identity are exactly the cells from the anchor to that far end
inclusive, which are `length` cells in one row or one column. -/
theorem C18_anchor_far_end (B : Board) (h w : Nat) (r1 c1 : Nat) (x : BoardCell) (d : Direction)
    (hR : Rect B h w) (hI : BoardInv B) (hx : cellAt B r1 c1 = some x)
    (hne : x.type ≠ CellType.EMPTY) (hd : directionOk d x.direction = true) :
    ∃ r c : Nat, FindCar x.type B = .ok ((r : Int), (c : Int)) ∧
      (∀ r2 c2 y, cellAt B r2 c2 = some y → y.type = x.type → r ≤ r2 ∧ c ≤ c2) ∧
      (Dir.row_i .RIGHT r c x.length = r ∧ Dir.col_i .RIGHT r c x.length = c + x.length - 1) ∧
      (Dir.row_i .LEFT r c x.length = r ∧ Dir.col_i .LEFT r c x.length = c + x.length - 1) ∧
      (Dir.row_i .UP r c x.length = r + x.length - 1 ∧ Dir.col_i .UP r c x.length = c) ∧
      (Dir.row_i .DOWN r c x.length = r + x.length - 1 ∧ Dir.col_i .DOWN r c x.length = c) ∧
      (Dir.row_i d r c x.length < h ∧ Dir.col_i d r c x.length < w) ∧
      (∀ r2 c2 : Nat, (cellAt B r2 c2).map BoardCell.type = some x.type ↔
        ((r : Int) ≤ r2 ∧ (r2 : Int) ≤ Dir.row_i d r c x.length ∧
         (c : Int) ≤ c2 ∧ (c2 : Int) ≤ Dir.col_i d r c x.length)) ∧
      (Dir.row_i d r c x.length - r + 1) * (Dir.col_i d r c x.length - c + 1) = x.length := by
  obtain ⟨r, c, hV⟩ := hI.vehicle hR hx hne
  obtain ⟨L, hL, hL1, hty, hr, hc, hin, hcell, honly⟩ := hV.facts hR
  have hax := directionOk_axis d x.direction hd
  refine ⟨r, c, hV.findCar hR, ?_, ⟨rfl, by simp only [Dir.col_i]; omega⟩, ⟨rfl, rfl⟩,
    ⟨rfl, rfl⟩, ⟨rfl, rfl⟩, ?_, ?_, ?_⟩
  · intro r2 c2 y hy hyt
    have hs := honly r2 c2 y hy hyt
    unfold inSpan at hs
    by_cases hv : x.direction.isVertical = true
    · rw [if_pos hv] at hs; omega
    · rw [if_neg hv] at hs; omega
  · cases d with
    | RIGHT =>
      have hv : x.direction.isVertical = false := by rw [hax]; rfl
      rw [hv] at hin
      simp only [Bool.false_eq_true, if_false, Dir.row_i, Dir.col_i] at hin ⊢
      omega
    | LEFT =>
      have hv : x.direction.isVertical = false := by rw [hax]; rfl
      rw [hv] at hin
      simp only [Bool.false_eq_true, if_false, Dir.row_i, Dir.col_i] at hin ⊢
      omega
    | DOWN =>
      have hv : x.direction.isVertical = true := by rw [hax]; rfl
      rw [hv] at hin
      simp only [if_true, Dir.row_i, Dir.col_i] at hin ⊢
      omega
    | UP =>
      have hv : x.direction.isVertical = true := by rw [hax]; rfl
      rw [hv] at hin
      simp only [if_true, Dir.row_i, Dir.col_i] at hin ⊢
      omega
  · intro r2 c2
    have hiff : (cellAt B r2 c2).map BoardCell.type = some x.type ↔ inSpan x r c r2 c2 := by
      constructor
      · intro hmap
        cases hy : cellAt B r2 c2 with
        | none => rw [hy] at hmap; simp at hmap
        | some y =>
          rw [hy] at hmap
          simp only [Option.map_some', Option.some.injEq] at hmap
          exact honly r2 c2 y hy hmap
      · intro hs
        rw [hcell r2 c2 hs]
        rfl
    rw [hiff]
    unfold inSpan
    cases d with
    | RIGHT =>
      have hv : x.direction.isVertical = false := by rw [hax]; rfl
      simp only [hv, Bool.false_eq_true, if_false, Dir.row_i, Dir.col_i]
      omega
    | LEFT =>
      have hv : x.direction.isVertical = false := by rw [hax]; rfl
      simp only [hv, Bool.false_eq_true, if_false, Dir.row_i, Dir.col_i]
      omega
    | DOWN =>
      have hv : x.direction.isVertical = true := by rw [hax]; rfl
      simp only [hv, if_true, Dir.row_i, Dir.col_i]
      omega
    | UP =>
      have hv : x.direction.isVertical = true := by rw [hax]; rfl
      simp only [hv, if_true, Dir.row_i, Dir.col_i]
      omega
  · cases d <;> simp only [Dir.row_i, Dir.col_i] <;> ring

/-- C18, witness: `Z` on the 6 by 6 board, seen from its middle cell, for `DOWN`. -/
theorem C18_anchor_far_end_witness :
    ∃ r c : Nat, FindCar cellZ.type boardZ = .ok ((r : Int), (c : Int)) ∧
      (∀ r2 c2 y, cellAt boardZ r2 c2 = some y → y.type = cellZ.type → r ≤ r2 ∧ c ≤ c2) ∧
      (Dir.row_i .RIGHT r c cellZ.length = r ∧
        Dir.col_i .RIGHT r c cellZ.length = c + cellZ.length - 1) ∧
      (Dir.row_i .LEFT r c cellZ.length = r ∧
        Dir.col_i .LEFT r c cellZ.length = c + cellZ.length - 1) ∧
      (Dir.row_i .UP r c cellZ.length = r + cellZ.length - 1 ∧
        Dir.col_i .UP r c cellZ.length = c) ∧
      (Dir.row_i .DOWN r c cellZ.length = r + cellZ.length - 1 ∧
        Dir.col_i .DOWN r c cellZ.length = c) ∧
      (Dir.row_i .DOWN r c cellZ.length < 6 ∧ Dir.col_i .DOWN r c cellZ.length < 6) ∧
      (∀ r2 c2 : Nat, (cellAt boardZ r2 c2).map BoardCell.type = some cellZ.type ↔
        ((r : Int) ≤ r2 ∧ (r2 : Int) ≤ Dir.row_i .DOWN r c cellZ.length ∧
         (c : Int) ≤ c2 ∧ (c2 : Int) ≤ Dir.col_i .DOWN r c cellZ.length)) ∧
      (Dir.row_i .DOWN r c cellZ.length - r + 1) * (Dir.col_i .DOWN r c cellZ.length - c + 1) =
        cellZ.length :=
  C18_anchor_far_end boardZ 6 6 1 3 cellZ .DOWN (by decide) (by decide) rfl (by decide) rfl

/-- C19: on a rectangular board, square or not, that holds a vertical vehicle `zc` whose
top-most cell is at `(r, c)`, for `n ≤ r` such that rows `r - n .. r - 1` of column `c` are
`EMPTY`, `MoveVehicle` on any cell `(r + i, c)` of the vehicle with `UP` and amount `n` succeeds;
in the board it returns the `zc.length` cells of column `c` from row `r - n` on hold `zc`, the
rows from `r - n + zc.length` to `r + zc.length - 1` of column `c` are `EMPTY`, and every other
cell is unchanged. The result is the `LEFT` slide on the transposed board, rows and columns
exchanged, transposed back. -/
theorem C19_up_slide (B : Board) (h w : Nat) (zc : BoardCell) (r c i n : Nat)
    (hR : Rect B h w) (hV : IsVehicle B zc r c) (hvert : zc.direction.isVertical = true)
    (hi : (i : Int) < zc.length) (hn : n ≤ r)
    (hfree : ∀ j : Nat, j < n →
      ∃ e, cellAt B (r - n + j) c = some e ∧ e.type = CellType.EMPTY) :
    ∃ B2, MoveVehicle B ((r + i : Nat) : Int) (c : Int) .UP (n : Int) = .ok B2 ∧
      Rect B2 h w ∧
      (∀ j : Nat, (j : Int) < zc.length → cellAt B2 (r - n + j) c = some zc) ∧
      (∀ r2 : Nat, (r : Int) - n + zc.length ≤ r2 → (r2 : Int) < (r : Int) + zc.length →
        ∃ e, cellAt B2 r2 c = some e ∧ e.type = CellType.EMPTY) ∧
      (∀ r2 c2 : Nat, ¬ (c2 = c ∧ r ≤ r2 + n ∧ (r2 : Int) < (r : Int) + zc.length) →
        cellAt B2 r2 c2 = cellAt B r2 c2) ∧
      MoveVehicle B ((r + i : Nat) : Int) (c : Int) .UP (n : Int) =
        Except.map Transpose
          (direct .LEFT (n : Int) (Transpose B) zc (r : Int) (c : Int)
            ((r : Int) + zc.length - 1) (c : Int)) := by
  obtain ⟨L, hL, hL1, hty, hr, hc, hin, hcell, honly⟩ := hV.facts hR
  have hs : inSpan zc r c (r + i) c := by
    unfold inSpan
    rw [if_pos hvert]
    omega
  have hd : directionOk .UP zc.direction = true :=
    isVertical_directionOk .UP zc.direction hvert
  have hpath : pathFree B .UP zc r c n := by
    intro j h1 h2
    obtain ⟨e, he, hte⟩ := hfree (n - j) (by omega)
    refine ⟨e, ?_, hte⟩
    rw [← he]
    apply cellAtInt_of_eq
    · simp only [enteredAt]; omega
    · simp only [enteredAt]
  obtain ⟨B2, hok, hR2, hget⟩ := MoveVehicle_ok hR hV (r + i) c hs .UP hd n hpath
  refine ⟨B2, hok, hR2, ?_, ?_, ?_, ?_⟩
  · intro j hj
    rw [hget]
    have h1 : ¬ vacated .UP zc r c n (r - n + j) c := by simp only [vacated, true_and]; omega
    rw [if_neg h1]
    by_cases h2 : entered .UP zc r c n (r - n + j) c
    · rw [if_pos h2]
    · rw [if_neg h2]
      apply hcell
      unfold inSpan
      rw [if_pos hvert]
      simp only [entered, true_and] at h2
      omega
  · intro r2 h1 h2
    rw [hget]
    have h3 : vacated .UP zc r c n r2 c := by simp only [vacated, true_and]; omega
    rw [if_pos h3]
    exact ⟨_, rfl, rfl⟩
  · intro r2 c2 hout
    rw [hget]
    have h1 : ¬ vacated .UP zc r c n r2 c2 := by simp only [vacated]; omega
    have h2 : ¬ entered .UP zc r c n r2 c2 := by simp only [entered]; omega
    rw [if_neg h1, if_neg h2]
  · rw [MoveVehicle_eq_direct hR hV (r + i) c hs .UP hd (n : Int)]
    exact direct_UP_transpose hR (by omega) (by omega) zc (n : Int) _ _ _ _

/-- C19, witness: on the board of 4 rows and 2 columns, the vehicle at rows 2 and 3 of
column 1 moved `UP` by 2 from its bottom cell. -/
theorem C19_up_slide_witness :
    ∃ B2, MoveVehicle boardTall ((2 + 1 : Nat) : Int) ((1 : Nat) : Int) .UP ((2 : Nat) : Int) =
        .ok B2 ∧
      Rect B2 4 2 ∧
      (∀ j : Nat, (j : Int) < cellV.length → cellAt B2 (2 - 2 + j) 1 = some cellV) ∧
      (∀ r2 : Nat, ((2 : Nat) : Int) - (2 : Nat) + cellV.length ≤ r2 →
        (r2 : Int) < ((2 : Nat) : Int) + cellV.length →
        ∃ e, cellAt B2 r2 1 = some e ∧ e.type = CellType.EMPTY) ∧
      (∀ r2 c2 : Nat, ¬ (c2 = 1 ∧ 2 ≤ r2 + 2 ∧ (r2 : Int) < ((2 : Nat) : Int) + cellV.length) →
        cellAt B2 r2 c2 = cellAt boardTall r2 c2) ∧
      MoveVehicle boardTall ((2 + 1 : Nat) : Int) ((1 : Nat) : Int) .UP ((2 : Nat) : Int) =
        Except.map Transpose
          (direct .LEFT ((2 : Nat) : Int) (Transpose boardTall) cellV ((2 : Nat) : Int)
            ((1 : Nat) : Int) (((2 : Nat) : Int) + cellV.length - 1) ((1 : Nat) : Int)) :=
  C19_up_slide boardTall 4 2 cellV 2 1 1 2 (by decide) (by decide) rfl (by decide) (by decide)
    (fun j hj => ⟨cellE, by interval_cases j <;> rfl, rfl⟩)

/-- A successful `SetAtIndex` keeps the length of the list. -/
theorem SetAtIndex_ok_length {α : Type} (i : Int) (U : α) (L L2 : List α)
    (h : SetAtIndex i U L = .ok L2) : L2.length = L.length := by
  unfold SetAtIndex at h
  split at h
  · exact absurd h (by simp)
  · split at h
    · injection h with h
      subst h
      simp
    · exact absurd h (by simp)

/-- A successful `SetAtIndex` of a row of the right width keeps a board rectangular. -/
theorem SetAtIndex_ok_rect {B B2 : Board} {h w : Nat} (hR : Rect B h w) (i : Int)
    (row2 : List BoardCell) (hlen : row2.length = w) (hset : SetAtIndex i row2 B = .ok B2) :
    Rect B2 h w := by
  unfold SetAtIndex at hset
  split at hset
  · exact absurd hset (by simp)
  · split at hset
    · injection hset with hset
      subst hset
      exact hR.set _ row2 hlen
    · exact absurd hset (by simp)

/-- A row read from a rectangular board has the width of the board. -/
theorem GetAtIndex_ok_width {B : Board} {h w : Nat} (hR : Rect B h w) (i : Int)
    (row : List BoardCell) (hget : GetAtIndex i B = .ok row) : row.length = w := by
  obtain ⟨_, hrow⟩ := GetAtIndex_ok_elem _ _ _ hget
  exact hR.2 row (List.getElem?_mem hrow)

/-- A successful slide to the right keeps any rectangular board rectangular, of the same
size, whatever the cell and the coordinates it is given. -/
theorem direct_RIGHT_rect {B : Board} {h w : Nat} (hR : Rect B h w) (cell : BoardCell)
    (Co1 Ro1 Co2 : Int) (n : Nat) (B2 : Board)
    (hok : direct_RIGHT B cell Co1 Ro1 Co2 n = .ok B2) : Rect B2 h w := by
  induction n generalizing B2 with
  | zero =>
    simp only [direct_RIGHT] at hok
    injection hok with hok
    subst hok
    exact hR
  | succ n ih =>
    simp only [direct_RIGHT] at hok
    split at hok
    · exact absurd hok (by simp)
    · rename_i mainList h1
      have hRm := ih mainList h1
      split at hok
      · exact absurd hok (by simp)
      · rename_i subList h2
        have hw := GetAtIndex_ok_width hRm _ _ h2
        split at hok
        · exact absurd hok (by simp)
        · split at hok
          · exact absurd hok (by simp)
          · split at hok
            · exact absurd hok (by simp)
            · rename_i first h3
              split at hok
              · exact absurd hok (by simp)
              · rename_i second h4
                have hl1 := SetAtIndex_ok_length _ _ _ _ h3
                have hl2 := SetAtIndex_ok_length _ _ _ _ h4
                exact SetAtIndex_ok_rect hRm _ second (by omega) hok

/-- A successful slide to the left keeps any rectangular board rectangular, of the same
size, whatever the cell and the coordinates it is given. -/
theorem direct_LEFT_rect {B : Board} {h w : Nat} (hR : Rect B h w) (cell : BoardCell)
    (Co1 Ro1 Co2 : Int) (n : Nat) (B2 : Board)
    (hok : direct_LEFT B cell Co1 Ro1 Co2 n = .ok B2) : Rect B2 h w := by
  induction n generalizing B2 with
  | zero =>
    simp only [direct_LEFT] at hok
    injection hok with hok
    subst hok
    exact hR
  | succ n ih =>
    simp only [direct_LEFT] at hok
    split at hok
    · exact absurd hok (by simp)
    · rename_i mainList h1
      have hRm := ih mainList h1
      split at hok
      · exact absurd hok (by simp)
      · rename_i subList h2
        have hw := GetAtIndex_ok_width hRm _ _ h2
        split at hok
        · exact absurd hok (by simp)
        · split at hok
          · exact absurd hok (by simp)
          · split at hok
            · exact absurd hok (by simp)
            · rename_i first h3
              split at hok
              · exact absurd hok (by simp)
              · rename_i second h4
                have hl1 := SetAtIndex_ok_length _ _ _ _ h3
                have hl2 := SetAtIndex_ok_length _ _ _ _ h4
                exact SetAtIndex_ok_rect hRm _ second (by omega) hok

/-- A successful `direct`, in any of the four directions, keeps a rectangular board with at
least one row and one column rectangular, of the same size. -/
theorem direct_rect {B : Board} {h w : Nat} (hR : Rect B h w) (hh : 0 < h) (hw : 0 < w)
    (d : Direction) (counter : Int) (cell : BoardCell) (Co1 Ro1 Co2 Ro2 : Int) (B2 : Board)
    (hok : direct d counter B cell Co1 Ro1 Co2 Ro2 = .ok B2) : Rect B2 h w := by
  unfold direct at hok
  split at hok
  · exact absurd hok (by simp)
  · cases d with
    | RIGHT => exact direct_RIGHT_rect hR cell _ _ _ _ B2 hok
    | LEFT => exact direct_LEFT_rect hR cell _ _ _ _ B2 hok
    | DOWN =>
      simp only at hok
      split at hok
      · injection hok with hok
        subst hok
        exact hR
      · split at hok
        · exact absurd hok (by simp)
        · rename_i T2 h1
          injection hok with hok
          subst hok
          exact (direct_RIGHT_rect (hR.transpose hh) cell _ _ _ _ T2 h1).transpose hw
    | UP =>
      simp only at hok
      split at hok
      · injection hok with hok
        subst hok
        exact hR
      · split at hok
        · exact absurd hok (by simp)
        · rename_i T2 h1
          injection hok with hok
          subst hok
          exact (direct_LEFT_rect (hR.transpose hh) cell _ _ _ _ T2 h1).transpose hw

/-- A successful `MoveVehicle` returns the result of a `direct`. -/
theorem MoveVehicle_ok_direct (B B2 : Board) (R1 C1 : Int) (d : Direction) (A : Int)
    (hok : MoveVehicle B R1 C1 d A = .ok B2) :
    ∃ cell Co1 Ro1 Co2 Ro2, direct d A B cell Co1 Ro1 Co2 Ro2 = .ok B2 := by
  unfold MoveVehicle at hok
  split at hok
  · exact absurd hok (by simp)
  · split at hok
    · exact absurd hok (by simp)
    · split at hok
      · exact absurd hok (by simp)
      · split at hok
        · exact absurd hok (by simp)
        · split at hok
          · exact absurd hok (by simp)
          · split at hok
            · exact absurd hok (by simp)
            · split at hok
              · exact absurd hok (by simp)
              · exact ⟨_, _, _, _, _, hok⟩

/-- A successful `MoveVehicle` keeps any rectangular board rectangular, of the same size. -/
theorem MoveVehicle_rect {B B2 : Board} {h w : Nat} (hR : Rect B h w) (R1 C1 : Int)
    (d : Direction) (A : Int) (hok : MoveVehicle B R1 C1 d A = .ok B2) : Rect B2 h w := by
  obtain ⟨r1, c1, n, x, _, _, _, hx, _⟩ := MoveVehicle_ok_args B B2 R1 C1 d A hok
  have hb := hR.bounds hx
  obtain ⟨cell, Co1, Ro1, Co2, Ro2, hdir⟩ := MoveVehicle_ok_direct B B2 R1 C1 d A hok
  exact direct_rect hR (by omega) (by omega) d A cell Co1 Ro1 Co2 Ro2 B2 hdir

/-- After a slide of `m` steps, the cell entered at step `j` from the new anchor is the cell
entered at step `m + j` from the old one, and it holds what it held before the slide. -/
theorem enteredAt_moved {B B1 : Board} {h w : Nat} (hR : Rect B h w) {zc : BoardCell}
    {r c : Nat} (hV : IsVehicle B zc r c) (d : Direction) (m : Nat)
    (hfree : pathFree B d zc r c m)
    (hget : ∀ r2 c2, cellAt B1 r2 c2 =
        if vacated d zc r c m r2 c2 then some (placeholder d)
        else if entered d zc r c m r2 c2 then some zc
        else cellAt B r2 c2) (j : Nat) (hj : 1 ≤ j) :
    cellAtInt B1 (enteredAt d zc (movedAnchor d r c m).1 (movedAnchor d r c m).2 j).1
        (enteredAt d zc (movedAnchor d r c m).1 (movedAnchor d r c m).2 j).2 =
      cellAtInt B (enteredAt d zc r c (m + j)).1 (enteredAt d zc r c (m + j)).2 := by
  obtain ⟨L, hL, hL1, hty, hr, hc, hin, hcell, honly⟩ := hV.facts hR
  have hlast : 1 ≤ m → _ := fun h1 => stepFree_bounds hR d zc r c m (hfree m h1 (le_refl m))
  cases d with
  | RIGHT =>
    simp only [enteredAt, movedAnchor]
    rw [cellAtInt_of_eq B1 _ _ r (c + m + L - 1 + j) rfl (by push_cast; omega),
      cellAtInt_of_eq B _ _ r (c + m + L - 1 + j) rfl (by push_cast; omega), hget,
      if_neg (by simp only [vacated]; omega), if_neg (by simp only [entered]; omega)]
  | DOWN =>
    simp only [enteredAt, movedAnchor]
    rw [cellAtInt_of_eq B1 _ _ (r + m + L - 1 + j) c (by push_cast; omega) rfl,
      cellAtInt_of_eq B _ _ (r + m + L - 1 + j) c (by push_cast; omega) rfl, hget,
      if_neg (by simp only [vacated]; omega), if_neg (by simp only [entered]; omega)]
  | LEFT =>
    simp only [enteredAt, movedAnchor] at hlast ⊢
    have hm : m ≤ c := by
      by_cases h1 : 1 ≤ m
      · have := hlast h1
        omega
      · omega
    by_cases hneg : (c : Int) - m - j < 0
    · rw [cellAtInt_neg B1 _ _ (Or.inr (by omega)),
        cellAtInt_neg B _ _ (Or.inr (by omega))]
    · rw [cellAtInt_of_eq B1 _ _ r (c - m - j) rfl (by omega),
        cellAtInt_of_eq B _ _ r (c - m - j) rfl (by omega), hget,
        if_neg (by simp only [vacated]; omega), if_neg (by simp only [entered]; omega)]
  | UP =>
    simp only [enteredAt, movedAnchor] at hlast ⊢
    have hm : m ≤ r := by
      by_cases h1 : 1 ≤ m
      · have := hlast h1
        omega
      · omega
    by_cases hneg : (r : Int) - m - j < 0
    · rw [cellAtInt_neg B1 _ _ (Or.inl (by omega)),
        cellAtInt_neg B _ _ (Or.inl (by omega))]
    · rw [cellAtInt_of_eq B1 _ _ (r - m - j) c (by omega) rfl,
        cellAtInt_of_eq B _ _ (r - m - j) c (by omega) rfl, hget,
        if_neg (by simp only [vacated]; omega), if_neg (by simp only [entered]; omega)]

/-- After a slide of `m` steps along a free path, the path of a further `n` steps is free on
the new board exactly when the path of `m + n` steps was free on the old one. -/
theorem pathFree_moved {B B1 : Board} {h w : Nat} (hR : Rect B h w) {zc : BoardCell}
    {r c : Nat} (hV : IsVehicle B zc r c) (d : Direction) (m n : Nat)
    (hfree : pathFree B d zc r c m)
    (hget : ∀ r2 c2, cellAt B1 r2 c2 =
        if vacated d zc r c m r2 c2 then some (placeholder d)
        else if entered d zc r c m r2 c2 then some zc
        else cellAt B r2 c2) :
    pathFree B1 d zc (movedAnchor d r c m).1 (movedAnchor d r c m).2 n ↔
      pathFree B d zc r c (m + n) := by
  have key := enteredAt_moved hR hV d m hfree hget
  constructor
  · intro h2 j hj1 hjn
    by_cases hjm : j ≤ m
    · exact hfree j hj1 hjm
    · have h3 := h2 (j - m) (by omega) (by omega)
      unfold stepFree at h3 ⊢
      rw [key (j - m) (by omega)] at h3
      have e : m + (j - m) = j := by omega
      rw [e] at h3
      exact h3
  · intro h3 j hj1 hjn
    have h4 := h3 (m + j) (by omega) (by omega)
    unfold stepFree at h4 ⊢
    rw [key j hj1]
    exact h4

/-- Two successful slides of one vehicle in one direction, of `m` and then `n` steps, and
the slide of `m + n` steps: what each needs, and that they give the same board. -/
theorem MoveVehicle_compose {B B1 : Board} {h w : Nat} (hR : Rect B h w) {zc : BoardCell}
    {r c : Nat} (hV : IsVehicle B zc r c) (r1 c1 : Nat) (hs : inSpan zc r c r1 c1)
    (d : Direction) (m n : Nat)
    (hok1 : MoveVehicle B (r1 : Int) (c1 : Int) d (m : Int) = .ok B1) :
    Rect B1 h w ∧ IsVehicle B1 zc (movedAnchor d r c m).1 (movedAnchor d r c m).2 ∧
      (pathFree B1 d zc (movedAnchor d r c m).1 (movedAnchor d r c m).2 n ↔
        pathFree B d zc r c (m + n)) ∧
      ∀ r3 c3 B2 B3, inSpan zc (movedAnchor d r c m).1 (movedAnchor d r c m).2 r3 c3 →
        MoveVehicle B1 (r3 : Int) (c3 : Int) d (n : Int) = .ok B2 →
        MoveVehicle B (r1 : Int) (c1 : Int) d ((m + n : Nat) : Int) = .ok B3 → B2 = B3 := by
  obtain ⟨hd, hpath⟩ := MoveVehicle_ok_pathFree hR hV r1 c1 hs d m B1 hok1
  obtain ⟨B1', hok1', hR1, hget1⟩ := MoveVehicle_ok hR hV r1 c1 hs d hd m hpath
  rw [hok1] at hok1'
  injection hok1' with e1
  subst e1
  have hV1 := IsVehicle.moved hR hR1 hV d hd m hpath hget1
  have hiff := pathFree_moved hR hV d m n hpath hget1
  refine ⟨hR1, hV1, hiff, ?_⟩
  intro r3 c3 B2 B3 hs3 hok2 hok3
  obtain ⟨_, hpath2⟩ := MoveVehicle_ok_pathFree hR1 hV1 r3 c3 hs3 d n B2 hok2
  obtain ⟨B2', hok2', hR2, hget2⟩ := MoveVehicle_ok hR1 hV1 r3 c3 hs3 d hd n hpath2
  rw [hok2] at hok2'
  injection hok2' with e2
  subst e2
  obtain ⟨_, hpath3⟩ := MoveVehicle_ok_pathFree hR hV r1 c1 hs d (m + n) B3 hok3
  obtain ⟨B3', hok3', hR3, hget3⟩ := MoveVehicle_ok hR hV r1 c1 hs d hd (m + n) hpath3
  rw [hok3] at hok3'
  injection hok3' with e3
  subst e3
  have hlen := hV.2.1
  have hlast : 1 ≤ m + n → _ :=
    fun h1 => stepFree_bounds hR d zc r c (m + n) (hpath3 (m + n) h1 (le_refl _))
  apply Rect.ext hR2 hR3
  intro r2 c2
  rw [hget2, hget1, hget3]
  cases d with
  | RIGHT =>
    simp only [vacated, entered, movedAnchor]
    split_ifs <;> first | rfl | omega
  | DOWN =>
    simp only [vacated, entered, movedAnchor]
    split_ifs <;> first | rfl | omega
  | LEFT =>
    simp only [enteredAt] at hlast
    simp only [vacated, entered, movedAnchor]
    by_cases hn : 1 ≤ m + n
    · have := hlast hn
      split_ifs <;> first | rfl | omega
    · split_ifs <;> first | rfl | omega
  | UP =>
    simp only [enteredAt] at hlast
    simp only [vacated, entered, movedAnchor]
    by_cases hn : 1 ≤ m + n
    · have := hlast hn
      split_ifs <;> first | rfl | omega
    · split_ifs <;> first | rfl | omega

/-- The anchor of a vehicle is a cell of its run. -/
theorem inSpan_anchor (zc : BoardCell) (r c : Nat) (hlen : 1 ≤ zc.length) :
    inSpan zc r c r c := by
  unfold inSpan
  split <;> exact ⟨rfl, le_refl _, by omega⟩

/-- A successful slide followed by the slide of the same amount in the opposite direction,
from any cell that bears the identity of the vehicle: it succeeds, and its result is the first
board except at the cells the vehicle had entered, which hold the placeholder of the return
direction. -/
theorem MoveVehicle_back {B B2 : Board} {h w : Nat} (hR : Rect B h w) {zc : BoardCell}
    {r c : Nat} (hV : IsVehicle B zc r c) (r1 c1 : Nat) (hs : inSpan zc r c r1 c1)
    (d : Direction) (n : Nat)
    (hok : MoveVehicle B (r1 : Int) (c1 : Int) d (n : Int) = .ok B2) (r3 c3 : Nat)
    (h3 : (cellAt B2 r3 c3).map BoardCell.type = some zc.type) :
    ∃ B3, MoveVehicle B2 (r3 : Int) (c3 : Int) d.opposite (n : Int) = .ok B3 ∧ Rect B3 h w ∧
      ∀ r2 c2, cellAt B3 r2 c2 =
        if entered d zc r c n r2 c2 then some (placeholder d.opposite) else cellAt B r2 c2 := by
  obtain ⟨hd, hpath⟩ := MoveVehicle_ok_pathFree hR hV r1 c1 hs d n B2 hok
  obtain ⟨B2', hok', hR2, hget⟩ := MoveVehicle_ok hR hV r1 c1 hs d hd n hpath
  rw [hok] at hok'
  injection hok' with hB2
  subst hB2
  have hV2 := IsVehicle.moved hR hR2 hV d hd n hpath hget
  obtain ⟨L, hL, hL1, hty, hr, hc, hin, hcell, honly⟩ := hV.facts hR
  obtain ⟨L2, _, _, _, _, _, _, hcell2, honly2⟩ := hV2.facts hR2
  have hax := directionOk_axis d zc.direction hd
  have hlast : 1 ≤ n → _ := fun h1 => stepFree_bounds hR d zc r c n (hpath n h1 (le_refl n))
  have hs3 : inSpan zc (movedAnchor d r c n).1 (movedAnchor d r c n).2 r3 c3 := by
    cases hy : cellAt B2 r3 c3 with
    | none => rw [hy] at h3; simp at h3
    | some y =>
      rw [hy] at h3
      simp only [Option.map_some', Option.some.injEq] at h3
      exact honly2 r3 c3 y hy h3
  have hd2 := directionOk_opposite d zc.direction hd
  have hvac : ∀ a b : Nat, vacated d zc r c n a b →
      ∃ e, cellAt B2 a b = some e ∧ e.type = CellType.EMPTY := by
    intro a b hv
    rw [hget, if_pos hv]
    exact ⟨_, rfl, placeholder_type d⟩
  have hpath2 : pathFree B2 d.opposite zc (movedAnchor d r c n).1 (movedAnchor d r c n).2 n := by
    intro j hj1 hjn
    have hn := hlast (by omega)
    unfold stepFree
    cases d with
    | RIGHT =>
      simp only [enteredAt, movedAnchor, Direction.opposite] at hn ⊢
      rw [cellAtInt_of_eq B2 _ _ r (c + n - j) rfl (by omega)]
      exact hvac r (c + n - j) (by simp only [vacated, true_and]; omega)
    | LEFT =>
      simp only [enteredAt, movedAnchor, Direction.opposite] at hn ⊢
      rw [cellAtInt_of_eq B2 _ _ r (c - n + L - 1 + j) rfl (by omega)]
      exact hvac r (c - n + L - 1 + j) (by simp only [vacated, true_and]; omega)
    | DOWN =>
      simp only [enteredAt, movedAnchor, Direction.opposite] at hn ⊢
      rw [cellAtInt_of_eq B2 _ _ (r + n - j) c (by omega) rfl]
      exact hvac (r + n - j) c (by simp only [vacated, true_and]; omega)
    | UP =>
      simp only [enteredAt, movedAnchor, Direction.opposite] at hn ⊢
      rw [cellAtInt_of_eq B2 _ _ (r - n + L - 1 + j) c (by omega) rfl]
      exact hvac (r - n + L - 1 + j) c (by simp only [vacated, true_and]; omega)
  obtain ⟨B3, hok3, hR3, hget3⟩ :=
    MoveVehicle_ok hR2 hV2 r3 c3 hs3 d.opposite hd2 n hpath2
  refine ⟨B3, hok3, hR3, ?_⟩
  intro r2 c2
  rw [hget3, hget]
  have hold := hcell r2 c2
  cases d with
  | RIGHT =>
    have hv : zc.direction.isVertical = false := by rw [hax]; rfl
    simp only [inSpan, hv, Bool.false_eq_true, if_false, movedAnchor, vacated, entered,
      enteredAt, Direction.opposite] at hold hlast ⊢
    by_cases hn : 1 ≤ n
    · have := hlast hn
      split_ifs <;> first | rfl | (symm; apply hold; omega) | omega
    · split_ifs <;> first | rfl | (symm; apply hold; omega) | omega
  | LEFT =>
    have hv : zc.direction.isVertical = false := by rw [hax]; rfl
    simp only [inSpan, hv, Bool.false_eq_true, if_false, movedAnchor, vacated, entered,
      enteredAt, Direction.opposite] at hold hlast ⊢
    by_cases hn : 1 ≤ n
    · have := hlast hn
      split_ifs <;> first | rfl | (symm; apply hold; omega) | omega
    · split_ifs <;> first | rfl | (symm; apply hold; omega) | omega
  | DOWN =>
    have hv : zc.direction.isVertical = true := by rw [hax]; rfl
    simp only [inSpan, hv, if_true, movedAnchor, vacated, entered,
      enteredAt, Direction.opposite] at hold hlast ⊢
    by_cases hn : 1 ≤ n
    · have := hlast hn
      split_ifs <;> first | rfl | (symm; apply hold; omega) | omega
    · split_ifs <;> first | rfl | (symm; apply hold; omega) | omega
  | UP =>
    have hv : zc.direction.isVertical = true := by rw [hax]; rfl
    simp only [inSpan, hv, if_true, movedAnchor, vacated, entered,
      enteredAt, Direction.opposite] at hold hlast ⊢
    by_cases hn : 1 ≤ n
    · have := hlast hn
      split_ifs <;> first | rfl | (symm; apply hold; omega) | omega
    · split_ifs <;> first | rfl | (symm; apply hold; omega) | omega

/-- The cells of the old run of a vehicle that are not cells of its run after a slide along
a free path are among the cells the slide vacates. -/
theorem vacated_of_left_span {B : Board} {h w : Nat} (hR : Rect B h w) (zc : BoardCell)
    (r c : Nat) (d : Direction)
    (hd : directionOk d zc.direction = true) (n : Nat) (hfree : pathFree B d zc r c n)
    (r2 c2 : Nat) (hold : inSpan zc r c r2 c2)
    (hnew : ¬ inSpan zc (movedAnchor d r c n).1 (movedAnchor d r c n).2 r2 c2) :
    vacated d zc r c n r2 c2 := by
  have hax := directionOk_axis d zc.direction hd
  have hlast : 1 ≤ n → _ := fun h1 => stepFree_bounds hR d zc r c n (hfree n h1 (le_refl n))
  cases d with
  | RIGHT =>
    have hv : zc.direction.isVertical = false := by rw [hax]; rfl
    simp only [inSpan, hv, Bool.false_eq_true, if_false, movedAnchor, vacated,
      enteredAt] at hold hnew hlast ⊢
    omega
  | LEFT =>
    have hv : zc.direction.isVertical = false := by rw [hax]; rfl
    simp only [inSpan, hv, Bool.false_eq_true, if_false, movedAnchor, vacated,
      enteredAt] at hold hnew hlast ⊢
    by_cases hn : 1 ≤ n
    · have := hlast hn
      omega
    · omega
  | DOWN =>
    have hv : zc.direction.isVertical = true := by rw [hax]; rfl
    simp only [inSpan, hv, if_true, movedAnchor, vacated, enteredAt] at hold hnew hlast ⊢
    omega
  | UP =>
    have hv : zc.direction.isVertical = true := by rw [hax]; rfl
    simp only [inSpan, hv, if_true, movedAnchor, vacated, enteredAt] at hold hnew hlast ⊢
    by_cases hn : 1 ≤ n
    · have := hlast hn
      omega
    · omega

/-! ## The claims, concluded -/

/-- C21: for every rectangular board of `h` rows and `w` columns and every call of
`MoveVehicle` on it that succeeds, in any of the four directions and whatever the board holds,
the returned board has `h` rows, every row of it has `w` cells, and `GameBoard::length` and
`GameBoard::width` of it are those of the input. -/
theorem C21_dimensions_fixed (B B2 : Board) (h w : Nat) (R1 C1 : Int) (d : Direction) (A : Int)
    (hR : Rect B h w) (hok : MoveVehicle B R1 C1 d A = .ok B2) :
    B2.length = h ∧ (∀ row ∈ B2, row.length = w) ∧
      GameBoard.length B2 = GameBoard.length B ∧ GameBoard.width B2 = GameBoard.width B := by
  have hR2 := MoveVehicle_rect hR R1 C1 d A hok
  obtain ⟨r1, c1, n, x, _, _, _, hx, _⟩ := MoveVehicle_ok_args B B2 R1 C1 d A hok
  have hb := hR.bounds hx
  have hh : 0 < h := by omega
  refine ⟨hR2.1, hR2.2, ?_, ?_⟩
  · rw [hR2.length_eq, hR.length_eq]
  · rw [hR2.width_eq hh, hR.width_eq hh]

/-- C21, witness: the vehicle of length 2 at the bottom of the board of 4 rows and 2 columns,
moved `UP` by 2. -/
theorem C21_dimensions_fixed_witness :
    [[cellE, cellV], [cellE, cellV], [cellE, cellL], [cellE, cellL]].length = 4 ∧
      (∀ row ∈ [[cellE, cellV], [cellE, cellV], [cellE, cellL], [cellE, cellL]],
        row.length = 2) ∧
      GameBoard.length [[cellE, cellV], [cellE, cellV], [cellE, cellL], [cellE, cellL]] =
        GameBoard.length boardTall ∧
      GameBoard.width [[cellE, cellV], [cellE, cellV], [cellE, cellL], [cellE, cellL]] =
        GameBoard.width boardTall :=
  C21_dimensions_fixed boardTall [[cellE, cellV], [cellE, cellV], [cellE, cellL], [cellE, cellL]]
    4 2 3 1 .UP 2 (by decide) rfl

/-- C22: on a rectangular board holding the vehicle `zc` anchored at `(r, c)`, for a cell
`(r1, c1)` of the vehicle, any direction `d` and any amounts `m` and `n`: if `MoveVehicle` by
`m + n` succeeds with `B2`, then `MoveVehicle` by `m` succeeds with some `B1`, which holds the
vehicle, and `MoveVehicle` on `B1` by `n` from any cell bearing the identity of the vehicle
succeeds with that same `B2`; and if `MoveVehicle` by `m` succeeds with `B1` and `MoveVehicle`
on `B1` by `n` from a cell bearing the identity of the vehicle succeeds with `B2`, then
`MoveVehicle` by `m + n` succeeds with that same `B2`. -/
theorem C22_moves_compose (B : Board) (h w : Nat) (zc : BoardCell) (r c r1 c1 : Nat)
    (d : Direction) (m n : Nat)
    (hR : Rect B h w) (hV : IsVehicle B zc r c) (hs : inSpan zc r c r1 c1) :
    (∀ B2, MoveVehicle B (r1 : Int) (c1 : Int) d ((m : Int) + (n : Int)) = .ok B2 →
      ∃ B1, MoveVehicle B (r1 : Int) (c1 : Int) d (m : Int) = .ok B1 ∧
        (∃ r3 c3, (cellAt B1 r3 c3).map BoardCell.type = some zc.type) ∧
        ∀ r3 c3 : Nat, (cellAt B1 r3 c3).map BoardCell.type = some zc.type →
          MoveVehicle B1 (r3 : Int) (c3 : Int) d (n : Int) = .ok B2) ∧
    (∀ B1 B2, ∀ r3 c3 : Nat, MoveVehicle B (r1 : Int) (c1 : Int) d (m : Int) = .ok B1 →
      (cellAt B1 r3 c3).map BoardCell.type = some zc.type →
      MoveVehicle B1 (r3 : Int) (c3 : Int) d (n : Int) = .ok B2 →
      MoveVehicle B (r1 : Int) (c1 : Int) d ((m : Int) + (n : Int)) = .ok B2) := by
  have hspan : ∀ B1, Rect B1 h w →
      IsVehicle B1 zc (movedAnchor d r c m).1 (movedAnchor d r c m).2 → ∀ r3 c3,
      (cellAt B1 r3 c3).map BoardCell.type = some zc.type →
      inSpan zc (movedAnchor d r c m).1 (movedAnchor d r c m).2 r3 c3 := by
    intro B1 hR1 hV1 r3 c3 h3
    obtain ⟨_, _, _, _, _, _, _, _, honly1⟩ := hV1.facts hR1
    cases hy : cellAt B1 r3 c3 with
    | none => rw [hy] at h3; simp at h3
    | some y =>
      rw [hy] at h3
      simp only [Option.map_some', Option.some.injEq] at h3
      exact honly1 r3 c3 y hy h3
  constructor
  · intro B3 hok3
    rw [← Nat.cast_add] at hok3
    obtain ⟨hd, hpath3⟩ := MoveVehicle_ok_pathFree hR hV r1 c1 hs d (m + n) B3 hok3
    have hpath : pathFree B d zc r c m := fun j hj1 hjm => hpath3 j hj1 (by omega)
    obtain ⟨B1, hok1, _, _⟩ := MoveVehicle_ok hR hV r1 c1 hs d hd m hpath
    obtain ⟨hR1, hV1, hiff, hsame⟩ := MoveVehicle_compose hR hV r1 c1 hs d m n hok1
    obtain ⟨_, _, _, _, _, _, _, hcell1, _⟩ := hV1.facts hR1
    refine ⟨B1, hok1, ⟨(movedAnchor d r c m).1, (movedAnchor d r c m).2, ?_⟩, ?_⟩
    · rw [hcell1 _ _ (inSpan_anchor zc _ _ hV.2.1)]
      rfl
    · intro r3 c3 h3
      have hs3 := hspan B1 hR1 hV1 r3 c3 h3
      obtain ⟨B2, hok2, _, _⟩ := MoveVehicle_ok hR1 hV1 r3 c3 hs3 d hd n (hiff.mpr hpath3)
      rw [hok2, hsame r3 c3 B2 B3 hs3 hok2 hok3]
  · intro B1 B2 r3 c3 hok1 h3 hok2
    obtain ⟨hd, _⟩ := MoveVehicle_ok_pathFree hR hV r1 c1 hs d m B1 hok1
    obtain ⟨hR1, hV1, hiff, hsame⟩ := MoveVehicle_compose hR hV r1 c1 hs d m n hok1
    have hs3 := hspan B1 hR1 hV1 r3 c3 h3
    obtain ⟨_, hpath2⟩ := MoveVehicle_ok_pathFree hR1 hV1 r3 c3 hs3 d n B2 hok2
    obtain ⟨B3, hok3, _, _⟩ := MoveVehicle_ok hR hV r1 c1 hs d hd (m + n) (hiff.mp hpath2)
    rw [← Nat.cast_add, hok3, hsame r3 c3 B2 B3 hs3 hok2 hok3]

/-- C22, witness: `Y` on the board of one row, moved `RIGHT` by 1 and then by 2, and moved
`RIGHT` by 3. -/
theorem C22_moves_compose_witness :
    MoveVehicle boardRow ((0 : Nat) : Int) ((0 : Nat) : Int) .RIGHT
        (((1 : Nat) : Int) + ((2 : Nat) : Int)) = .ok [[cellE, cellE, cellE, cellY]] ∧
    (∀ B2, MoveVehicle boardRow ((0 : Nat) : Int) ((0 : Nat) : Int) .RIGHT
        (((1 : Nat) : Int) + ((2 : Nat) : Int)) = .ok B2 →
      ∃ B1, MoveVehicle boardRow ((0 : Nat) : Int) ((0 : Nat) : Int) .RIGHT ((1 : Nat) : Int) =
          .ok B1 ∧
        (∃ r3 c3, (cellAt B1 r3 c3).map BoardCell.type = some cellY.type) ∧
        ∀ r3 c3 : Nat, (cellAt B1 r3 c3).map BoardCell.type = some cellY.type →
          MoveVehicle B1 (r3 : Int) (c3 : Int) .RIGHT ((2 : Nat) : Int) = .ok B2) ∧
    (∀ B1 B2, ∀ r3 c3 : Nat,
      MoveVehicle boardRow ((0 : Nat) : Int) ((0 : Nat) : Int) .RIGHT ((1 : Nat) : Int) =
        .ok B1 →
      (cellAt B1 r3 c3).map BoardCell.type = some cellY.type →
      MoveVehicle B1 (r3 : Int) (c3 : Int) .RIGHT ((2 : Nat) : Int) = .ok B2 →
      MoveVehicle boardRow ((0 : Nat) : Int) ((0 : Nat) : Int) .RIGHT
        (((1 : Nat) : Int) + ((2 : Nat) : Int)) = .ok B2) :=
  ⟨rfl, C22_moves_compose boardRow 1 4 cellY 0 0 0 0 .RIGHT 1 2 (by decide) (by decide)
    (by decide)⟩

/-- C23: on a rectangular board that meets the Board invariant, if `MoveVehicle` from the
cell `(R1, C1)`, which holds `x`, in direction `d` by `A` succeeds with `B2`, then
`MoveVehicle` on `B2` from any cell bearing the identity of `x`, in the opposite direction by
`A`, succeeds with a board `B3` of the same size in which every cell bears the identity
(or `EMPTY`) that the cell at the same position of `B` bears, and a cell that is not `EMPTY`
is at a position of `B3` exactly when it is at that position of `B`. -/
theorem C23_inverse_up_to_placeholders (B B2 : Board) (h w : Nat) (R1 C1 : Int)
    (d : Direction) (A : Int) (x : BoardCell) (r3 c3 : Nat)
    (hR : Rect B h w) (hI : BoardInv B) (hok : MoveVehicle B R1 C1 d A = .ok B2)
    (hx : cellAtInt B R1 C1 = some x)
    (h3 : (cellAt B2 r3 c3).map BoardCell.type = some x.type) :
    ∃ B3, MoveVehicle B2 (r3 : Int) (c3 : Int) d.opposite A = .ok B3 ∧ Rect B3 h w ∧
      (∀ r2 c2, (cellAt B3 r2 c2).map BoardCell.type = (cellAt B r2 c2).map BoardCell.type) ∧
      (∀ r2 c2 y, y.type ≠ CellType.EMPTY →
        (cellAt B3 r2 c2 = some y ↔ cellAt B r2 c2 = some y)) := by
  obtain ⟨r1, c1, n, zc, hR1, hC1, hAn, hzc, hzne⟩ := MoveVehicle_ok_args B B2 R1 C1 d A hok
  subst hR1 hC1 hAn
  rw [cellAtInt_nat, hzc] at hx
  injection hx with hx
  subst hx
  obtain ⟨r, c, hV⟩ := hI.vehicle hR hzc hzne
  obtain ⟨L, hL, hL1, hty, hr, hc, hin, hcell, honly⟩ := hV.facts hR
  have hs : inSpan zc r c r1 c1 := honly r1 c1 zc hzc rfl
  obtain ⟨hd, hpath⟩ := MoveVehicle_ok_pathFree hR hV r1 c1 hs d n B2 hok
  obtain ⟨B3, hok3, hR3, hform⟩ := MoveVehicle_back hR hV r1 c1 hs d n hok r3 c3 h3
  refine ⟨B3, hok3, hR3, ?_, ?_⟩
  · intro r2 c2
    rw [hform]
    by_cases hent : entered d zc r c n r2 c2
    · obtain ⟨e, he, hte⟩ := entered_free B d zc r c n L hL hpath r2 c2 hent
      rw [if_pos hent, he]
      simp [placeholder_type, hte]
    · rw [if_neg hent]
  · intro r2 c2 y hy
    rw [hform]
    by_cases hent : entered d zc r c n r2 c2
    · obtain ⟨e, he, hte⟩ := entered_free B d zc r c n L hL hpath r2 c2 hent
      rw [if_pos hent, he]
      constructor
      · intro h1
        injection h1 with h1
        rw [← h1, placeholder_type] at hy
        exact absurd rfl hy
      · intro h1
        injection h1 with h1
        rw [← h1, hte] at hy
        exact absurd rfl hy
    · rw [if_neg hent]

/-- C23, witness: `Z` moved `DOWN` by 2 on the 6 by 6 board and then back `UP` by 2 from its
bottom cell. -/
theorem C23_inverse_up_to_placeholders_witness :
    ∃ B3, MoveVehicle boardZdown ((4 : Nat) : Int) ((3 : Nat) : Int) Direction.DOWN.opposite 2 =
        .ok B3 ∧ Rect B3 6 6 ∧
      (∀ r2 c2, (cellAt B3 r2 c2).map BoardCell.type =
        (cellAt boardZ r2 c2).map BoardCell.type) ∧
      (∀ r2 c2 y, y.type ≠ CellType.EMPTY →
        (cellAt B3 r2 c2 = some y ↔ cellAt boardZ r2 c2 = some y)) :=
  C23_inverse_up_to_placeholders boardZ boardZdown 6 6 0 3 .DOWN 2 cellZ 4 3 (by decide)
    (by decide) rfl rfl rfl

/-- C24: on a rectangular board holding the vehicle `zc` anchored at `(r, c)`, whatever its
other cells hold, if `MoveVehicle` from a cell of the vehicle in direction `d` by `n`
succeeds with `B2`, then every cell the slide vacates holds in `B2` exactly
`BoardCell<EMPTY, RIGHT, 1>` when `d` is `RIGHT` or `DOWN` and exactly
`BoardCell<EMPTY, LEFT, 1>` when `d` is `LEFT` or `UP`; and every cell of the old run of the
vehicle that is not a cell of its new run is such a vacated cell. -/
theorem C24_vacated_placeholder (B B2 : Board) (h w : Nat) (zc : BoardCell) (r c r1 c1 : Nat)
    (d : Direction) (n : Nat)
    (hR : Rect B h w) (hV : IsVehicle B zc r c) (hs : inSpan zc r c r1 c1)
    (hok : MoveVehicle B (r1 : Int) (c1 : Int) d (n : Int) = .ok B2) :
    (∀ r2 c2, vacated d zc r c n r2 c2 →
      cellAt B2 r2 c2 = some (BoardCell.mk CellType.EMPTY
        (if d = Direction.RIGHT ∨ d = Direction.DOWN then Direction.RIGHT else Direction.LEFT)
        1)) ∧
    (∀ r2 c2, inSpan zc r c r2 c2 →
      ¬ inSpan zc (movedAnchor d r c n).1 (movedAnchor d r c n).2 r2 c2 →
      vacated d zc r c n r2 c2) := by
  obtain ⟨hd, hpath⟩ := MoveVehicle_ok_pathFree hR hV r1 c1 hs d n B2 hok
  obtain ⟨B2', hok', hR2, hget⟩ := MoveVehicle_ok hR hV r1 c1 hs d hd n hpath
  rw [hok] at hok'
  injection hok' with hB2
  subst hB2
  constructor
  · intro r2 c2 hv
    rw [hget, if_pos hv]
    cases d <;> rfl
  · intro r2 c2 hold hnew
    exact vacated_of_left_span hR zc r c d hd n hpath r2 c2 hold hnew

/-- C24, witness: `X` moved `RIGHT` by 1 on a board of one row whose empty cells are
`BoardCell<EMPTY, UP, 0>`. -/
theorem C24_vacated_placeholder_witness :
    (∀ r2 c2, vacated .RIGHT cellX 0 0 1 r2 c2 →
      cellAt [[cellE, cellX, cellX, cellO]] r2 c2 = some (BoardCell.mk CellType.EMPTY
        (if Direction.RIGHT = Direction.RIGHT ∨ Direction.RIGHT = Direction.DOWN
          then Direction.RIGHT else Direction.LEFT) 1)) ∧
    (∀ r2 c2, inSpan cellX 0 0 r2 c2 →
      ¬ inSpan cellX (movedAnchor .RIGHT 0 0 1).1 (movedAnchor .RIGHT 0 0 1).2 r2 c2 →
      vacated .RIGHT cellX 0 0 1 r2 c2) :=
  C24_vacated_placeholder boardOdd [[cellE, cellX, cellX, cellO]] 1 4 cellX 0 0 0 0 .RIGHT 1
    (by decide) (by decide) (by decide) rfl

end RushHour
